import Mathlib

/-! Very-Simple-VM: a shallow embedding of `src/src/main.cpp`.

(`src/main.cpp` is the same program with trace printing under `#ifdef debug`.)
The virtual machine of the repository executes a stream of `int` words against
two general registers, a compare register, a memory array, a value stack and a
call stack.  The definitions below follow `class VirtualMachine` member by
member, with explicit state passing: a member function `int f(args)` becomes
`f : args → VirtualMachine → Int × VirtualMachine`.

Modelling conventions
* words are `Int`; the results of `+`, `-`, `*`, `/` are reduced to the 32-bit
  two's-complement range by `wrap32` (what the usual hosts do on overflow);
* a `std::vector` used as a stack (`stack`, `proc_stack`) is a `List` whose
  head is the vector's back;
* `std::map<int,int> label` read through `operator[]` is a total function with
  value `0` at absent keys;
* `cin`/`cout` are the fields `input` (unread integers) and `output`;
* the operands of `read() + read()` and the like are resolved left to right,
  the order the demonstration programs rely on;
* where the source leaves a value unspecified (an operand read with an
  unrecognised tag returns without a value, `cin >> a` on exhausted input)
  the model takes the next value of the supply `undef`;
* the division of `DIV` has no guard in the source: with the divisor `0`, or
  with `INT_MIN / -1`, whose quotient no `int` holds, the processor traps and
  the process is killed.  The field `trapped` records that; the loop of `run`
  never goes on from a state in which it is set;
* `trace` is a ghost log: every call of a storage accessor records its
  argument there.  No operation reads it.
-/

namespace VSVM

/-! ## Resource types (addressing-mode tags) -/

@[simp] def EAX : Int := 0
@[simp] def EBX : Int := 1
@[simp] def CMX : Int := 2
@[simp] def MEM : Int := 16
@[simp] def STA : Int := 32
@[simp] def PTR : Int := 48
@[simp] def CON : Int := 64

/-! ## Instruction set -/

@[simp] def MOV : Int := 0
@[simp] def LBL : Int := 1
@[simp] def ADD : Int := 2
@[simp] def SUB : Int := 3
@[simp] def MUL : Int := 4
@[simp] def DIV : Int := 5
@[simp] def CMP : Int := 6
@[simp] def BIA : Int := 7
@[simp] def BIO : Int := 8
@[simp] def BIX : Int := 9
@[simp] def NOT : Int := 10
@[simp] def JMP : Int := 11
@[simp] def JEQ : Int := 12
@[simp] def JNE : Int := 13
@[simp] def JLT : Int := 14
@[simp] def JGT : Int := 15
@[simp] def JLE : Int := 16
@[simp] def JGE : Int := 17
@[simp] def CAL : Int := 18
@[simp] def CEQ : Int := 19
@[simp] def CNE : Int := 20
@[simp] def CLT : Int := 21
@[simp] def CGT : Int := 22
@[simp] def CLE : Int := 23
@[simp] def CGE : Int := 24
@[simp] def NAV : Int := 25
@[simp] def RET : Int := 26
@[simp] def EXI : Int := 27
@[simp] def PRINT : Int := 28
@[simp] def INPUT : Int := 29

/-! ## State -/

/-- What the machine writes to standard output: the value of a `PRINT`, or the
failure notice of `run`. -/
inductive Out where
  | value (v : Int)
  | notice
  deriving DecidableEq, Repr

/-- Ghost log entries: one per call of a storage accessor, with the argument
of the call and the size the accessor's guard compares against. -/
inductive Event where
  | mem (addr : Int) (size : Nat)
  | set_mem (addr : Int) (v : Int) (size : Nat)
  | push (v : Int)
  | pop (depth : Nat)
  | proc_push (v : Int)
  | proc_restore (depth : Nat)
  | lbl (id : Int) (entry : Int)
  deriving DecidableEq, Repr

/-- The accessor call recorded by the event ran into its guard: a memory
address outside `[0, size)`, a pop or restore on an empty stack, a label whose
table entry is `0`. -/
def Event.faulty : Event → Bool
  | .mem addr size => decide (addr < 0 ∨ (size : Int) ≤ addr)
  | .set_mem addr _ size => decide (addr < 0 ∨ (size : Int) ≤ addr)
  | .push _ => false
  | .pop depth => decide (depth = 0)
  | .proc_push _ => false
  | .proc_restore depth => decide (depth = 0)
  | .lbl _ entry => decide (entry = 0)

/-- The event is a call of `lbl`. -/
def Event.isLbl : Event → Bool
  | .lbl _ _ => true
  | _ => false

/-- The data members of `class VirtualMachine`, the two console streams, the
supply of unspecified values, the ghost log, and `trapped`: the process has
been killed by the trap of an integer division. -/
structure VirtualMachine where
  pc : Int
  code : List Int
  memory : List Int
  stack : List Int
  proc_stack : List Int
  label : Int → Int
  logic_error_flag : Bool
  stop_flag : Bool
  eax : Int
  ebx : Int
  cmx : Int
  input : List Int
  output : List Out
  undef : Nat → Int
  trace : List Event
  trapped : Bool

/-- Reduction of an integer to the range of a 32-bit `int`. -/
def wrap32 (x : Int) : Int := (x + 2147483648) % 4294967296 - 2147483648

/-- Record an accessor call in the ghost log. -/
def log (e : Event) (s : VirtualMachine) : VirtualMachine :=
  { s with trace := e :: s.trace }

/-- Take the next unspecified value. -/
def takeUndef (s : VirtualMachine) : Int × VirtualMachine :=
  (s.undef 0, { s with undef := fun n => s.undef (n + 1) })

/-- The constructor `VirtualMachine(int memory_size)`; the console input the
run will see is fixed here. -/
def VirtualMachine.fresh (memory_size : Nat) (input : List Int)
    (undef : Nat → Int) : VirtualMachine :=
  { pc := 0, code := [], memory := List.replicate memory_size 0, stack := [],
    proc_stack := [], label := fun _ => 0, logic_error_flag := false,
    stop_flag := false, eax := 0, ebx := 0, cmx := 0, input := input,
    output := [], undef := undef, trace := [], trapped := false }

/-! ## Private members -/

/-- Member `int nextCode()`.  The comparison `pc >= code.size()` is unsigned, so a
negative `pc` also counts as past the end. -/
def nextCode (s : VirtualMachine) : Int × VirtualMachine :=
  if s.pc < 0 ∨ (s.code.length : Int) ≤ s.pc then
    (EXI, { s with stop_flag := true })
  else
    (s.code.getD s.pc.toNat 0, { s with pc := s.pc + 1 })

/-- Member `void push(int v)`. -/
def push (v : Int) (s : VirtualMachine) : VirtualMachine :=
  let s := log (.push v) s
  { s with stack := v :: s.stack }

/-- Member `int top()` (no caller in the source). -/
def top (s : VirtualMachine) : Int × VirtualMachine :=
  match s.stack with
  | [] => (0, { s with logic_error_flag := true })
  | t :: _ => (t, s)

/-- Member `int pop()`. -/
def pop (s : VirtualMachine) : Int × VirtualMachine :=
  let s := log (.pop s.stack.length) s
  match s.stack with
  | [] => (0, { s with logic_error_flag := true })
  | t :: rest => (t, { s with stack := rest })

/-- Member `void proc_push(int v)`. -/
def proc_push (v : Int) (s : VirtualMachine) : VirtualMachine :=
  let s := log (.proc_push v) s
  { s with proc_stack := v :: s.proc_stack }

/-- Member `int proc_restore()`. -/
def proc_restore (s : VirtualMachine) : Int × VirtualMachine :=
  let s := log (.proc_restore s.proc_stack.length) s
  match s.proc_stack with
  | [] => (0, { s with logic_error_flag := true })
  | t :: rest => (t, { s with proc_stack := rest })

/-- Member `int mem(int addr)`. -/
def mem (addr : Int) (s : VirtualMachine) : Int × VirtualMachine :=
  let s := log (.mem addr s.memory.length) s
  if addr < 0 ∨ (s.memory.length : Int) ≤ addr then
    (0, { s with logic_error_flag := true })
  else
    (s.memory.getD addr.toNat 0, s)

/-- Member `void set_mem(int addr, int v)`. -/
def set_mem (addr : Int) (v : Int) (s : VirtualMachine) : VirtualMachine :=
  let s := log (.set_mem addr v s.memory.length) s
  if addr < 0 ∨ (s.memory.length : Int) ≤ addr then
    { s with logic_error_flag := true }
  else
    { s with memory := s.memory.set addr.toNat v }

/-- Member `int read()` with the depth of the `PTR` recursion bounded by `fuel`;
`none` when the bound is hit. -/
def readFuel : Nat → VirtualMachine → Option (Int × VirtualMachine)
  | 0, _ => none
  | fuel + 1, s =>
    let (type, s) := nextCode s
    if type = EAX then some (s.eax, s)
    else if type = EBX then some (s.ebx, s)
    else if type = CMX then some (s.cmx, s)
    else if type = MEM then
      let (addr, s) := nextCode s
      some (mem addr s)
    else if type = STA then some (pop s)
    else if type = PTR then
      match readFuel fuel s with
      | none => none
      | some (addr, s) => some (mem addr s)
    else if type = CON then some (nextCode s)
    else some (takeUndef s)

/-- Recursion depth that `read` cannot exceed from this state: one call per
remaining program word, and one more for the fetch past the end. -/
def readDepth (s : VirtualMachine) : Nat :=
  s.code.length - s.pc.toNat + 1

/-- Member `int read()`. -/
def read (s : VirtualMachine) : Int × VirtualMachine :=
  (readFuel (readDepth s) s).getD (0, s)

/-- Member `void write(int v)`. -/
def write (v : Int) (s : VirtualMachine) : VirtualMachine :=
  let (type, s) := nextCode s
  if type = EAX then { s with eax := v }
  else if type = EBX then { s with ebx := v }
  else if type = CMX then { s with cmx := v }
  else if type = MEM then
    let (addr, s) := nextCode s
    set_mem addr v s
  else if type = STA then push v s
  else if type = PTR then
    let (addr, s) := read s
    set_mem addr v s
  else s

/-- Member `int lbl(int id)`. -/
def lbl (id : Int) (s : VirtualMachine) : Int × VirtualMachine :=
  let s := log (.lbl id (s.label id)) s
  if s.label id = 0 then
    (0, { s with logic_error_flag := true })
  else
    (s.label id, s)

/-! ## Public members -/

/-- One iteration of the label-resolving loop of `fetch`, at index `i`. -/
def fetchStep (s : VirtualMachine) (i : Nat) : VirtualMachine :=
  if s.code.getD i 0 = LBL then
    if i + 1 < s.code.length then
      { s with label := fun k =>
          if k = s.code.getD (i + 1) 0 then (i : Int) + 2 else s.label k }
    else
      { s with logic_error_flag := true }
  else s

/-- Member `void fetch(vector<int> p_code)`. -/
def fetch (p_code : List Int) (s : VirtualMachine) : VirtualMachine :=
  (List.range p_code.length).foldl fetchStep { s with code := p_code }

/-- Statement `pc = lbl(a)`. -/
def jump (a : Int) (s : VirtualMachine) : VirtualMachine :=
  let (target, s) := lbl a s
  { s with pc := target }

/-- Statements `proc_push(pc + 1); pc = lbl(a)` of the conditional calls. -/
def call (a : Int) (s : VirtualMachine) : VirtualMachine :=
  jump a (proc_push (s.pc + 1) s)

/-- The three-operand instructions other than `DIV`: `write(f(read(), read()))`. -/
def binary (f : Int → Int → VirtualMachine → Int × VirtualMachine)
    (s : VirtualMachine) : VirtualMachine :=
  let (a, s) := read s
  let (b, s) := read s
  let (c, s) := f a b s
  write c s

/-! ### The cases of the `switch` in `run` -/

/-- Switch `case MOV: write(read());` -/
def opMOV (s : VirtualMachine) : VirtualMachine :=
  let (v, s) := read s
  write v s

/-- Switch `case LBL: nextCode();` -/
def opLBL (s : VirtualMachine) : VirtualMachine :=
  (nextCode s).2

/-- Switch `case DIV: write(read() / read());`.  Both operands are resolved, then the
`int`s are divided with no guard: with the divisor `0`, or with `INT_MIN / -1`, the
processor traps and the process is killed before `write` is called; otherwise the
quotient, truncated toward zero, is written. -/
def opDIV (s : VirtualMachine) : VirtualMachine :=
  let (a, s) := read s
  let (b, s) := read s
  if b = 0 ∨ (a = -2147483648 ∧ b = -1) then { s with trapped := true }
  else write (wrap32 (Int.tdiv a b)) s

/-- Switch `case CMP: cmx = read() - read();` -/
def opCMP (s : VirtualMachine) : VirtualMachine :=
  let (a, s) := read s
  let (b, s) := read s
  { s with cmx := wrap32 (a - b) }

/-- Switch `case NOT: write(!read());` -/
def opNOT (s : VirtualMachine) : VirtualMachine :=
  let (a, s) := read s
  write (if a = 0 then 1 else 0) s

/-- Switch `case JMP: pc = lbl(nextCode());` -/
def opJMP (s : VirtualMachine) : VirtualMachine :=
  let (a, s) := nextCode s
  jump a s

/-- Switch `case JEQ: a = nextCode(); if (cmx == 0) pc = lbl(a);` and the five other
conditional jumps, which differ in the test on `cmx`. -/
def condJump (test : Int → Bool) (s : VirtualMachine) : VirtualMachine :=
  let (a, s) := nextCode s
  if test s.cmx then jump a s else s

/-- Switch `case CAL: proc_push(pc + 1); pc = lbl(nextCode());` -/
def opCAL (s : VirtualMachine) : VirtualMachine :=
  let s := proc_push (s.pc + 1) s
  let (a, s) := nextCode s
  jump a s

/-- Switch `case CEQ: a = nextCode(); if (cmx == 0) { proc_push(pc + 1); pc = lbl(a); }`
and the five other conditional calls, which differ in the test on `cmx`. -/
def condCall (test : Int → Bool) (s : VirtualMachine) : VirtualMachine :=
  let (a, s) := nextCode s
  if test s.cmx then call a s else s

/-- Switch `case RET: pc = proc_restore();` -/
def opRET (s : VirtualMachine) : VirtualMachine :=
  let (target, s) := proc_restore s
  { s with pc := target }

/-- Switch `case EXI: stop_flag = true;` -/
def opEXI (s : VirtualMachine) : VirtualMachine :=
  { s with stop_flag := true }

/-- Switch `case PRINT: cout << read() << endl;` -/
def opPRINT (s : VirtualMachine) : VirtualMachine :=
  let (v, s) := read s
  { s with output := s.output ++ [Out.value v] }

/-- Switch `case INPUT: cin >> a; write(a);` -/
def opINPUT (s : VirtualMachine) : VirtualMachine :=
  match s.input with
  | a :: rest => write a { s with input := rest }
  | [] =>
    let (a, s) := takeUndef s
    write a s

/-- The `switch (opcode)` of `run`. -/
def exec (opcode : Int) (s : VirtualMachine) : VirtualMachine :=
  if opcode = MOV then opMOV s
  else if opcode = LBL then opLBL s
  else if opcode = ADD then binary (fun a b s => (wrap32 (a + b), s)) s
  else if opcode = SUB then binary (fun a b s => (wrap32 (a - b), s)) s
  else if opcode = MUL then binary (fun a b s => (wrap32 (a * b), s)) s
  else if opcode = DIV then opDIV s
  else if opcode = CMP then opCMP s
  else if opcode = BIA then binary (fun a b s => (Int.land a b, s)) s
  else if opcode = BIO then binary (fun a b s => (Int.lor a b, s)) s
  else if opcode = BIX then binary (fun a b s => (Int.xor a b, s)) s
  else if opcode = NOT then opNOT s
  else if opcode = JMP then opJMP s
  else if opcode = JEQ then condJump (fun cmx => decide (cmx = 0)) s
  else if opcode = JNE then condJump (fun cmx => decide (cmx ≠ 0)) s
  else if opcode = JLT then condJump (fun cmx => decide (cmx < 0)) s
  else if opcode = JGT then condJump (fun cmx => decide (cmx > 0)) s
  else if opcode = JLE then condJump (fun cmx => decide (cmx ≤ 0)) s
  else if opcode = JGE then condJump (fun cmx => decide (cmx ≥ 0)) s
  else if opcode = CAL then opCAL s
  else if opcode = CEQ then condCall (fun cmx => decide (cmx = 0)) s
  else if opcode = CNE then condCall (fun cmx => decide (cmx ≠ 0)) s
  else if opcode = CLT then condCall (fun cmx => decide (cmx < 0)) s
  else if opcode = CGT then condCall (fun cmx => decide (cmx > 0)) s
  else if opcode = CLE then condCall (fun cmx => decide (cmx ≤ 0)) s
  else if opcode = CGE then condCall (fun cmx => decide (cmx ≥ 0)) s
  else if opcode = NAV then s
  else if opcode = RET then opRET s
  else if opcode = EXI then opEXI s
  else if opcode = PRINT then opPRINT s
  else if opcode = INPUT then opINPUT s
  else s

/-- The body of the loop of `run` below its two flag tests:
`int opcode = nextCode(); switch (opcode) ...`. -/
def cycle (s : VirtualMachine) : VirtualMachine :=
  let (opcode, s) := nextCode s
  exec opcode s

/-- The failure notice of `run`: `cout << "Oops! This code has some errors."`. -/
def notify (s : VirtualMachine) : VirtualMachine :=
  { s with output := s.output ++ [Out.notice] }

/-- Member `void run()`, with the number of loop iterations bounded by `fuel`: the
state in which the loop is left, or `none` when it is not left within `fuel`
iterations: the loop is still running, or the process has been killed by the
trap of a division and `run` never returns. -/
def run : Nat → VirtualMachine → Option VirtualMachine
  | 0, _ => none
  | fuel + 1, s =>
    if s.trapped then none
    else if s.stop_flag then some s
    else if s.logic_error_flag then some (notify s)
    else run fuel (cycle s)

/-- The state of `run` after `n` iterations of its loop, or the state in which
the loop was left, or the process was killed, if that happened earlier. -/
def runCycles : Nat → VirtualMachine → VirtualMachine
  | 0, s => s
  | n + 1, s =>
    if s.trapped then s
    else if s.stop_flag then s
    else if s.logic_error_flag then notify s
    else runCycles n (cycle s)

/-! ## The demonstration programs of `main` -/

/-- The program loaded into `VirtualMachine fibonacci(1024)`. -/
def fibonacci : List Int :=
  [ JMP, 0,
    LBL, 2,
    MOV, CON, 0, STA,
    RET,
    LBL, 4,
    MOV, MEM, 2, STA,
    RET,
    LBL, 3,
    CMP, MEM, 3, MEM, 0,
    JGE, 4,
    MOV, MEM, 2, MEM, 4,
    ADD, MEM, 2, MEM, 1, MEM, 2,
    MOV, MEM, 4, MEM, 1,
    ADD, MEM, 3, CON, 1, MEM, 3,
    JMP, 3,
    LBL, 1,
    MOV, STA, MEM, 0,
    MOV, CON, 0, MEM, 1,
    MOV, CON, 1, MEM, 2,
    CMP, MEM, 0, CON, 1,
    JLT, 2,
    MOV, CON, 1, MEM, 3,
    JMP, 3,
    LBL, 0,
    INPUT, EAX,
    MOV, EAX, STA,
    CMP, EAX, CON, 0,
    JLE, 5,
    CAL, 1,
    PRINT, STA,
    JMP, 0,
    LBL, 5,
    EXI ]

/-- The program loaded into `VirtualMachine counting(1024)`. -/
def counting : List Int :=
  [ JMP, 0,
    LBL, 1,
    ADD, MEM, 0, CON, 1, MEM, 0,
    JMP, 2,
    LBL, 0,
    MOV, CON, 0, MEM, 0,
    LBL, 2,
    CMP, MEM, 0, CON, 100000,
    JLT, 1,
    PRINT, MEM, 0,
    EXI ]

/-- A program in which the operand words `EBX, EAX` of a `MOV` follow the
declaration of label `0`. -/
def clobber : List Int :=
  [ JMP, 0,
    LBL, 0,
    PRINT, CON, 7,
    EXI,
    MOV, EBX, EAX,
    PRINT, CON, 9,
    EXI ]

/-- A program whose conditional call is followed by a one-word instruction. -/
def condcall : List Int :=
  [ CEQ, 5,
    EXI,
    PRINT, CON, 99,
    EXI,
    LBL, 5,
    RET ]

/-! ## Instruction boundaries

The words a handler consumes, read off `run`, `read` and `write`: the
addresses at which the dispatcher fetches an opcode when the program is
executed in sequence from address `0` with no control transfer. -/

/-- Words of the operand that a `read()` starting at address `p` consumes. -/
def readLen (code : List Int) : Nat → Nat → Nat
  | 0, _ => 1
  | fuel + 1, p =>
    let tag := code.getD p EXI
    if tag = MEM ∨ tag = CON then 2
    else if tag = PTR then 1 + readLen code fuel (p + 1)
    else 1

/-- Words of the operand that a `write()` starting at address `p` consumes. -/
def writeLen (code : List Int) (p : Nat) : Nat :=
  let tag := code.getD p EXI
  if tag = MEM then 2
  else if tag = PTR then 1 + readLen code code.length (p + 1)
  else 1

/-- Words of the instruction at address `p`. -/
def instrLen (code : List Int) (p : Nat) : Nat :=
  let opcode := code.getD p EXI
  let r := fun q => readLen code code.length q
  if opcode = MOV ∨ opcode = NOT then
    1 + r (p + 1) + writeLen code (p + 1 + r (p + 1))
  else if opcode = ADD ∨ opcode = SUB ∨ opcode = MUL ∨ opcode = DIV
      ∨ opcode = BIA ∨ opcode = BIO ∨ opcode = BIX then
    let a := r (p + 1)
    let b := r (p + 1 + a)
    1 + a + b + writeLen code (p + 1 + a + b)
  else if opcode = CMP then
    let a := r (p + 1)
    1 + a + r (p + 1 + a)
  else if opcode = LBL ∨ (JMP ≤ opcode ∧ opcode ≤ CGE) then 2
  else if opcode = PRINT then 1 + r (p + 1)
  else if opcode = INPUT then 1 + writeLen code (p + 1)
  else 1

/-- Instruction addresses of the sequential decoding that starts at `p`. -/
def boundariesFrom (code : List Int) : Nat → Nat → List Nat
  | 0, _ => []
  | fuel + 1, p =>
    if p < code.length then p :: boundariesFrom code fuel (p + instrLen code p)
    else []

/-- Instruction addresses of the program. -/
def boundaries (code : List Int) : List Nat :=
  boundariesFrom code code.length 0

/-- The label declarations of a program: `(i, L)` for every `LBL` instruction
at address `i` that is followed by the id word `L`. -/
def declarations (code : List Int) : List (Nat × Int) :=
  ((boundaries code).filter
      (fun i => code.getD i 0 = LBL ∧ i + 1 < code.length)).map
    (fun i => (i, code.getD (i + 1) 0))

/-- The test on `cmx` of the conditional call `opcode` succeeds. -/
def callTest (opcode cmx : Int) : Bool :=
  (opcode = CEQ ∧ cmx = 0) ∨ (opcode = CNE ∧ cmx ≠ 0) ∨
  (opcode = CLT ∧ cmx < 0) ∨ (opcode = CGT ∧ cmx > 0) ∨
  (opcode = CLE ∧ cmx ≤ 0) ∨ (opcode = CGE ∧ cmx ≥ 0)

/-! ## Well-formed programs, the label scan, logged accessor calls -/

/-- The opcode is one of `JMP`, `JEQ` .. `JGE`, `CAL`, `CEQ` .. `CGE`. -/
def isJumpOrCall (opcode : Int) : Bool :=
  decide (JMP ≤ opcode ∧ opcode ≤ CGE)

/-- Every `LBL` instruction is followed by an id word, and the id word of
every jump or call instruction is the id of a label declaration. -/
def wellFormed (code : List Int) : Bool :=
  (boundaries code).all fun i =>
    decide ((code.getD i 0 = LBL → i + 1 < code.length) ∧
      (isJumpOrCall (code.getD i 0) = true → i + 1 < code.length →
        code.getD (i + 1) 0 ∈ (declarations code).map Prod.snd))

/-- The greatest address `i < n` at which the scan of `fetch` finds the word
`LBL` followed by the word `id`. -/
def lastDecl (code : List Int) (id : Int) : Nat → Option Nat
  | 0 => none
  | n + 1 =>
    if code.getD n 0 = LBL ∧ n + 1 < code.length ∧ code.getD (n + 1) 0 = id then
      some n
    else lastDecl code id n

/-- The accessor calls logged between a state `s` and a later state `t`,
latest first. -/
def newEvents (s t : VirtualMachine) : List Event :=
  t.trace.take (t.trace.length - s.trace.length)

/-- What every operation of the run guarantees between the state `s` it starts
in and the state `t` it ends in: the program, the label table and the memory
size are kept, the fault flag is never cleared, the log grows by the calls
made, the fault flag is newly set exactly when one of these calls ran into its
guard, and the output grows by printed values. -/
structure Ext (s t : VirtualMachine) : Prop where
  code : t.code = s.code
  label : t.label = s.label
  size : t.memory.length = s.memory.length
  mono : s.logic_error_flag = true → t.logic_error_flag = true
  log : ∃ evs, t.trace = evs ++ s.trace ∧
    (∀ id entry, Event.lbl id entry ∈ evs → entry = s.label id) ∧
    (t.logic_error_flag = true →
      s.logic_error_flag = true ∨ ∃ e ∈ evs, e.faulty = true) ∧
    ((∃ e ∈ evs, e.faulty = true) → t.logic_error_flag = true)
  out : ∃ vs : List Int, t.output = s.output ++ vs.map Out.value

/-- A program whose only instructions are a move from the value stack and the
terminate opcode. -/
def underflow : List Int :=
  [ MOV, STA, EAX,
    EXI ]

/-- The label table that `fetch` builds on a fresh machine: the address after
the last `LBL, id` pair of words, and `0` for an id with no such pair. -/
def labelTable (code : List Int) (id : Int) : Int :=
  match lastDecl code id code.length with
  | some i => (i : Int) + 2
  | none => 0

/-- A program that stores `5` in cell `0` and prints through a pointer taken
from the empty value stack. -/
def nested : List Int :=
  [ MOV, CON, 5, MEM, 0,
    PRINT, PTR, STA,
    EXI ]

/-- A program that stores `5` in cell `0` and then stores `9` through a
pointer taken from the empty value stack. -/
def nestedStore : List Int :=
  [ MOV, CON, 5, MEM, 0,
    MOV, CON, 9, PTR, STA,
    EXI ]

/-- The state in which the `PRINT` of `nested` calls `read()`. -/
def nestedRead : VirtualMachine :=
  (nextCode (cycle (fetch nested (VirtualMachine.fresh 1024 [] (fun _ => 0))))).2

/-- The state in which the second `MOV` of `nestedStore` calls `write(9)`. -/
def nestedWrite : VirtualMachine :=
  (read (nextCode (cycle (fetch nestedStore
    (VirtualMachine.fresh 1024 [] (fun _ => 0))))).2).2

/-- A state at the start of a segment of four stack-top tags, with one value
on the value stack. -/
def stackSegment : VirtualMachine :=
  { VirtualMachine.fresh 8 [] (fun _ => 0) with
    code := [STA, STA, STA, STA], stack := [4] }

/-- The state in which `condcall` executes its `RET`. -/
def atReturn : VirtualMachine :=
  cycle (fetch condcall (VirtualMachine.fresh 1024 [] (fun _ => 0)))

/-- What a `read()` leaves alone, and the value it yields in terms of its last
accessor call. -/
structure ReadSpec (s : VirtualMachine) (r : Int × VirtualMachine) : Prop where
  memory : r.2.memory = s.memory
  eax : r.2.eax = s.eax
  ebx : r.2.ebx = s.ebx
  cmx : r.2.cmx = s.cmx
  proc_stack : r.2.proc_stack = s.proc_stack
  value : ∃ evs, r.2.trace = evs ++ s.trace ∧
    (∀ e, evs.head? = some e → e.faulty = true → r.1 = 0) ∧
    (∀ addr size, evs.head? = some (Event.mem addr size) →
      (Event.mem addr size).faulty = false → r.1 = s.memory.getD addr.toNat 0)

/-! ## Program segments of stack-top operands -/

/-- Calls of `write(v)`, one for each value of the list in turn. -/
def writes : List Int → VirtualMachine → VirtualMachine
  | [], s => s
  | v :: vs, s => writes vs (write v s)

/-- In turn, `n` calls of `read()`, with the values they yield in the order of
the calls. -/
def reads : Nat → VirtualMachine → List Int × VirtualMachine
  | 0, s => ([], s)
  | n + 1, s =>
    let (v, s) := read s
    let (vs, s) := reads n s
    (v :: vs, s)

/-! ## The runs of the demonstration programs -/

/-- The values that the logged calls of `set_mem` stored at address `addr`,
latest first. -/
def stored (addr : Int) (tr : List Event) : List Int :=
  tr.filterMap fun e =>
    match e with
    | .set_mem a v _ => if a = addr then some v else none
    | _ => none

/-- The calls of `proc_push` and `proc_restore` in a log, latest first. -/
def callReturns (tr : List Event) : List Event :=
  tr.filter fun e =>
    match e with
    | .proc_push _ => true
    | .proc_restore _ => true
    | _ => false

/-- The recurrence `a = 0, b = 1; repeat n times: c = b; b = a + b; a = c`:
the pair `(a, b)` after `n` repetitions. -/
def fibRec : Nat → Int × Int
  | 0 => (0, 1)
  | n + 1 => ((fibRec n).2, (fibRec n).1 + (fibRec n).2)

/-- The label table of the counting program. -/
def countingLabels : Int → Int := labelTable counting

/-- A state of the counting run: cell `0` holds `k`, no flag is set. -/
def cnt (pc k cmx : Int) (input : List Int) (undef : Nat → Int) (out : List Out) (tr : List Event) :
    VirtualMachine :=
  { pc := pc, code := counting, memory := k :: List.replicate 1023 0, stack := [], proc_stack := [],
    label := countingLabels, logic_error_flag := false, stop_flag := false, eax := 0,
    ebx := 0, cmx := cmx, input := input, output := out, undef := undef, trace := tr,
    trapped := false }

/-- The log of the counting run when the loop head is reached with cell `0`
equal to `k`. -/
def countingTrace : Nat → List Event
  | 0 => [Event.set_mem 0 0 1024, Event.lbl 0 15]
  | k + 1 =>
    [Event.lbl 2 22, Event.set_mem 0 ((k : Int) + 1) 1024, Event.mem 0 1024, Event.lbl 1 4,
      Event.mem 0 1024] ++ countingTrace k

/-- The label table of the Fibonacci program. -/
def fibonacciLabels : Int → Int := labelTable fibonacci

/-- A state of the Fibonacci run: the five memory cells the program uses, the
two stacks, the registers it uses, the console and the log; no flag is set. -/
def fibSt (pc m0 m1 m2 m3 m4 : Int) (st ps : List Int) (eax cmx : Int) (inp : List Int)
    (u : Nat → Int) (out : List Out) (tr : List Event) : VirtualMachine :=
  { pc := pc, code := fibonacci,
    memory := m0 :: m1 :: m2 :: m3 :: m4 :: List.replicate 1019 0,
    stack := st, proc_stack := ps, label := fibonacciLabels, logic_error_flag := false,
    stop_flag := false, eax := eax, ebx := 0, cmx := cmx, input := inp, output := out,
    undef := u, trace := tr, trapped := false }

/-- The state at the loop head `LBL 3` when the recurrence has been repeated
`j` times. -/
def fibLoop (n j : Nat) (c : Int) (inp : List Int) (u : Nat → Int) (tr : List Event) :
    VirtualMachine :=
  fibSt 18 n (fibRec j).1 (fibRec j).2 ((j + 1 : Nat) : Int) (fibRec j).1 [] [96] n c inp u [] tr

/-! ## Definitions for the jumps, the arithmetic, reloading, frames and bounds -/

/-- The test on `cmx` of the conditional jump `opcode` succeeds. -/
def jumpTest (opcode cmx : Int) : Bool :=
  (opcode = JEQ ∧ cmx = 0) ∨ (opcode = JNE ∧ cmx ≠ 0) ∨
  (opcode = JLT ∧ cmx < 0) ∨ (opcode = JGT ∧ cmx > 0) ∨
  (opcode = JLE ∧ cmx ≤ 0) ∨ (opcode = JGE ∧ cmx ≥ 0)

/-- The words `LBL, id` stand at the addresses `i, i + 1` of the program. -/
def isDecl (code : List Int) (i : Nat) (id : Int) : Prop :=
  i + 1 < code.length ∧ code.getD i 0 = LBL ∧ code.getD (i + 1) 0 = id

/-- A program whose native call is followed by a word that is also an opcode. -/
def navSkip : List Int :=
  [ NAV, 27,
    PRINT, CON, 7,
    EXI ]

/-- A program that declares label `7`. -/
def stale1 : List Int :=
  [ LBL, 7,
    EXI ]

/-- A program that jumps to label `7` and does not declare it. -/
def stale2 : List Int :=
  [ JMP, 7,
    EXI ]

/-- A state in which `write` finds the tag `CON`. -/
def constTarget : VirtualMachine :=
  { VirtualMachine.fresh 8 [] (fun _ => 0) with code := [CON, 5] }

/-- The state after the `LBL` instruction of a program that goes on with `JEQ 3`. -/
def jeqState : VirtualMachine :=
  cycle (fetch [LBL, 3, JEQ, 3, EXI] (VirtualMachine.fresh 8 [] (fun _ => 0)))

/-- The integer quotient of `a` by `b` truncated toward zero: the quotient of the absolute
values, with the sign of `a * b`. -/
def truncQuot (a b : Int) : Int :=
  Int.sign a * Int.sign b * ((a.natAbs / b.natAbs : Nat) : Int)

/-- A state at `DIV CON INT_MIN CON -1 EAX`, with `5` in `eax`. -/
def minDiv : VirtualMachine :=
  { VirtualMachine.fresh 8 [] (fun _ => 0) with
    code := [DIV, CON, -2147483648, CON, -1, EAX], eax := 5 }

/-- A state at a `SUB` whose two source operands are stack-top operands. -/
def subTop : VirtualMachine :=
  { VirtualMachine.fresh 8 [] (fun _ => 0) with
    code := [SUB, STA, STA, EAX], stack := [10, 3] }

/-- What the operations that resolve operands guarantee between the state `s` they
start in and the state `t` they end in: the program, the label table and the call stack are
kept, and a program counter in `[0, code.size()]` stays there. -/
structure Keep (s t : VirtualMachine) : Prop where
  code : t.code = s.code
  label : t.label = s.label
  proc_stack : t.proc_stack = s.proc_stack
  pc_lo : 0 ≤ s.pc → 0 ≤ t.pc
  pc_hi : s.pc ≤ s.code.length → t.pc ≤ s.code.length

/-- The bounds on the program counter, the label table and the call stack of a state
that runs the program `code`. -/
structure Bounded (code : List Int) (s : VirtualMachine) : Prop where
  prog : s.code = code
  label : ∀ id, 0 ≤ s.label id ∧ s.label id ≤ code.length
  pc_lo : 0 ≤ s.pc
  pc_hi : s.pc ≤ (code.length : Int) + 1
  calls : ∀ e ∈ s.proc_stack, 1 ≤ e ∧ e ≤ (code.length : Int) + 1

/-- The state that `run` has reached after `n` iterations of its loop on the program
`code` loaded into a fresh machine. -/
def reached (code : List Int) (size : Nat) (input : List Int) (undef : Nat → Int)
    (n : Nat) : VirtualMachine :=
  runCycles n (fetch code (VirtualMachine.fresh size input undef))

/-- The number of recursive calls that one call of `read` in state `s` makes, each nested
in the one before through `case PTR: return mem(read());`, counted up to `fuel`: a call
that fetches the tag `PTR` makes one recursive call in the state after that fetch, a call
that fetches any other word makes none. -/
def nestedReads : Nat → VirtualMachine → Nat
  | 0, _ => 0
  | fuel + 1, s =>
    if (nextCode s).1 = PTR then nestedReads fuel (nextCode s).2 + 1 else 0

/-! # Theorems -/

set_option maxRecDepth 100000

/-! ## Fetching a word -/

theorem nextCode_in (s : VirtualMachine) (h0 : 0 ≤ s.pc)
    (h1 : s.pc < s.code.length) :
    nextCode s = (s.code.getD s.pc.toNat 0, { s with pc := s.pc + 1 }) := by
  unfold nextCode
  rw [if_neg]
  omega

theorem nextCode_out (s : VirtualMachine)
    (h : s.pc < 0 ∨ (s.code.length : Int) ≤ s.pc) :
    nextCode s = (EXI, { s with stop_flag := true }) := by
  unfold nextCode
  rw [if_pos h]

/-! ## C1: label declarations and the label table -/

/-- C1 (the code departs from the claim).  In the Fibonacci program of `main`
every label id is declared once and label `2` is declared by the `LBL`
instruction at address `2`, so a jump to `2` should go to address `4`.  The
loaded table maps `2` to `43`: the scan of `fetch` also takes the operand
words `1, ADD` at addresses `41, 42` for a declaration.  Executing `JLT 2` at
address `72` with a negative `cmx` therefore sets the program counter to `43`.
The same happens in a complete run: `clobber` declares label `0` at address
`2`, its `JMP 0` goes to address `11` and the run prints `9`, not `7`. -/
theorem C1_declared_label_clobbered :
    ((declarations fibonacci).map Prod.snd).Nodup ∧
    (2, 2) ∈ declarations fibonacci ∧
    (cycle { fetch fibonacci (VirtualMachine.fresh 1024 [] (fun _ => 0)) with
        pc := 72, cmx := -1 }).pc = 43 ∧
    declarations clobber = [(2, 0)] ∧
    (cycle (fetch clobber (VirtualMachine.fresh 1024 [] (fun _ => 0)))).pc = 11 ∧
    (run 4 (fetch clobber (VirtualMachine.fresh 1024 [] (fun _ => 0)))).map
      (fun s => (s.output, s.logic_error_flag)) = some ([Out.value 9], false) := by
  decide

/-! ## C2: the return address of a call -/

/-- The unconditional call pushes the address after its operand word. -/
theorem cal_pushes (s : VirtualMachine) (h0 : 0 ≤ s.pc)
    (h1 : s.pc < s.code.length) (hop : s.code.getD s.pc.toNat 0 = CAL) :
    (cycle s).proc_stack = (s.pc + 2) :: s.proc_stack := by
  unfold cycle
  rw [nextCode_in s h0 h1, hop]
  simp [exec, opCAL, proc_push, log, jump, lbl, nextCode]
  split_ifs <;> simp [add_assoc]

/-- The call stack after `proc_push(pc + 1); pc = lbl(a)`. -/
theorem call_proc_stack (a : Int) (s : VirtualMachine) :
    (call a s).proc_stack = (s.pc + 1) :: s.proc_stack := by
  simp only [call, proc_push, log, jump, lbl]
  split_ifs <;> rfl

/-- A conditional call whose test succeeds pushes the address one word after
the one that follows its operand word. -/
theorem conditional_call_pushes (s : VirtualMachine) (h0 : 0 ≤ s.pc)
    (h1 : s.pc + 1 < s.code.length)
    (ht : callTest (s.code.getD s.pc.toNat 0) s.cmx = true) :
    (cycle s).proc_stack = (s.pc + 3) :: s.proc_stack := by
  unfold cycle
  rw [nextCode_in s h0 (by omega)]
  simp only [callTest, Bool.or_eq_true, Bool.and_eq_true, decide_eq_true_eq] at ht
  rcases ht with h | h | h | h | h | h <;> obtain ⟨hop, hc⟩ := h <;>
    rw [hop] <;> simp only [exec, condCall] <;>
    rw [nextCode_in _ (by simp; omega) (by simp; omega)] <;>
    simp [hc, call_proc_stack, add_assoc]

/-- C2 (the code departs from the claim).  In `condcall` the conditional call
`CEQ 5` at address `0` succeeds on a fresh machine; the claim has the return
address `2`, the code pushes `3`.  After the `RET` the program counter is `3`,
so the `EXI` at address `2` is skipped and the run prints `99`. -/
theorem C2_conditional_call_return_address :
    (cycle (fetch condcall (VirtualMachine.fresh 1024 [] (fun _ => 0)))).proc_stack
      = [3] ∧
    (cycle (cycle (fetch condcall
      (VirtualMachine.fresh 1024 [] (fun _ => 0))))).pc = 3 ∧
    (run 5 (fetch condcall (VirtualMachine.fresh 1024 [] (fun _ => 0)))).map
      (fun s => (s.output, s.logic_error_flag)) = some ([Out.value 99], false) := by
  decide

/-! ## Operations extend the state -/

theorem Ext.refl (s : VirtualMachine) : Ext s s :=
  ⟨rfl, rfl, rfl, id, ⟨[], by simp⟩, ⟨[], by simp⟩⟩

theorem Ext.trans {s t u : VirtualMachine} (h1 : Ext s t) (h2 : Ext t u) : Ext s u := by
  obtain ⟨c1, l1, z1, m1, ⟨e1, t1, b1, f1, g1⟩, ⟨o1, ho1⟩⟩ := h1
  obtain ⟨c2, l2, z2, m2, ⟨e2, t2, b2, f2, g2⟩, ⟨o2, ho2⟩⟩ := h2
  refine ⟨c2.trans c1, l2.trans l1, z2.trans z1, fun h => m2 (m1 h), ⟨e2 ++ e1, ?_, ?_, ?_, ?_⟩,
    ⟨o1 ++ o2, by simp [ho2, ho1]⟩⟩
  · simp [t2, t1]
  · intro id entry h
    rcases List.mem_append.1 h with h | h
    · rw [b2 id entry h, l1]
    · exact b1 id entry h
  · intro h
    rcases f2 h with h | ⟨e, he, hf⟩
    · rcases f1 h with h | ⟨e, he, hf⟩
      · exact Or.inl h
      · exact Or.inr ⟨e, List.mem_append.2 (Or.inr he), hf⟩
    · exact Or.inr ⟨e, List.mem_append.2 (Or.inl he), hf⟩
  · rintro ⟨e, he, hf⟩
    rcases List.mem_append.1 he with h | h
    · exact g2 ⟨e, h, hf⟩
    · exact m2 (g1 ⟨e, h, hf⟩)

/-- A step that logs nothing and leaves the program, the label table, the memory size, the fault flag and the output alone. -/
theorem Ext.of_frame {s t : VirtualMachine} (hc : t.code = s.code) (hl : t.label = s.label)
    (hz : t.memory.length = s.memory.length) (he : t.logic_error_flag = s.logic_error_flag)
    (ht : t.trace = s.trace) (ho : t.output = s.output) : Ext s t :=
  ⟨hc, hl, hz, fun h => by rw [he]; exact h, ⟨[], by simp [ht, he]⟩, ⟨[], by simp [ho]⟩⟩

/-- A step that logs one accessor call. -/
theorem Ext.of_event {s t : VirtualMachine} (e : Event) (hc : t.code = s.code)
    (hl : t.label = s.label) (hz : t.memory.length = s.memory.length)
    (he : t.logic_error_flag = (s.logic_error_flag || e.faulty))
    (hb : ∀ id entry, e = Event.lbl id entry → entry = s.label id)
    (ht : t.trace = e :: s.trace) (ho : t.output = s.output) : Ext s t := by
  refine ⟨hc, hl, hz, fun h => by rw [he, h]; rfl, ⟨[e], by simp [ht], ?_, ?_, ?_⟩, ⟨[], by simp [ho]⟩⟩
  · intro id entry h
    exact hb id entry (List.mem_singleton.1 h).symm
  · intro h
    rw [he] at h
    rcases Bool.or_eq_true _ _ ▸ h with h | h
    · exact Or.inl h
    · exact Or.inr ⟨e, by simp, h⟩
  · rintro ⟨e', he', hf⟩
    rw [he]
    simp at he'
    subst he'
    simp [hf]

theorem Ext_nextCode (s : VirtualMachine) : Ext s (nextCode s).2 := by
  unfold nextCode
  split_ifs <;> exact Ext.of_frame rfl rfl rfl rfl rfl rfl

theorem Ext_push (v : Int) (s : VirtualMachine) : Ext s (push v s) :=
  Ext.of_event (.push v) rfl rfl rfl (by simp [push, VSVM.log, Event.faulty]) (by simp) rfl rfl

theorem Ext_proc_push (v : Int) (s : VirtualMachine) : Ext s (proc_push v s) :=
  Ext.of_event (.proc_push v) rfl rfl rfl (by simp [proc_push, VSVM.log, Event.faulty]) (by simp) rfl rfl

theorem Ext_pop (s : VirtualMachine) : Ext s (pop s).2 := by
  refine Ext.of_event (.pop s.stack.length) ?_ ?_ ?_ ?_ (by simp) ?_ ?_ <;>
    unfold pop <;> cases h : s.stack <;> simp [VSVM.log, Event.faulty, h]

theorem Ext_proc_restore (s : VirtualMachine) : Ext s (proc_restore s).2 := by
  refine Ext.of_event (.proc_restore s.proc_stack.length) ?_ ?_ ?_ ?_ (by simp) ?_ ?_ <;>
    unfold proc_restore <;> cases h : s.proc_stack <;> simp [VSVM.log, Event.faulty, h]

theorem Ext_mem (a : Int) (s : VirtualMachine) : Ext s (mem a s).2 := by
  refine Ext.of_event (.mem a s.memory.length) ?_ ?_ ?_ ?_ (by simp) ?_ ?_ <;>
    unfold mem <;> simp only [VSVM.log] <;> split_ifs with h <;> simp [Event.faulty, h]

theorem Ext_set_mem (a v : Int) (s : VirtualMachine) : Ext s (set_mem a v s) := by
  refine Ext.of_event (.set_mem a v s.memory.length) ?_ ?_ ?_ ?_ (by simp) ?_ ?_ <;>
    unfold set_mem <;> simp only [VSVM.log] <;> split_ifs with h <;> simp [Event.faulty, h]

theorem Ext_lbl (a : Int) (s : VirtualMachine) : Ext s (lbl a s).2 := by
  have hb : ∀ id entry, Event.lbl a (s.label a) = Event.lbl id entry → entry = s.label id := by
    intro id entry h
    cases h
    rfl
  refine Ext.of_event (.lbl a (s.label a)) ?_ ?_ ?_ ?_ hb ?_ ?_ <;>
    unfold lbl <;> simp only [VSVM.log] <;> split_ifs with h <;> simp [Event.faulty, h]

theorem Ext_takeUndef (s : VirtualMachine) : Ext s (takeUndef s).2 :=
  Ext.of_frame rfl rfl rfl rfl rfl rfl

theorem Ext_readFuel (fuel : Nat) : ∀ (s : VirtualMachine) (r : Int × VirtualMachine),
    readFuel fuel s = some r → Ext s r.2 := by
  induction fuel with
  | zero => intro s r h; simp [readFuel] at h
  | succ n ih =>
    intro s r h
    unfold readFuel at h
    have h1 := Ext_nextCode s
    rcases hn : nextCode s with ⟨type, s1⟩
    rw [hn] at h h1
    simp only [] at h h1
    split_ifs at h
    · cases h; exact h1
    · cases h; exact h1
    · cases h; exact h1
    · cases h; exact h1.trans ((Ext_nextCode _).trans (Ext_mem _ _))
    · cases h; exact h1.trans (Ext_pop _)
    · cases hr : readFuel n s1 with
      | none => simp [hr] at h
      | some r1 =>
        rw [hr] at h
        cases h
        exact h1.trans ((ih s1 r1 hr).trans (Ext_mem _ _))
    · cases h; exact h1.trans (Ext_nextCode _)
    · cases h; exact h1.trans (Ext_takeUndef _)

theorem readFuel_isSome (fuel : Nat) : ∀ s : VirtualMachine,
    s.code.length - s.pc.toNat < fuel → (readFuel fuel s).isSome = true := by
  induction fuel with
  | zero => intro s h; omega
  | succ n ih =>
    intro s h
    unfold readFuel
    by_cases hin : s.pc < 0 ∨ (s.code.length : Int) ≤ s.pc
    · rw [nextCode_out s hin]
      simp
    · have h0 : 0 ≤ s.pc := by omega
      have h1 : s.pc < s.code.length := by omega
      rw [nextCode_in s h0 h1]
      simp only []
      have hrec := ih { s with pc := s.pc + 1 } (by simp; omega)
      split_ifs
      all_goals first
        | rfl
        | (rcases Option.isSome_iff_exists.1 hrec with ⟨r, hr⟩
           rw [hr])
      rfl

theorem read_eq (s : VirtualMachine) : readFuel (readDepth s) s = some (read s) := by
  have h := readFuel_isSome (readDepth s) s (by unfold readDepth; omega)
  rcases Option.isSome_iff_exists.1 h with ⟨r, hr⟩
  simp [read, hr]

theorem Ext_read (s : VirtualMachine) : Ext s (read s).2 :=
  Ext_readFuel _ s _ (read_eq s)

theorem readFuel_mono (fuel : Nat) : ∀ (s : VirtualMachine) (r : Int × VirtualMachine),
    readFuel fuel s = some r → ∀ k, readFuel (fuel + k) s = some r := by
  induction fuel with
  | zero => intro s r h; simp [readFuel] at h
  | succ n ih =>
    intro s r h k
    rw [show n + 1 + k = (n + k) + 1 by omega]
    unfold readFuel at h ⊢
    rcases hn : nextCode s with ⟨type, s1⟩
    rw [hn] at h
    simp only [] at h ⊢
    split_ifs at h ⊢
    all_goals first
      | exact h
      | (cases hr : readFuel n s1 with
         | none => simp [hr] at h
         | some r1 => rw [ih s1 r1 hr k]; rw [hr] at h; exact h)

theorem Ext_write (v : Int) (s : VirtualMachine) : Ext s (write v s) := by
  unfold write
  have h1 := Ext_nextCode s
  rcases hn : nextCode s with ⟨type, s1⟩
  rw [hn] at h1
  simp only [] at h1 ⊢
  split_ifs
  · exact h1.trans (Ext.of_frame rfl rfl rfl rfl rfl rfl)
  · exact h1.trans (Ext.of_frame rfl rfl rfl rfl rfl rfl)
  · exact h1.trans (Ext.of_frame rfl rfl rfl rfl rfl rfl)
  · exact h1.trans ((Ext_nextCode _).trans (Ext_set_mem _ _ _))
  · exact h1.trans (Ext_push _ _)
  · exact h1.trans ((Ext_read _).trans (Ext_set_mem _ _ _))
  · exact h1

theorem Ext_jump (a : Int) (s : VirtualMachine) : Ext s (jump a s) :=
  (Ext_lbl a s).trans (Ext.of_frame rfl rfl rfl rfl rfl rfl)

theorem Ext_call (a : Int) (s : VirtualMachine) : Ext s (call a s) :=
  (Ext_proc_push _ s).trans (Ext_jump a _)

theorem Ext_binary (f : Int → Int → VirtualMachine → Int × VirtualMachine)
    (hf : ∀ a b s, Ext s (f a b s).2) (s : VirtualMachine) : Ext s (binary f s) := by
  unfold binary
  exact (Ext_read s).trans ((Ext_read _).trans ((hf _ _ _).trans (Ext_write _ _)))

theorem Ext_opDIV (s : VirtualMachine) : Ext s (opDIV s) := by
  unfold opDIV
  dsimp only
  split_ifs
  · exact (Ext_read s).trans ((Ext_read _).trans (Ext.of_frame rfl rfl rfl rfl rfl rfl))
  · exact (Ext_read s).trans ((Ext_read _).trans (Ext_write _ _))

theorem Ext_ite {c : Prop} [Decidable c] {s a b : VirtualMachine}
    (ha : c → Ext s a) (hb : ¬c → Ext s b) : Ext s (if c then a else b) := by
  split_ifs with h
  · exact ha h
  · exact hb h

theorem Ext_opMOV (s : VirtualMachine) : Ext s (opMOV s) :=
  (Ext_read s).trans (Ext_write _ _)

theorem Ext_opLBL (s : VirtualMachine) : Ext s (opLBL s) :=
  Ext_nextCode s

theorem Ext_opCMP (s : VirtualMachine) : Ext s (opCMP s) :=
  (Ext_read s).trans ((Ext_read _).trans (Ext.of_frame rfl rfl rfl rfl rfl rfl))

theorem Ext_opNOT (s : VirtualMachine) : Ext s (opNOT s) :=
  (Ext_read s).trans (Ext_write _ _)

theorem Ext_opJMP (s : VirtualMachine) : Ext s (opJMP s) :=
  (Ext_nextCode s).trans (Ext_jump _ _)

theorem Ext_condJump (test : Int → Bool) (s : VirtualMachine) : Ext s (condJump test s) := by
  unfold condJump
  dsimp only
  split_ifs
  · exact (Ext_nextCode s).trans (Ext_jump _ _)
  · exact Ext_nextCode s

theorem Ext_opCAL (s : VirtualMachine) : Ext s (opCAL s) :=
  (Ext_proc_push _ s).trans ((Ext_nextCode _).trans (Ext_jump _ _))

theorem Ext_condCall (test : Int → Bool) (s : VirtualMachine) : Ext s (condCall test s) := by
  unfold condCall
  dsimp only
  split_ifs
  · exact (Ext_nextCode s).trans (Ext_call _ _)
  · exact Ext_nextCode s

theorem Ext_opRET (s : VirtualMachine) : Ext s (opRET s) :=
  (Ext_proc_restore s).trans (Ext.of_frame rfl rfl rfl rfl rfl rfl)

theorem Ext_opEXI (s : VirtualMachine) : Ext s (opEXI s) :=
  Ext.of_frame rfl rfl rfl rfl rfl rfl

theorem Ext_opPRINT (s : VirtualMachine) : Ext s (opPRINT s) :=
  (Ext_read s).trans
    ⟨rfl, rfl, rfl, id, ⟨[], rfl, by simp, fun h => Or.inl h, by simp⟩, ⟨[_], rfl⟩⟩

theorem Ext_opINPUT (s : VirtualMachine) : Ext s (opINPUT s) := by
  unfold opINPUT
  split
  · refine Ext.trans ?_ (Ext_write _ _)
    exact Ext.of_frame rfl rfl rfl rfl rfl rfl
  · exact (Ext_takeUndef _).trans (Ext_write _ _)

theorem Ext_exec (opcode : Int) (s : VirtualMachine) : Ext s (exec opcode s) := by
  unfold exec
  refine Ext_ite (fun _ => Ext_opMOV _) (fun _ => ?_)
  refine Ext_ite (fun _ => Ext_opLBL _) (fun _ => ?_)
  refine Ext_ite (fun _ => Ext_binary _ (fun _ _ t => Ext.refl t) _) (fun _ => ?_)
  refine Ext_ite (fun _ => Ext_binary _ (fun _ _ t => Ext.refl t) _) (fun _ => ?_)
  refine Ext_ite (fun _ => Ext_binary _ (fun _ _ t => Ext.refl t) _) (fun _ => ?_)
  refine Ext_ite (fun _ => Ext_opDIV _) (fun _ => ?_)
  refine Ext_ite (fun _ => Ext_opCMP _) (fun _ => ?_)
  refine Ext_ite (fun _ => Ext_binary _ (fun _ _ t => Ext.refl t) _) (fun _ => ?_)
  refine Ext_ite (fun _ => Ext_binary _ (fun _ _ t => Ext.refl t) _) (fun _ => ?_)
  refine Ext_ite (fun _ => Ext_binary _ (fun _ _ t => Ext.refl t) _) (fun _ => ?_)
  refine Ext_ite (fun _ => Ext_opNOT _) (fun _ => ?_)
  refine Ext_ite (fun _ => Ext_opJMP _) (fun _ => ?_)
  refine Ext_ite (fun _ => Ext_condJump _ _) (fun _ => ?_)
  refine Ext_ite (fun _ => Ext_condJump _ _) (fun _ => ?_)
  refine Ext_ite (fun _ => Ext_condJump _ _) (fun _ => ?_)
  refine Ext_ite (fun _ => Ext_condJump _ _) (fun _ => ?_)
  refine Ext_ite (fun _ => Ext_condJump _ _) (fun _ => ?_)
  refine Ext_ite (fun _ => Ext_condJump _ _) (fun _ => ?_)
  refine Ext_ite (fun _ => Ext_opCAL _) (fun _ => ?_)
  refine Ext_ite (fun _ => Ext_condCall _ _) (fun _ => ?_)
  refine Ext_ite (fun _ => Ext_condCall _ _) (fun _ => ?_)
  refine Ext_ite (fun _ => Ext_condCall _ _) (fun _ => ?_)
  refine Ext_ite (fun _ => Ext_condCall _ _) (fun _ => ?_)
  refine Ext_ite (fun _ => Ext_condCall _ _) (fun _ => ?_)
  refine Ext_ite (fun _ => Ext_condCall _ _) (fun _ => ?_)
  refine Ext_ite (fun _ => Ext.refl _) (fun _ => ?_)
  refine Ext_ite (fun _ => Ext_opRET _) (fun _ => ?_)
  refine Ext_ite (fun _ => Ext_opEXI _) (fun _ => ?_)
  refine Ext_ite (fun _ => Ext_opPRINT _) (fun _ => ?_)
  refine Ext_ite (fun _ => Ext_opINPUT _) (fun _ => ?_)
  exact Ext.refl _

theorem Ext_cycle (s : VirtualMachine) : Ext s (cycle s) :=
  (Ext_nextCode s).trans (Ext_exec _ _)

/-! ## The label scan of `fetch` -/

theorem fetch_scan (code : List Int) (s : VirtualMachine) (n : Nat) :
    let t := (List.range n).foldl fetchStep { s with code := code }
    t.code = code ∧ t.pc = s.pc ∧ t.memory = s.memory ∧ t.stack = s.stack ∧
    t.proc_stack = s.proc_stack ∧ t.stop_flag = s.stop_flag ∧ t.eax = s.eax ∧
    t.ebx = s.ebx ∧ t.cmx = s.cmx ∧ t.input = s.input ∧ t.output = s.output ∧
    t.undef = s.undef ∧ t.trace = s.trace ∧
    (t.logic_error_flag = true ↔
      s.logic_error_flag = true ∨ ∃ i < n, code.getD i 0 = LBL ∧ code.length ≤ i + 1) ∧
    ∀ id, t.label id =
      match lastDecl code id n with
      | some i => (i : Int) + 2
      | none => s.label id := by
  induction n with
  | zero => simp [lastDecl]
  | succ n ih =>
    rw [List.range_succ, List.foldl_append]
    simp only [List.foldl_cons, List.foldl_nil]
    generalize (List.range n).foldl fetchStep { s with code := code } = t at ih ⊢
    obtain ⟨hc, h1, h2, h3, h4, h5, h6, h7, h8, h9, h10, h11, h12, he, hl⟩ := ih
    unfold fetchStep
    rw [hc]
    by_cases hL : code.getD n 0 = LBL
    · rw [if_pos hL]
      by_cases hn : n + 1 < code.length
      · rw [if_pos hn]
        refine ⟨rfl, h1, h2, h3, h4, h5, h6, h7, h8, h9, h10, h11, h12, ?_, ?_⟩
        · rw [he]
          constructor
          · rintro (h | ⟨i, hi, h⟩)
            · exact Or.inl h
            · exact Or.inr ⟨i, by omega, h⟩
          · rintro (h | ⟨i, hi, h⟩)
            · exact Or.inl h
            · refine Or.inr ⟨i, ?_, h⟩
              rcases Nat.lt_succ_iff_lt_or_eq.1 hi with h' | h'
              · exact h'
              · subst h'; omega
        · intro id
          show (if id = code.getD (n + 1) 0 then (n : Int) + 2 else t.label id) = _
          unfold lastDecl
          by_cases hid : id = code.getD (n + 1) 0
          · rw [if_pos hid, if_pos ⟨hL, hn, hid.symm⟩]
          · rw [if_neg hid, if_neg (fun h => hid h.2.2.symm)]
            exact hl id
      · rw [if_neg hn]
        refine ⟨rfl, h1, h2, h3, h4, h5, h6, h7, h8, h9, h10, h11, h12, ?_, ?_⟩
        · simp only [true_iff]
          exact Or.inr ⟨n, by omega, hL, by omega⟩
        · intro id
          unfold lastDecl
          rw [if_neg (fun h => hn h.2.1)]
          exact hl id
    · rw [if_neg hL]
      refine ⟨hc, h1, h2, h3, h4, h5, h6, h7, h8, h9, h10, h11, h12, ?_, ?_⟩
      · rw [he]
        constructor
        · rintro (h | ⟨i, hi, h⟩)
          · exact Or.inl h
          · exact Or.inr ⟨i, by omega, h⟩
        · rintro (h | ⟨i, hi, h⟩)
          · exact Or.inl h
          · refine Or.inr ⟨i, ?_, h⟩
            rcases Nat.lt_succ_iff_lt_or_eq.1 hi with h' | h'
            · exact h'
            · subst h'; exact absurd h.1 hL
      · intro id
        unfold lastDecl
        rw [if_neg (fun h => hL h.1)]
        exact hl id

theorem lastDecl_of_decl (code : List Int) (id : Int) (j : Nat) (hj : j + 1 < code.length)
    (hL : code.getD j 0 = LBL) (hid : code.getD (j + 1) 0 = id) :
    ∀ n, j < n → ∃ i, lastDecl code id n = some i := by
  intro n
  induction n with
  | zero => intro h; omega
  | succ n ih =>
    intro h
    unfold lastDecl
    split_ifs with hc
    · exact ⟨n, rfl⟩
    · rcases Nat.lt_succ_iff_lt_or_eq.1 h with h' | h'
      · exact ih h'
      · subst h'
        exact absurd ⟨hL, hj, hid⟩ hc

theorem fetch_label (code : List Int) (s : VirtualMachine) (id : Int) :
    (fetch code s).label id =
      match lastDecl code id code.length with
      | some i => (i : Int) + 2
      | none => s.label id :=
  (fetch_scan code s code.length).2.2.2.2.2.2.2.2.2.2.2.2.2.2 id

theorem fetch_label_ne_zero (code : List Int) (s : VirtualMachine) (j : Nat)
    (hj : j + 1 < code.length) (hL : code.getD j 0 = LBL) :
    (fetch code s).label (code.getD (j + 1) 0) ≠ 0 := by
  rw [fetch_label]
  obtain ⟨i, hi⟩ := lastDecl_of_decl code _ j hj hL rfl code.length (by omega)
  rw [hi]
  show (i : Int) + 2 ≠ 0
  omega

theorem fetch_error (code : List Int) (s : VirtualMachine) :
    (fetch code s).logic_error_flag = true ↔
      s.logic_error_flag = true ∨ code.getLast? = some LBL := by
  refine ((fetch_scan code s code.length).2.2.2.2.2.2.2.2.2.2.2.2.2.1).trans ?_
  apply or_congr Iff.rfl
  constructor
  · rintro ⟨i, hi, hL, hlen⟩
    have : i = code.length - 1 := by omega
    subst this
    rw [List.getLast?_eq_getElem?, ← hL, List.getD_eq_getElem?_getD]
    have : code.length - 1 < code.length := hi
    simp [List.getElem?_eq_getElem this]
  · intro h
    rw [List.getLast?_eq_getElem?] at h
    have hlen : code.length - 1 < code.length := by
      by_contra hc
      rw [List.getElem?_eq_none (by omega)] at h
      cases h
    refine ⟨code.length - 1, hlen, ?_, by omega⟩
    rw [List.getD_eq_getElem?_getD, h]
    rfl

/-! ## C3: faults of well-formed programs -/

theorem Ext_iterate (k : Nat) : ∀ s : VirtualMachine, Ext s (cycle^[k] s) := by
  induction k with
  | zero => intro s; exact Ext.refl s
  | succ n ih =>
    intro s
    rw [Function.iterate_succ_apply]
    exact (Ext_cycle s).trans (ih _)

/-- The loop of `run` leaves the machine in a state reached by whole cycles, with or without the failure notice added. -/
theorem runCycles_eq (n : Nat) : ∀ s : VirtualMachine,
    ∃ k, k ≤ n ∧ (runCycles n s = cycle^[k] s ∨ runCycles n s = notify (cycle^[k] s)) := by
  induction n with
  | zero => intro s; exact ⟨0, le_rfl, Or.inl rfl⟩
  | succ n ih =>
    intro s
    unfold runCycles
    split_ifs
    · exact ⟨0, Nat.zero_le _, Or.inl rfl⟩
    · exact ⟨0, Nat.zero_le _, Or.inl rfl⟩
    · exact ⟨0, Nat.zero_le _, Or.inr rfl⟩
    · obtain ⟨k, hk, h⟩ := ih (cycle s)
      refine ⟨k + 1, by omega, ?_⟩
      rw [Function.iterate_succ_apply]
      exact h

theorem fresh_fetch_error (code : List Int) (size : Nat) (input : List Int) (undef : Nat → Int)
    (hlast : code.getLast? ≠ some LBL) :
    (fetch code (VirtualMachine.fresh size input undef)).logic_error_flag = false := by
  rw [← Bool.not_eq_true, fetch_error]
  rintro (h | h)
  · cases h
  · exact hlast h

theorem fetch_trace (code : List Int) (s : VirtualMachine) : (fetch code s).trace = s.trace :=
  (fetch_scan code s code.length).2.2.2.2.2.2.2.2.2.2.2.2.1

theorem fetch_code (code : List Int) (s : VirtualMachine) : (fetch code s).code = code :=
  (fetch_scan code s code.length).1

theorem mem_declarations {code : List Int} {j : Nat} {id : Int} (h : (j, id) ∈ declarations code) :
    j + 1 < code.length ∧ code.getD j 0 = LBL ∧ code.getD (j + 1) 0 = id := by
  unfold declarations at h
  simp only [List.mem_map, List.mem_filter, decide_eq_true_eq, Prod.mk.injEq] at h
  obtain ⟨i, ⟨_, hL, hlen⟩, hij, hid⟩ := h
  subst hij
  exact ⟨hlen, hL, hid⟩

theorem wellFormed_label (code : List Int) (s : VirtualMachine) (hwf : wellFormed code = true)
    (i : Nat) (hi : i ∈ boundaries code) (hj : isJumpOrCall (code.getD i 0) = true)
    (hlen : i + 1 < code.length) : (fetch code s).label (code.getD (i + 1) 0) ≠ 0 := by
  unfold wellFormed at hwf
  rw [List.all_eq_true] at hwf
  have h := hwf i hi
  simp only [decide_eq_true_eq] at h
  have hmem := h.2 hj hlen
  rw [List.mem_map] at hmem
  obtain ⟨⟨j, id⟩, hd, hid⟩ := hmem
  simp only at hid
  obtain ⟨h1, h2, h3⟩ := mem_declarations hd
  rw [← hid, ← h3]
  exact fetch_label_ne_zero code s j h1 h2

/-- C3 (counterexample).  `underflow` is well formed, it declares and
references no label and does not end in `LBL`; loading it sets no fault, its
first instruction pops the empty value stack and sets the fault flag. -/
theorem C3_counterexample :
    wellFormed underflow = true ∧ underflow.getLast? ≠ some LBL ∧
    (fetch underflow (VirtualMachine.fresh 1024 [] (fun _ => 0))).logic_error_flag = false ∧
    (runCycles 1 (fetch underflow (VirtualMachine.fresh 1024 [] (fun _ => 0)))).logic_error_flag
      = true := by
  decide

/-- C3 (amended).  For a well-formed program whose last word is not `LBL`:
loading sets no fault; at every point of the run the label lookup of each jump
or call instruction of the program leaves the fault flag as it is; and the
fault flag is set after `n` dispatch cycles only if an accessor call of the run
ran into its guard: a pop of the empty value stack, a restore from the empty
call stack, a memory access outside `[0, size)`, or a lookup of an id that has
no entry in the loaded label table. -/
theorem C3_faults_only_from_guards (code : List Int) (size : Nat) (input : List Int)
    (undef : Nat → Int) (n : Nat) (hwf : wellFormed code = true)
    (hlast : code.getLast? ≠ some LBL) :
    (fetch code (VirtualMachine.fresh size input undef)).logic_error_flag = false ∧
    (∀ i ∈ boundaries code, isJumpOrCall (code.getD i 0) = true → i + 1 < code.length →
      (lbl (code.getD (i + 1) 0)
          (runCycles n (fetch code (VirtualMachine.fresh size input undef)))).2.logic_error_flag
        = (runCycles n (fetch code (VirtualMachine.fresh size input undef))).logic_error_flag) ∧
    ((runCycles n (fetch code (VirtualMachine.fresh size input undef))).logic_error_flag = true →
      ∃ e ∈ (runCycles n (fetch code (VirtualMachine.fresh size input undef))).trace,
        e.faulty = true ∧
        ∀ id entry, e = Event.lbl id entry →
          (fetch code (VirtualMachine.fresh size input undef)).label id = 0) := by
  have h0 := fresh_fetch_error code size input undef hlast
  generalize hs0 : fetch code (VirtualMachine.fresh size input undef) = s0 at h0 ⊢
  have htr : s0.trace = [] := by rw [← hs0, fetch_trace]; rfl
  obtain ⟨k, -, hk⟩ := runCycles_eq n s0
  have hE := Ext_iterate k s0
  have hfields : (runCycles n s0).label = s0.label ∧
      (runCycles n s0).logic_error_flag = (cycle^[k] s0).logic_error_flag ∧
      (runCycles n s0).trace = (cycle^[k] s0).trace := by
    rcases hk with h | h <;> rw [h]
    · exact ⟨hE.label, rfl, rfl⟩
    · exact ⟨hE.label, rfl, rfl⟩
  obtain ⟨hl, he, ht⟩ := hfields
  refine ⟨h0, ?_, ?_⟩
  · intro i hi hj hlen
    have hne : s0.label (code.getD (i + 1) 0) ≠ 0 := by
      rw [← hs0]; exact wellFormed_label code _ hwf i hi hj hlen
    unfold lbl
    simp only [VSVM.log, hl]
    rw [if_neg hne]
  · intro herr
    rw [he] at herr
    obtain ⟨evs, hev, hcons, hsound, -⟩ := hE.log
    rw [htr, List.append_nil] at hev
    rcases hsound herr with h | ⟨e, hmem, hf⟩
    · rw [h0] at h; cases h
    · refine ⟨e, by rw [ht, hev]; exact hmem, hf, ?_⟩
      intro id entry heq
      subst heq
      have := hcons id entry hmem
      simp only [Event.faulty, decide_eq_true_eq] at hf
      rw [← this, hf]

/-- An instance of the amended C3: the program `underflow` after one cycle. -/
theorem C3_faults_only_from_guards_witness :
    wellFormed underflow = true ∧ underflow.getLast? ≠ some LBL ∧
    ((fetch underflow (VirtualMachine.fresh 1024 [] (fun _ => 0))).logic_error_flag = false ∧
    (∀ i ∈ boundaries underflow, isJumpOrCall (underflow.getD i 0) = true →
      i + 1 < underflow.length →
      (lbl (underflow.getD (i + 1) 0)
          (runCycles 1 (fetch underflow
            (VirtualMachine.fresh 1024 [] (fun _ => 0))))).2.logic_error_flag
        = (runCycles 1 (fetch underflow
            (VirtualMachine.fresh 1024 [] (fun _ => 0)))).logic_error_flag) ∧
    ((runCycles 1 (fetch underflow
        (VirtualMachine.fresh 1024 [] (fun _ => 0)))).logic_error_flag = true →
      ∃ e ∈ (runCycles 1 (fetch underflow (VirtualMachine.fresh 1024 [] (fun _ => 0)))).trace,
        e.faulty = true ∧
        ∀ id entry, e = Event.lbl id entry →
          (fetch underflow (VirtualMachine.fresh 1024 [] (fun _ => 0))).label id = 0)) :=
  ⟨by decide, by decide,
    C3_faults_only_from_guards underflow 1024 [] (fun _ => 0) 1 (by decide) (by decide)⟩

/-! ## Symbolic execution of the demonstration programs -/

theorem wrap32_eq (x : Int) (h1 : -2147483648 ≤ x) (h2 : x < 2147483648) : wrap32 x = x := by
  unfold wrap32
  omega

theorem run_succ (fuel : Nat) (s : VirtualMachine) (h1 : s.stop_flag = false)
    (h2 : s.logic_error_flag = false) (h3 : s.trapped = false) :
    run (fuel + 1) s = run fuel (cycle s) := by
  conv => lhs; unfold run
  simp [h1, h2, h3]

theorem fetch_trapped (code : List Int) (s : VirtualMachine) :
    (fetch code s).trapped = s.trapped := by
  have h : ∀ (l : List Nat) (t : VirtualMachine),
      (l.foldl fetchStep t).trapped = t.trapped := by
    intro l
    induction l with
    | nil => intro t; rfl
    | cons i l ih =>
      intro t
      rw [List.foldl_cons, ih]
      unfold fetchStep
      split_ifs <;> rfl
  exact h _ _

theorem fetch_fresh (code : List Int) (size : Nat) (input : List Int) (undef : Nat → Int)
    (hlast : code.getLast? ≠ some LBL) :
    fetch code (VirtualMachine.fresh size input undef) =
      { pc := 0, code := code, memory := List.replicate size 0, stack := [], proc_stack := [],
        label := labelTable code, logic_error_flag := false, stop_flag := false, eax := 0,
        ebx := 0, cmx := 0, input := input, output := [], undef := undef, trace := [],
        trapped := false } := by
  obtain ⟨h1, h2, h3, h4, h5, h6, h7, h8, h9, h10, h11, h12, h13, -, h15⟩ :=
    fetch_scan code (VirtualMachine.fresh size input undef) code.length
  have he : (fetch code (VirtualMachine.fresh size input undef)).logic_error_flag = false := by
    rw [← Bool.not_eq_true, fetch_error]
    rintro (h | h)
    · cases h
    · exact hlast h
  have hl : (fetch code (VirtualMachine.fresh size input undef)).label = labelTable code := by
    funext id
    exact h15 id
  have ht := fetch_trapped code (VirtualMachine.fresh size input undef)
  rcases hf : fetch code (VirtualMachine.fresh size input undef) with ⟨⟩
  rw [hf] at he hl ht
  change (List.foldl fetchStep _ _) = _ at hf
  rw [hf] at h1 h2 h3 h4 h5 h6 h7 h8 h9 h10 h11 h12 h13
  simp only [VirtualMachine.fresh] at h1 h2 h3 h4 h5 h6 h7 h8 h9 h10 h11 h12 h13 he hl ht
  subst h1 h2 h3 h4 h5 h6 h7 h8 h9 h10 h11 h12 h13 he hl ht
  rfl

theorem run_mono (fuel : Nat) : ∀ (s t : VirtualMachine), run fuel s = some t →
    ∀ k, run (fuel + k) s = some t := by
  induction fuel with
  | zero => intro s t h; simp [run] at h
  | succ n ih =>
    intro s t h k
    rw [show n + 1 + k = (n + k) + 1 by omega]
    unfold run at h ⊢
    split_ifs at h ⊢
    · exact h
    · exact h
    · exact ih _ _ h k

/-! ## C4: the Fibonacci program -/

theorem fibonacci_label0 : fibonacciLabels 0 = 83 := by decide
theorem fibonacci_label1 : fibonacciLabels 1 = 53 := by decide
theorem fibonacci_label3 : fibonacciLabels 3 = 18 := by decide
theorem fibonacci_label4 : fibonacciLabels 4 = 11 := by decide
theorem fibonacci_label5 : fibonacciLabels 5 = 102 := by decide

theorem fibSt_running (pc m0 m1 m2 m3 m4 : Int) (st ps : List Int) (eax cmx : Int)
    (inp : List Int) (u : Nat → Int) (out : List Out) (tr : List Event) :
    (fibSt pc m0 m1 m2 m3 m4 st ps eax cmx inp u out tr).stop_flag = false ∧
    (fibSt pc m0 m1 m2 m3 m4 st ps eax cmx inp u out tr).logic_error_flag = false ∧
    (fibSt pc m0 m1 m2 m3 m4 st ps eax cmx inp u out tr).trapped = false :=
  ⟨rfl, rfl, rfl⟩

/-- Instruction `JMP 0` at address 0. -/
theorem fib_jmp_main (m0 m1 m2 m3 m4 : Int) (st ps : List Int) (eax cmx : Int) (inp : List Int)
    (u : Nat → Int) (out : List Out) (tr : List Event) :
    cycle (fibSt 0 m0 m1 m2 m3 m4 st ps eax cmx inp u out tr) =
      fibSt 83 m0 m1 m2 m3 m4 st ps eax cmx inp u out (Event.lbl 0 83 :: tr) := by
  simp [fibSt, cycle, nextCode, exec, opMOV, opLBL, opCMP, opJMP, opCAL, opRET, opEXI,
    opPRINT, opINPUT, condJump, binary, jump, lbl, read, readDepth, readFuel, write, mem,
    set_mem, push, pop, proc_push, proc_restore, VSVM.log, fibonacci, fibonacci_label0,
    fibonacci_label1, fibonacci_label3, fibonacci_label4, fibonacci_label5,
    -List.reduceReplicate]

/-- Instruction `JMP 0` at address 98. -/
theorem fib_jmp_again (m0 m1 m2 m3 m4 : Int) (st ps : List Int) (eax cmx : Int) (inp : List Int)
    (u : Nat → Int) (out : List Out) (tr : List Event) :
    cycle (fibSt 98 m0 m1 m2 m3 m4 st ps eax cmx inp u out tr) =
      fibSt 83 m0 m1 m2 m3 m4 st ps eax cmx inp u out (Event.lbl 0 83 :: tr) := by
  simp [fibSt, cycle, nextCode, exec, opMOV, opLBL, opCMP, opJMP, opCAL, opRET, opEXI,
    opPRINT, opINPUT, condJump, binary, jump, lbl, read, readDepth, readFuel, write, mem,
    set_mem, push, pop, proc_push, proc_restore, VSVM.log, fibonacci, fibonacci_label0,
    fibonacci_label1, fibonacci_label3, fibonacci_label4, fibonacci_label5,
    -List.reduceReplicate]

/-- Instruction `INPUT EAX` at address 83. -/
theorem fib_input (m0 m1 m2 m3 m4 : Int) (st ps : List Int) (eax cmx : Int) (inp : List Int)
    (u : Nat → Int) (out : List Out) (tr : List Event)
    (v : Int) :
    cycle (fibSt 83 m0 m1 m2 m3 m4 st ps eax cmx (v :: inp) u out tr) =
      fibSt 85 m0 m1 m2 m3 m4 st ps v cmx inp u out tr := by
  simp [fibSt, cycle, nextCode, exec, opMOV, opLBL, opCMP, opJMP, opCAL, opRET, opEXI,
    opPRINT, opINPUT, condJump, binary, jump, lbl, read, readDepth, readFuel, write, mem,
    set_mem, push, pop, proc_push, proc_restore, VSVM.log, fibonacci, fibonacci_label0,
    fibonacci_label1, fibonacci_label3, fibonacci_label4, fibonacci_label5,
    -List.reduceReplicate]

/-- Instruction `MOV EAX STA` at address 85. -/
theorem fib_push_eax (m0 m1 m2 m3 m4 : Int) (st ps : List Int) (eax cmx : Int) (inp : List Int)
    (u : Nat → Int) (out : List Out) (tr : List Event) :
    cycle (fibSt 85 m0 m1 m2 m3 m4 st ps eax cmx inp u out tr) =
      fibSt 88 m0 m1 m2 m3 m4 (eax :: st) ps eax cmx inp u out (Event.push eax :: tr) := by
  simp [fibSt, cycle, nextCode, exec, opMOV, opLBL, opCMP, opJMP, opCAL, opRET, opEXI,
    opPRINT, opINPUT, condJump, binary, jump, lbl, read, readDepth, readFuel, write, mem,
    set_mem, push, pop, proc_push, proc_restore, VSVM.log, fibonacci, fibonacci_label0,
    fibonacci_label1, fibonacci_label3, fibonacci_label4, fibonacci_label5,
    -List.reduceReplicate]

/-- Instruction `CMP EAX CON 0` at address 88. -/
theorem fib_cmp_eax (m0 m1 m2 m3 m4 : Int) (st ps : List Int) (eax cmx : Int) (inp : List Int)
    (u : Nat → Int) (out : List Out) (tr : List Event) :
    cycle (fibSt 88 m0 m1 m2 m3 m4 st ps eax cmx inp u out tr) =
      fibSt 92 m0 m1 m2 m3 m4 st ps eax (wrap32 eax) inp u out tr := by
  simp [fibSt, cycle, nextCode, exec, opMOV, opLBL, opCMP, opJMP, opCAL, opRET, opEXI,
    opPRINT, opINPUT, condJump, binary, jump, lbl, read, readDepth, readFuel, write, mem,
    set_mem, push, pop, proc_push, proc_restore, VSVM.log, fibonacci, fibonacci_label0,
    fibonacci_label1, fibonacci_label3, fibonacci_label4, fibonacci_label5,
    -List.reduceReplicate]

/-- Instruction `JLE 5` at address 92, test failing. -/
theorem fib_jle_not_taken (m0 m1 m2 m3 m4 : Int) (st ps : List Int) (eax cmx : Int) (inp : List Int)
    (u : Nat → Int) (out : List Out) (tr : List Event)
    (h : ¬ cmx ≤ 0) :
    cycle (fibSt 92 m0 m1 m2 m3 m4 st ps eax cmx inp u out tr) =
      fibSt 94 m0 m1 m2 m3 m4 st ps eax cmx inp u out tr := by
  simp [fibSt, cycle, nextCode, exec, opMOV, opLBL, opCMP, opJMP, opCAL, opRET, opEXI,
    opPRINT, opINPUT, condJump, binary, jump, lbl, read, readDepth, readFuel, write, mem,
    set_mem, push, pop, proc_push, proc_restore, VSVM.log, fibonacci, fibonacci_label0,
    fibonacci_label1, fibonacci_label3, fibonacci_label4, fibonacci_label5,
    -List.reduceReplicate, h]

/-- Instruction `JLE 5` at address 92, test succeeding. -/
theorem fib_jle_taken (m0 m1 m2 m3 m4 : Int) (st ps : List Int) (eax cmx : Int) (inp : List Int)
    (u : Nat → Int) (out : List Out) (tr : List Event)
    (h : cmx ≤ 0) :
    cycle (fibSt 92 m0 m1 m2 m3 m4 st ps eax cmx inp u out tr) =
      fibSt 102 m0 m1 m2 m3 m4 st ps eax cmx inp u out (Event.lbl 5 102 :: tr) := by
  simp [fibSt, cycle, nextCode, exec, opMOV, opLBL, opCMP, opJMP, opCAL, opRET, opEXI,
    opPRINT, opINPUT, condJump, binary, jump, lbl, read, readDepth, readFuel, write, mem,
    set_mem, push, pop, proc_push, proc_restore, VSVM.log, fibonacci, fibonacci_label0,
    fibonacci_label1, fibonacci_label3, fibonacci_label4, fibonacci_label5,
    -List.reduceReplicate, h]

/-- Instruction `CAL 1` at address 94. -/
theorem fib_cal (m0 m1 m2 m3 m4 : Int) (st ps : List Int) (eax cmx : Int) (inp : List Int)
    (u : Nat → Int) (out : List Out) (tr : List Event) :
    cycle (fibSt 94 m0 m1 m2 m3 m4 st ps eax cmx inp u out tr) =
      fibSt 53 m0 m1 m2 m3 m4 st (96 :: ps) eax cmx inp u out (Event.lbl 1 53 :: Event.proc_push 96 :: tr) := by
  simp [fibSt, cycle, nextCode, exec, opMOV, opLBL, opCMP, opJMP, opCAL, opRET, opEXI,
    opPRINT, opINPUT, condJump, binary, jump, lbl, read, readDepth, readFuel, write, mem,
    set_mem, push, pop, proc_push, proc_restore, VSVM.log, fibonacci, fibonacci_label0,
    fibonacci_label1, fibonacci_label3, fibonacci_label4, fibonacci_label5,
    -List.reduceReplicate]

/-- Instruction `MOV STA MEM 0` at address 53. -/
theorem fib_pop_n (m0 m1 m2 m3 m4 : Int) (st ps : List Int) (eax cmx : Int) (inp : List Int)
    (u : Nat → Int) (out : List Out) (tr : List Event)
    (v : Int) :
    cycle (fibSt 53 m0 m1 m2 m3 m4 (v :: st) ps eax cmx inp u out tr) =
      fibSt 57 v m1 m2 m3 m4 st ps eax cmx inp u out (Event.set_mem 0 v 1024 :: Event.pop (st.length + 1) :: tr) := by
  simp [fibSt, cycle, nextCode, exec, opMOV, opLBL, opCMP, opJMP, opCAL, opRET, opEXI,
    opPRINT, opINPUT, condJump, binary, jump, lbl, read, readDepth, readFuel, write, mem,
    set_mem, push, pop, proc_push, proc_restore, VSVM.log, fibonacci, fibonacci_label0,
    fibonacci_label1, fibonacci_label3, fibonacci_label4, fibonacci_label5,
    -List.reduceReplicate]

/-- Instruction `MOV CON 0 MEM 1` at address 57. -/
theorem fib_init_a (m0 m1 m2 m3 m4 : Int) (st ps : List Int) (eax cmx : Int) (inp : List Int)
    (u : Nat → Int) (out : List Out) (tr : List Event) :
    cycle (fibSt 57 m0 m1 m2 m3 m4 st ps eax cmx inp u out tr) =
      fibSt 62 m0 0 m2 m3 m4 st ps eax cmx inp u out (Event.set_mem 1 0 1024 :: tr) := by
  simp [fibSt, cycle, nextCode, exec, opMOV, opLBL, opCMP, opJMP, opCAL, opRET, opEXI,
    opPRINT, opINPUT, condJump, binary, jump, lbl, read, readDepth, readFuel, write, mem,
    set_mem, push, pop, proc_push, proc_restore, VSVM.log, fibonacci, fibonacci_label0,
    fibonacci_label1, fibonacci_label3, fibonacci_label4, fibonacci_label5,
    -List.reduceReplicate]

/-- Instruction `MOV CON 1 MEM 2` at address 62. -/
theorem fib_init_b (m0 m1 m2 m3 m4 : Int) (st ps : List Int) (eax cmx : Int) (inp : List Int)
    (u : Nat → Int) (out : List Out) (tr : List Event) :
    cycle (fibSt 62 m0 m1 m2 m3 m4 st ps eax cmx inp u out tr) =
      fibSt 67 m0 m1 1 m3 m4 st ps eax cmx inp u out (Event.set_mem 2 1 1024 :: tr) := by
  simp [fibSt, cycle, nextCode, exec, opMOV, opLBL, opCMP, opJMP, opCAL, opRET, opEXI,
    opPRINT, opINPUT, condJump, binary, jump, lbl, read, readDepth, readFuel, write, mem,
    set_mem, push, pop, proc_push, proc_restore, VSVM.log, fibonacci, fibonacci_label0,
    fibonacci_label1, fibonacci_label3, fibonacci_label4, fibonacci_label5,
    -List.reduceReplicate]

/-- Instruction `CMP MEM 0 CON 1` at address 67. -/
theorem fib_cmp_n (m0 m1 m2 m3 m4 : Int) (st ps : List Int) (eax cmx : Int) (inp : List Int)
    (u : Nat → Int) (out : List Out) (tr : List Event) :
    cycle (fibSt 67 m0 m1 m2 m3 m4 st ps eax cmx inp u out tr) =
      fibSt 72 m0 m1 m2 m3 m4 st ps eax (wrap32 (m0 - 1)) inp u out (Event.mem 0 1024 :: tr) := by
  simp [fibSt, cycle, nextCode, exec, opMOV, opLBL, opCMP, opJMP, opCAL, opRET, opEXI,
    opPRINT, opINPUT, condJump, binary, jump, lbl, read, readDepth, readFuel, write, mem,
    set_mem, push, pop, proc_push, proc_restore, VSVM.log, fibonacci, fibonacci_label0,
    fibonacci_label1, fibonacci_label3, fibonacci_label4, fibonacci_label5,
    -List.reduceReplicate]

/-- Instruction `JLT 2` at address 72, test failing. -/
theorem fib_jlt_not_taken (m0 m1 m2 m3 m4 : Int) (st ps : List Int) (eax cmx : Int) (inp : List Int)
    (u : Nat → Int) (out : List Out) (tr : List Event)
    (h : ¬ cmx < 0) :
    cycle (fibSt 72 m0 m1 m2 m3 m4 st ps eax cmx inp u out tr) =
      fibSt 74 m0 m1 m2 m3 m4 st ps eax cmx inp u out tr := by
  simp [fibSt, cycle, nextCode, exec, opMOV, opLBL, opCMP, opJMP, opCAL, opRET, opEXI,
    opPRINT, opINPUT, condJump, binary, jump, lbl, read, readDepth, readFuel, write, mem,
    set_mem, push, pop, proc_push, proc_restore, VSVM.log, fibonacci, fibonacci_label0,
    fibonacci_label1, fibonacci_label3, fibonacci_label4, fibonacci_label5,
    -List.reduceReplicate, h]

/-- Instruction `MOV CON 1 MEM 3` at address 74. -/
theorem fib_init_i (m0 m1 m2 m3 m4 : Int) (st ps : List Int) (eax cmx : Int) (inp : List Int)
    (u : Nat → Int) (out : List Out) (tr : List Event) :
    cycle (fibSt 74 m0 m1 m2 m3 m4 st ps eax cmx inp u out tr) =
      fibSt 79 m0 m1 m2 1 m4 st ps eax cmx inp u out (Event.set_mem 3 1 1024 :: tr) := by
  simp [fibSt, cycle, nextCode, exec, opMOV, opLBL, opCMP, opJMP, opCAL, opRET, opEXI,
    opPRINT, opINPUT, condJump, binary, jump, lbl, read, readDepth, readFuel, write, mem,
    set_mem, push, pop, proc_push, proc_restore, VSVM.log, fibonacci, fibonacci_label0,
    fibonacci_label1, fibonacci_label3, fibonacci_label4, fibonacci_label5,
    -List.reduceReplicate]

/-- Instruction `JMP 3` at address 79. -/
theorem fib_jmp_loop (m0 m1 m2 m3 m4 : Int) (st ps : List Int) (eax cmx : Int) (inp : List Int)
    (u : Nat → Int) (out : List Out) (tr : List Event) :
    cycle (fibSt 79 m0 m1 m2 m3 m4 st ps eax cmx inp u out tr) =
      fibSt 18 m0 m1 m2 m3 m4 st ps eax cmx inp u out (Event.lbl 3 18 :: tr) := by
  simp [fibSt, cycle, nextCode, exec, opMOV, opLBL, opCMP, opJMP, opCAL, opRET, opEXI,
    opPRINT, opINPUT, condJump, binary, jump, lbl, read, readDepth, readFuel, write, mem,
    set_mem, push, pop, proc_push, proc_restore, VSVM.log, fibonacci, fibonacci_label0,
    fibonacci_label1, fibonacci_label3, fibonacci_label4, fibonacci_label5,
    -List.reduceReplicate]

/-- Instruction `JMP 3` at address 49. -/
theorem fib_jmp_back (m0 m1 m2 m3 m4 : Int) (st ps : List Int) (eax cmx : Int) (inp : List Int)
    (u : Nat → Int) (out : List Out) (tr : List Event) :
    cycle (fibSt 49 m0 m1 m2 m3 m4 st ps eax cmx inp u out tr) =
      fibSt 18 m0 m1 m2 m3 m4 st ps eax cmx inp u out (Event.lbl 3 18 :: tr) := by
  simp [fibSt, cycle, nextCode, exec, opMOV, opLBL, opCMP, opJMP, opCAL, opRET, opEXI,
    opPRINT, opINPUT, condJump, binary, jump, lbl, read, readDepth, readFuel, write, mem,
    set_mem, push, pop, proc_push, proc_restore, VSVM.log, fibonacci, fibonacci_label0,
    fibonacci_label1, fibonacci_label3, fibonacci_label4, fibonacci_label5,
    -List.reduceReplicate]

/-- Instruction `CMP MEM 3 MEM 0` at address 18. -/
theorem fib_cmp_i (m0 m1 m2 m3 m4 : Int) (st ps : List Int) (eax cmx : Int) (inp : List Int)
    (u : Nat → Int) (out : List Out) (tr : List Event) :
    cycle (fibSt 18 m0 m1 m2 m3 m4 st ps eax cmx inp u out tr) =
      fibSt 23 m0 m1 m2 m3 m4 st ps eax (wrap32 (m3 - m0)) inp u out (Event.mem 0 1024 :: Event.mem 3 1024 :: tr) := by
  simp [fibSt, cycle, nextCode, exec, opMOV, opLBL, opCMP, opJMP, opCAL, opRET, opEXI,
    opPRINT, opINPUT, condJump, binary, jump, lbl, read, readDepth, readFuel, write, mem,
    set_mem, push, pop, proc_push, proc_restore, VSVM.log, fibonacci, fibonacci_label0,
    fibonacci_label1, fibonacci_label3, fibonacci_label4, fibonacci_label5,
    -List.reduceReplicate]

/-- Instruction `JGE 4` at address 23, test failing. -/
theorem fib_jge_not_taken (m0 m1 m2 m3 m4 : Int) (st ps : List Int) (eax cmx : Int) (inp : List Int)
    (u : Nat → Int) (out : List Out) (tr : List Event)
    (h : cmx < 0) :
    cycle (fibSt 23 m0 m1 m2 m3 m4 st ps eax cmx inp u out tr) =
      fibSt 25 m0 m1 m2 m3 m4 st ps eax cmx inp u out tr := by
  simp [fibSt, cycle, nextCode, exec, opMOV, opLBL, opCMP, opJMP, opCAL, opRET, opEXI,
    opPRINT, opINPUT, condJump, binary, jump, lbl, read, readDepth, readFuel, write, mem,
    set_mem, push, pop, proc_push, proc_restore, VSVM.log, fibonacci, fibonacci_label0,
    fibonacci_label1, fibonacci_label3, fibonacci_label4, fibonacci_label5,
    -List.reduceReplicate, h]

/-- Instruction `JGE 4` at address 23, test succeeding. -/
theorem fib_jge_taken (m0 m1 m2 m3 m4 : Int) (st ps : List Int) (eax cmx : Int) (inp : List Int)
    (u : Nat → Int) (out : List Out) (tr : List Event)
    (h : 0 ≤ cmx) :
    cycle (fibSt 23 m0 m1 m2 m3 m4 st ps eax cmx inp u out tr) =
      fibSt 11 m0 m1 m2 m3 m4 st ps eax cmx inp u out (Event.lbl 4 11 :: tr) := by
  simp [fibSt, cycle, nextCode, exec, opMOV, opLBL, opCMP, opJMP, opCAL, opRET, opEXI,
    opPRINT, opINPUT, condJump, binary, jump, lbl, read, readDepth, readFuel, write, mem,
    set_mem, push, pop, proc_push, proc_restore, VSVM.log, fibonacci, fibonacci_label0,
    fibonacci_label1, fibonacci_label3, fibonacci_label4, fibonacci_label5,
    -List.reduceReplicate, h]

/-- Instruction `MOV MEM 2 MEM 4` at address 25. -/
theorem fib_save_b (m0 m1 m2 m3 m4 : Int) (st ps : List Int) (eax cmx : Int) (inp : List Int)
    (u : Nat → Int) (out : List Out) (tr : List Event) :
    cycle (fibSt 25 m0 m1 m2 m3 m4 st ps eax cmx inp u out tr) =
      fibSt 30 m0 m1 m2 m3 m2 st ps eax cmx inp u out (Event.set_mem 4 m2 1024 :: Event.mem 2 1024 :: tr) := by
  simp [fibSt, cycle, nextCode, exec, opMOV, opLBL, opCMP, opJMP, opCAL, opRET, opEXI,
    opPRINT, opINPUT, condJump, binary, jump, lbl, read, readDepth, readFuel, write, mem,
    set_mem, push, pop, proc_push, proc_restore, VSVM.log, fibonacci, fibonacci_label0,
    fibonacci_label1, fibonacci_label3, fibonacci_label4, fibonacci_label5,
    -List.reduceReplicate]

/-- Instruction `ADD MEM 2 MEM 1 MEM 2` at address 30. -/
theorem fib_add (m0 m1 m2 m3 m4 : Int) (st ps : List Int) (eax cmx : Int) (inp : List Int)
    (u : Nat → Int) (out : List Out) (tr : List Event) :
    cycle (fibSt 30 m0 m1 m2 m3 m4 st ps eax cmx inp u out tr) =
      fibSt 37 m0 m1 (wrap32 (m2 + m1)) m3 m4 st ps eax cmx inp u out (Event.set_mem 2 (wrap32 (m2 + m1)) 1024 :: Event.mem 1 1024 :: Event.mem 2 1024 :: tr) := by
  simp [fibSt, cycle, nextCode, exec, opMOV, opLBL, opCMP, opJMP, opCAL, opRET, opEXI,
    opPRINT, opINPUT, condJump, binary, jump, lbl, read, readDepth, readFuel, write, mem,
    set_mem, push, pop, proc_push, proc_restore, VSVM.log, fibonacci, fibonacci_label0,
    fibonacci_label1, fibonacci_label3, fibonacci_label4, fibonacci_label5,
    -List.reduceReplicate]

/-- Instruction `MOV MEM 4 MEM 1` at address 37. -/
theorem fib_move_a (m0 m1 m2 m3 m4 : Int) (st ps : List Int) (eax cmx : Int) (inp : List Int)
    (u : Nat → Int) (out : List Out) (tr : List Event) :
    cycle (fibSt 37 m0 m1 m2 m3 m4 st ps eax cmx inp u out tr) =
      fibSt 42 m0 m4 m2 m3 m4 st ps eax cmx inp u out (Event.set_mem 1 m4 1024 :: Event.mem 4 1024 :: tr) := by
  simp [fibSt, cycle, nextCode, exec, opMOV, opLBL, opCMP, opJMP, opCAL, opRET, opEXI,
    opPRINT, opINPUT, condJump, binary, jump, lbl, read, readDepth, readFuel, write, mem,
    set_mem, push, pop, proc_push, proc_restore, VSVM.log, fibonacci, fibonacci_label0,
    fibonacci_label1, fibonacci_label3, fibonacci_label4, fibonacci_label5,
    -List.reduceReplicate]

/-- Instruction `ADD MEM 3 CON 1 MEM 3` at address 42. -/
theorem fib_incr_i (m0 m1 m2 m3 m4 : Int) (st ps : List Int) (eax cmx : Int) (inp : List Int)
    (u : Nat → Int) (out : List Out) (tr : List Event) :
    cycle (fibSt 42 m0 m1 m2 m3 m4 st ps eax cmx inp u out tr) =
      fibSt 49 m0 m1 m2 (wrap32 (m3 + 1)) m4 st ps eax cmx inp u out (Event.set_mem 3 (wrap32 (m3 + 1)) 1024 :: Event.mem 3 1024 :: tr) := by
  simp [fibSt, cycle, nextCode, exec, opMOV, opLBL, opCMP, opJMP, opCAL, opRET, opEXI,
    opPRINT, opINPUT, condJump, binary, jump, lbl, read, readDepth, readFuel, write, mem,
    set_mem, push, pop, proc_push, proc_restore, VSVM.log, fibonacci, fibonacci_label0,
    fibonacci_label1, fibonacci_label3, fibonacci_label4, fibonacci_label5,
    -List.reduceReplicate]

/-- Instruction `MOV MEM 2 STA` at address 11. -/
theorem fib_push_b (m0 m1 m2 m3 m4 : Int) (st ps : List Int) (eax cmx : Int) (inp : List Int)
    (u : Nat → Int) (out : List Out) (tr : List Event) :
    cycle (fibSt 11 m0 m1 m2 m3 m4 st ps eax cmx inp u out tr) =
      fibSt 15 m0 m1 m2 m3 m4 (m2 :: st) ps eax cmx inp u out (Event.push m2 :: Event.mem 2 1024 :: tr) := by
  simp [fibSt, cycle, nextCode, exec, opMOV, opLBL, opCMP, opJMP, opCAL, opRET, opEXI,
    opPRINT, opINPUT, condJump, binary, jump, lbl, read, readDepth, readFuel, write, mem,
    set_mem, push, pop, proc_push, proc_restore, VSVM.log, fibonacci, fibonacci_label0,
    fibonacci_label1, fibonacci_label3, fibonacci_label4, fibonacci_label5,
    -List.reduceReplicate]

/-- Instruction `RET` at address 15. -/
theorem fib_ret (m0 m1 m2 m3 m4 : Int) (st ps : List Int) (eax cmx : Int) (inp : List Int)
    (u : Nat → Int) (out : List Out) (tr : List Event)
    (r : Int) :
    cycle (fibSt 15 m0 m1 m2 m3 m4 st (r :: ps) eax cmx inp u out tr) =
      fibSt r m0 m1 m2 m3 m4 st ps eax cmx inp u out (Event.proc_restore (ps.length + 1) :: tr) := by
  simp [fibSt, cycle, nextCode, exec, opMOV, opLBL, opCMP, opJMP, opCAL, opRET, opEXI,
    opPRINT, opINPUT, condJump, binary, jump, lbl, read, readDepth, readFuel, write, mem,
    set_mem, push, pop, proc_push, proc_restore, VSVM.log, fibonacci, fibonacci_label0,
    fibonacci_label1, fibonacci_label3, fibonacci_label4, fibonacci_label5,
    -List.reduceReplicate]

/-- Instruction `PRINT STA` at address 96. -/
theorem fib_print (m0 m1 m2 m3 m4 : Int) (st ps : List Int) (eax cmx : Int) (inp : List Int)
    (u : Nat → Int) (out : List Out) (tr : List Event)
    (v : Int) :
    cycle (fibSt 96 m0 m1 m2 m3 m4 (v :: st) ps eax cmx inp u out tr) =
      fibSt 98 m0 m1 m2 m3 m4 st ps eax cmx inp u (out ++ [Out.value v]) (Event.pop (st.length + 1) :: tr) := by
  simp [fibSt, cycle, nextCode, exec, opMOV, opLBL, opCMP, opJMP, opCAL, opRET, opEXI,
    opPRINT, opINPUT, condJump, binary, jump, lbl, read, readDepth, readFuel, write, mem,
    set_mem, push, pop, proc_push, proc_restore, VSVM.log, fibonacci, fibonacci_label0,
    fibonacci_label1, fibonacci_label3, fibonacci_label4, fibonacci_label5,
    -List.reduceReplicate]

/-- Instruction `EXI` at address 102. -/
theorem fib_exit (m0 m1 m2 m3 m4 : Int) (st ps : List Int) (eax cmx : Int) (inp : List Int)
    (u : Nat → Int) (out : List Out) (tr : List Event) :
    cycle (fibSt 102 m0 m1 m2 m3 m4 st ps eax cmx inp u out tr) =
      { fibSt 103 m0 m1 m2 m3 m4 st ps eax cmx inp u out tr with stop_flag := true } := by
  simp [fibSt, cycle, nextCode, exec, opMOV, opLBL, opCMP, opJMP, opCAL, opRET, opEXI,
    opPRINT, opINPUT, condJump, binary, jump, lbl, read, readDepth, readFuel, write, mem,
    set_mem, push, pop, proc_push, proc_restore, VSVM.log, fibonacci, fibonacci_label0,
    fibonacci_label1, fibonacci_label3, fibonacci_label4, fibonacci_label5,
    -List.reduceReplicate]

theorem fibRec_bounds : ∀ j, j ≤ 44 →
    0 ≤ (fibRec j).1 ∧ 0 ≤ (fibRec j).2 ∧ (fibRec j).1 + (fibRec j).2 < 2147483648 := by
  decide

/-- One turn of the loop. -/
theorem fib_turn (n j : Nat) (hj : j + 1 < n) (hn : n ≤ 46) (c : Int) (inp : List Int)
    (u : Nat → Int) (tr : List Event) (fuel : Nat) :
    ∃ c' tr', run (fuel + 7) (fibLoop n j c inp u tr) =
        run fuel (fibLoop n (j + 1) c' inp u tr') ∧
      callReturns tr' = callReturns tr := by
  obtain ⟨b1, b2, b3⟩ := fibRec_bounds j (by omega)
  refine ⟨?cw, ?tw, ?eqn, ?_⟩
  case eqn =>
    unfold fibLoop
    rw [run_succ _ _ (fibSt_running ..).1 (fibSt_running ..).2.1
      (fibSt_running ..).2.2, fib_cmp_i,
      run_succ _ _ (fibSt_running ..).1 (fibSt_running ..).2.1
      (fibSt_running ..).2.2,
      fib_jge_not_taken (h := by rw [wrap32_eq _ (by omega) (by omega)]; omega),
      run_succ _ _ (fibSt_running ..).1 (fibSt_running ..).2.1
      (fibSt_running ..).2.2, fib_save_b,
      run_succ _ _ (fibSt_running ..).1 (fibSt_running ..).2.1
      (fibSt_running ..).2.2, fib_add,
      run_succ _ _ (fibSt_running ..).1 (fibSt_running ..).2.1
      (fibSt_running ..).2.2, fib_move_a,
      run_succ _ _ (fibSt_running ..).1 (fibSt_running ..).2.1
      (fibSt_running ..).2.2, fib_incr_i,
      run_succ _ _ (fibSt_running ..).1 (fibSt_running ..).2.1
      (fibSt_running ..).2.2, fib_jmp_back,
      wrap32_eq ((fibRec j).2 + (fibRec j).1) (by omega) (by omega),
      wrap32_eq (((j + 1 : Nat) : Int) + 1) (by omega) (by omega),
      add_comm (fibRec j).2 (fibRec j).1]
    simp only [fibRec, Nat.cast_add, Nat.cast_one]
    exact rfl
  · simp [callReturns]

/-- The end of the run, from the loop head at which the loop is left. -/
theorem fib_leave (n : Nat) (hn1 : 1 ≤ n) (hn : n ≤ 46) (c m : Int) (hm1 : -2147483648 ≤ m)
    (hm2 : m ≤ 0) (rest : List Int) (u : Nat → Int) (tr : List Event)
    (htr : callReturns tr = [Event.proc_push 96]) :
    ∃ t, run 12 (fibLoop n (n - 1) c (m :: rest) u tr) = some t ∧
      t.stop_flag = true ∧ t.logic_error_flag = false ∧
      t.output = [Out.value (fibRec n).1] ∧
      callReturns t.trace = [Event.proc_restore 1, Event.proc_push 96] := by
  obtain ⟨j, rfl⟩ : ∃ j, n = j + 1 := ⟨n - 1, by omega⟩
  refine ⟨?tw, ?eqn, ?_⟩
  case eqn =>
    unfold fibLoop
    rw [Nat.add_sub_cancel,
      run_succ _ _ (fibSt_running ..).1 (fibSt_running ..).2.1
      (fibSt_running ..).2.2, fib_cmp_i,
      run_succ _ _ (fibSt_running ..).1 (fibSt_running ..).2.1
      (fibSt_running ..).2.2,
      fib_jge_taken (h := by rw [wrap32_eq _ (by omega) (by omega)]; omega),
      run_succ _ _ (fibSt_running ..).1 (fibSt_running ..).2.1
      (fibSt_running ..).2.2, fib_push_b,
      run_succ _ _ (fibSt_running ..).1 (fibSt_running ..).2.1
      (fibSt_running ..).2.2, fib_ret,
      run_succ _ _ (fibSt_running ..).1 (fibSt_running ..).2.1
      (fibSt_running ..).2.2, fib_print,
      run_succ _ _ (fibSt_running ..).1 (fibSt_running ..).2.1
      (fibSt_running ..).2.2, fib_jmp_again,
      run_succ _ _ (fibSt_running ..).1 (fibSt_running ..).2.1
      (fibSt_running ..).2.2, fib_input,
      run_succ _ _ (fibSt_running ..).1 (fibSt_running ..).2.1
      (fibSt_running ..).2.2, fib_push_eax,
      run_succ _ _ (fibSt_running ..).1 (fibSt_running ..).2.1
      (fibSt_running ..).2.2, fib_cmp_eax,
      run_succ _ _ (fibSt_running ..).1 (fibSt_running ..).2.1
      (fibSt_running ..).2.2,
      fib_jle_taken (h := by rw [wrap32_eq _ (by omega) (by omega)]; omega),
      run_succ _ _ (fibSt_running ..).1 (fibSt_running ..).2.1
      (fibSt_running ..).2.2, fib_exit]
    unfold run
    rw [if_pos rfl]
    exact rfl
  · refine ⟨rfl, rfl, rfl, ?_⟩
    simp [callReturns, fibSt] at htr ⊢
    exact htr

/-- The loop and the end of the run, from the loop head reached after `j` repetitions. -/
theorem fib_tail (n : Nat) (hn1 : 1 ≤ n) (hn : n ≤ 46) (m : Int) (hm1 : -2147483648 ≤ m)
    (hm2 : m ≤ 0) (rest : List Int) (u : Nat → Int) (d : Nat) :
    ∀ (j : Nat), j + 1 + d = n → ∀ (c : Int) (tr : List Event),
      callReturns tr = [Event.proc_push 96] →
      ∃ t, run (12 + 7 * d) (fibLoop n j c (m :: rest) u tr) = some t ∧
        t.stop_flag = true ∧ t.logic_error_flag = false ∧
        t.output = [Out.value (fibRec n).1] ∧
        callReturns t.trace = [Event.proc_restore 1, Event.proc_push 96] := by
  induction d with
  | zero =>
    intro j hj c tr htr
    have : j = n - 1 := by omega
    subst this
    exact fib_leave n hn1 hn c m hm1 hm2 rest u tr htr
  | succ d ih =>
    intro j hj c tr htr
    obtain ⟨c', tr', hrun, hcr⟩ := fib_turn n j (by omega) hn c (m :: rest) u tr (12 + 7 * d)
    rw [show 12 + 7 * (d + 1) = (12 + 7 * d) + 7 by omega, hrun]
    exact ih (j + 1) (by omega) c' tr' (by rw [hcr, htr])

theorem fib_start (inp : List Int) (u : Nat → Int) :
    fetch fibonacci (VirtualMachine.fresh 1024 inp u) = fibSt 0 0 0 0 0 0 [] [] 0 0 inp u [] [] := by
  rw [fetch_fresh fibonacci 1024 inp u (by decide)]
  rfl

theorem fibRec_eq_fib (n : Nat) : fibRec n = ((Nat.fib n : Int), (Nat.fib (n + 1) : Int)) := by
  induction n with
  | zero => rfl
  | succ n ih =>
    rw [fibRec, ih, Nat.fib_add_two]
    push_cast
    rfl

/-- C4.  The Fibonacci program on a fresh machine with 1024 memory cells, with
an input `n`, `1 ≤ n ≤ 46`, followed by a non-positive input `m`: `run` leaves
its loop after `7 n + 17` dispatch cycles with the stop flag set and the fault
flag clear; the log holds one `proc_push` (of the return address `96`) and one
`proc_restore` (from a call stack of depth `1`); the output is the single value
`a` of the recurrence `a = 0, b = 1; repeat n times: c = b; b = a + b; a = c`,
which is the `n`-th Fibonacci number, `55` for `n = 10`. -/
theorem C4_fibonacci (n : Nat) (m : Int) (rest : List Int) (undef : Nat → Int)
    (hn1 : 1 ≤ n) (hn2 : n ≤ 46) (hm1 : -2147483648 ≤ m) (hm2 : m ≤ 0) :
    (∃ t, run (7 * n + 18)
        (fetch fibonacci (VirtualMachine.fresh 1024 ((n : Int) :: m :: rest) undef)) = some t ∧
      t.stop_flag = true ∧ t.logic_error_flag = false ∧
      t.output = [Out.value (fibRec n).1] ∧
      callReturns t.trace = [Event.proc_restore 1, Event.proc_push 96]) ∧
    (fibRec n).1 = (Nat.fib n : Int) ∧ (fibRec 10).1 = 55 := by
  refine ⟨?_, by rw [fibRec_eq_fib], by decide⟩
  rw [fib_start, show 7 * n + 18 = (12 + 7 * (n - 1)) + 13 by omega,
    run_succ _ _ (fibSt_running ..).1 (fibSt_running ..).2.1
      (fibSt_running ..).2.2, fib_jmp_main,
    run_succ _ _ (fibSt_running ..).1 (fibSt_running ..).2.1
      (fibSt_running ..).2.2, fib_input,
    run_succ _ _ (fibSt_running ..).1 (fibSt_running ..).2.1
      (fibSt_running ..).2.2, fib_push_eax,
    run_succ _ _ (fibSt_running ..).1 (fibSt_running ..).2.1
      (fibSt_running ..).2.2, fib_cmp_eax,
    run_succ _ _ (fibSt_running ..).1 (fibSt_running ..).2.1
      (fibSt_running ..).2.2,
    fib_jle_not_taken (h := by rw [wrap32_eq _ (by omega) (by omega)]; omega),
    run_succ _ _ (fibSt_running ..).1 (fibSt_running ..).2.1
      (fibSt_running ..).2.2, fib_cal,
    run_succ _ _ (fibSt_running ..).1 (fibSt_running ..).2.1
      (fibSt_running ..).2.2, fib_pop_n,
    run_succ _ _ (fibSt_running ..).1 (fibSt_running ..).2.1
      (fibSt_running ..).2.2, fib_init_a,
    run_succ _ _ (fibSt_running ..).1 (fibSt_running ..).2.1
      (fibSt_running ..).2.2, fib_init_b,
    run_succ _ _ (fibSt_running ..).1 (fibSt_running ..).2.1
      (fibSt_running ..).2.2, fib_cmp_n,
    run_succ _ _ (fibSt_running ..).1 (fibSt_running ..).2.1
      (fibSt_running ..).2.2,
    fib_jlt_not_taken (h := by rw [wrap32_eq _ (by omega) (by omega)]; omega),
    run_succ _ _ (fibSt_running ..).1 (fibSt_running ..).2.1
      (fibSt_running ..).2.2, fib_init_i,
    run_succ _ _ (fibSt_running ..).1 (fibSt_running ..).2.1
      (fibSt_running ..).2.2, fib_jmp_loop]
  exact fib_tail n hn1 hn2 m hm1 hm2 rest undef (n - 1) 0 (by omega) _ _ (by simp [callReturns])

/-- An instance of C4: the inputs `10` and `0`. -/
theorem C4_fibonacci_witness :
    1 ≤ 10 ∧ 10 ≤ 46 ∧ (-2147483648 : Int) ≤ 0 ∧ (0 : Int) ≤ 0 ∧
    ((∃ t, run (7 * 10 + 18)
        (fetch fibonacci (VirtualMachine.fresh 1024 (((10 : Nat) : Int) :: 0 :: [])
          (fun _ => 0))) = some t ∧
      t.stop_flag = true ∧ t.logic_error_flag = false ∧
      t.output = [Out.value (fibRec 10).1] ∧
      callReturns t.trace = [Event.proc_restore 1, Event.proc_push 96]) ∧
    (fibRec 10).1 = (Nat.fib 10 : Int) ∧ (fibRec 10).1 = 55) :=
  ⟨by decide, by decide, by decide, by decide,
    C4_fibonacci 10 0 [] (fun _ => 0) (by decide) (by decide) (by decide) (by decide)⟩

/-! ## C5: the counting program -/

@[simp] theorem counting_length : counting.length = 33 := by decide
theorem counting_label0 : countingLabels 0 = 15 := by decide
theorem counting_label1 : countingLabels 1 = 4 := by decide
theorem counting_label2 : countingLabels 2 = 22 := by decide

theorem cnt_running (pc k c : Int) (input : List Int) (undef : Nat → Int) (out : List Out)
    (tr : List Event) :
    (cnt pc k c input undef out tr).stop_flag = false ∧
    (cnt pc k c input undef out tr).logic_error_flag = false ∧
    (cnt pc k c input undef out tr).trapped = false := ⟨rfl, rfl, rfl⟩

theorem cnt_cmp (k c : Int) (input : List Int) (undef : Nat → Int) (out : List Out) (tr : List Event) :
    cycle (cnt 22 k c input undef out tr) =
      cnt 27 k (wrap32 (k - 100000)) input undef out (Event.mem 0 1024 :: tr) := by
  simp [cnt, cycle, nextCode, exec, opCMP, read, readDepth, readFuel, mem, VSVM.log, counting, -List.reduceReplicate]

theorem cnt_jlt_taken (k c : Int) (hc : c < 0) (input : List Int) (undef : Nat → Int)
    (out : List Out) (tr : List Event) :
    cycle (cnt 27 k c input undef out tr) =
      cnt 4 k c input undef out (Event.lbl 1 4 :: tr) := by
  have h1 := counting_label1
  simp [cnt, cycle, nextCode, exec, condJump, jump, lbl, VSVM.log, counting, hc, h1, -List.reduceReplicate]

theorem cnt_jlt_not_taken (k c : Int) (hc : ¬ c < 0) (input : List Int) (undef : Nat → Int)
    (out : List Out) (tr : List Event) :
    cycle (cnt 27 k c input undef out tr) = cnt 29 k c input undef out tr := by
  simp [cnt, cycle, nextCode, exec, condJump, counting, hc, -List.reduceReplicate]

theorem cnt_add (k c : Int) (input : List Int) (undef : Nat → Int) (out : List Out)
    (tr : List Event) :
    cycle (cnt 4 k c input undef out tr) =
      cnt 11 (wrap32 (k + 1)) c input undef out
        (Event.set_mem 0 (wrap32 (k + 1)) 1024 :: Event.mem 0 1024 :: tr) := by
  simp [cnt, cycle, nextCode, exec, binary, read, readDepth, readFuel, write, mem, set_mem,
    VSVM.log, counting, -List.reduceReplicate]

theorem cnt_jmp (k c : Int) (input : List Int) (undef : Nat → Int) (out : List Out)
    (tr : List Event) :
    cycle (cnt 11 k c input undef out tr) =
      cnt 22 k c input undef out (Event.lbl 2 22 :: tr) := by
  have h2 := counting_label2
  simp [cnt, cycle, nextCode, exec, opJMP, jump, lbl, VSVM.log, counting, h2, -List.reduceReplicate]

/-- One turn of the loop: `CMP`, `JLT` taken, `ADD`, `JMP`. -/
theorem cnt_turn (k : Nat) (hk : k < 100000) (c : Int) (input : List Int) (undef : Nat → Int)
    (out : List Out) (fuel : Nat) :
    run (fuel + 4) (cnt 22 k c input undef out (countingTrace k)) =
      run fuel (cnt 22 ((k + 1 : Nat) : Int) (wrap32 ((k : Int) - 100000)) input undef out
        (countingTrace (k + 1))) := by
  rw [run_succ _ _ (cnt_running ..).1 (cnt_running ..).2.1
      (cnt_running ..).2.2, cnt_cmp,
    run_succ _ _ (cnt_running ..).1 (cnt_running ..).2.1
      (cnt_running ..).2.2,
    cnt_jlt_taken _ _ (by rw [wrap32_eq _ (by omega) (by omega)]; omega),
    run_succ _ _ (cnt_running ..).1 (cnt_running ..).2.1
      (cnt_running ..).2.2, cnt_add,
    run_succ _ _ (cnt_running ..).1 (cnt_running ..).2.1
      (cnt_running ..).2.2, cnt_jmp,
    wrap32_eq ((k : Int) + 1) (by omega) (by omega)]
  simp [countingTrace]

theorem cnt_loop (n : Nat) : ∀ (k : Nat), k + n = 100000 → ∀ (c : Int) (input : List Int)
    (undef : Nat → Int) (out : List Out) (fuel : Nat),
    ∃ c', run (fuel + 4 * n) (cnt 22 k c input undef out (countingTrace k)) =
      run fuel (cnt 22 100000 c' input undef out (countingTrace 100000)) := by
  induction n with
  | zero =>
    intro k hk c input undef out fuel
    have : k = 100000 := by omega
    subst this
    exact ⟨c, rfl⟩
  | succ n ih =>
    intro k hk c input undef out fuel
    obtain ⟨c', hc'⟩ := ih (k + 1) (by omega) (wrap32 ((k : Int) - 100000)) input undef out fuel
    refine ⟨c', ?_⟩
    rw [show fuel + 4 * (n + 1) = (fuel + 4 * n) + 4 by omega, cnt_turn k (by omega), hc']

theorem stored_countingTrace (k : Nat) :
    stored 0 (countingTrace k) = (List.range (k + 1)).reverse.map Int.ofNat := by
  induction k with
  | zero => rfl
  | succ k ih =>
    rw [List.range_succ, List.reverse_append]
    simp only [countingTrace, stored, List.cons_append, List.nil_append, List.filterMap_cons,
      if_true, List.reverse_cons, List.reverse_nil, List.map_cons, List.singleton_append]
    rw [← ih]
    simp [stored]

theorem cnt_start (input : List Int) (undef : Nat → Int) :
    fetch counting (VirtualMachine.fresh 1024 input undef) = cnt 0 0 0 input undef [] [] := by
  rw [fetch_fresh counting 1024 input undef (by decide)]
  rfl

theorem cnt_jmp_main (input : List Int) (undef : Nat → Int) :
    cycle (cnt 0 0 0 input undef [] []) = cnt 15 0 0 input undef [] [Event.lbl 0 15] := by
  have h0 := counting_label0
  simp [cnt, cycle, nextCode, exec, opJMP, jump, lbl, VSVM.log, counting, h0,
    -List.reduceReplicate]

theorem cnt_init (input : List Int) (undef : Nat → Int) :
    cycle (cnt 15 0 0 input undef [] [Event.lbl 0 15]) =
      cnt 20 0 0 input undef [] (countingTrace 0) := by
  simp [cnt, cycle, nextCode, exec, opMOV, read, readDepth, readFuel, write, set_mem, VSVM.log,
    counting, countingTrace, -List.reduceReplicate]

theorem cnt_lbl (input : List Int) (undef : Nat → Int) (tr : List Event) :
    cycle (cnt 20 0 0 input undef [] tr) = cnt 22 0 0 input undef [] tr := by
  simp [cnt, cycle, nextCode, exec, opLBL, counting, -List.reduceReplicate]

theorem cnt_print (k c : Int) (input : List Int) (undef : Nat → Int) (tr : List Event) :
    cycle (cnt 29 k c input undef [] tr) =
      cnt 32 k c input undef [Out.value k] (Event.mem 0 1024 :: tr) := by
  simp [cnt, cycle, nextCode, exec, opPRINT, read, readDepth, readFuel, mem, VSVM.log,
    counting, -List.reduceReplicate]

theorem cnt_exit (k c : Int) (input : List Int) (undef : Nat → Int) (out : List Out)
    (tr : List Event) :
    cycle (cnt 32 k c input undef out tr) =
      { cnt 33 k c input undef out tr with stop_flag := true } := by
  simp [cnt, cycle, nextCode, exec, opEXI, counting, -List.reduceReplicate]

/-- C5.  The counting program, loaded into a fresh machine with 1024 memory
cells, leaves the loop of `run` after 400007 dispatch cycles with the stop flag
set and the fault flag clear, cell `0` equal to `100000` and the single output
`100000`; the values stored in cell `0` were `0, 1, ..., 100000` in this
order. -/
theorem C5_counting (input : List Int) (undef : Nat → Int) :
    ∃ t, run 400008 (fetch counting (VirtualMachine.fresh 1024 input undef)) = some t ∧
      t.stop_flag = true ∧ t.logic_error_flag = false ∧ t.memory.getD 0 0 = 100000 ∧
      t.output = [Out.value 100000] ∧
      stored 0 t.trace = (List.range 100001).reverse.map Int.ofNat := by
  obtain ⟨c', hloop⟩ := cnt_loop 100000 0 (by omega) 0 input undef [] 5
  refine ⟨{ cnt 33 100000 0 input undef [Out.value 100000]
      (Event.mem 0 1024 :: Event.mem 0 1024 :: countingTrace 100000) with stop_flag := true },
    ?_, rfl, rfl, rfl, rfl, ?_⟩
  · rw [cnt_start, run_succ _ _ (cnt_running ..).1 (cnt_running ..).2.1
      (cnt_running ..).2.2, cnt_jmp_main,
      run_succ _ _ (cnt_running ..).1 (cnt_running ..).2.1
      (cnt_running ..).2.2, cnt_init,
      run_succ _ _ (cnt_running ..).1 (cnt_running ..).2.1
      (cnt_running ..).2.2, cnt_lbl]
    have h := hloop
    simp only [Nat.cast_zero] at h
    rw [show (400005 : Nat) = 5 + 4 * 100000 by norm_num, h,
      run_succ _ _ (cnt_running ..).1 (cnt_running ..).2.1
      (cnt_running ..).2.2, cnt_cmp,
      run_succ _ _ (cnt_running ..).1 (cnt_running ..).2.1
      (cnt_running ..).2.2,
      cnt_jlt_not_taken _ _ (by rw [wrap32_eq _ (by omega) (by omega)]; omega),
      run_succ _ _ (cnt_running ..).1 (cnt_running ..).2.1
      (cnt_running ..).2.2, cnt_print,
      run_succ _ _ (cnt_running ..).1 (cnt_running ..).2.1
      (cnt_running ..).2.2, cnt_exit]
    rw [wrap32_eq _ (by omega) (by omega)]
    simp [run, cnt]
  · show stored 0 (Event.mem 0 1024 :: Event.mem 0 1024 :: countingTrace 100000) = _
    rw [← stored_countingTrace 100000]
    rfl

/-! ## C6: the failure notice -/

theorem newEvents_eq {s t : VirtualMachine} {evs : List Event} (h : t.trace = evs ++ s.trace) :
    newEvents s t = evs := by
  unfold newEvents
  rw [h]
  simp
theorem nextCode_fields (s : VirtualMachine) :
    (nextCode s).2.memory = s.memory ∧ (nextCode s).2.eax = s.eax ∧
    (nextCode s).2.ebx = s.ebx ∧ (nextCode s).2.cmx = s.cmx ∧
    (nextCode s).2.proc_stack = s.proc_stack ∧ (nextCode s).2.trace = s.trace ∧
    (nextCode s).2.stack = s.stack ∧
    (nextCode s).2.logic_error_flag = s.logic_error_flag := by
  unfold nextCode
  split_ifs <;> simp

theorem mem_spec (a : Int) (s : VirtualMachine) :
    (mem a s).2.memory = s.memory ∧ (mem a s).2.eax = s.eax ∧ (mem a s).2.ebx = s.ebx ∧
    (mem a s).2.cmx = s.cmx ∧ (mem a s).2.proc_stack = s.proc_stack ∧
    (mem a s).2.trace = Event.mem a s.memory.length :: s.trace ∧
    ((Event.mem a s.memory.length).faulty = true → (mem a s).1 = 0) ∧
    ((Event.mem a s.memory.length).faulty = false → (mem a s).1 = s.memory.getD a.toNat 0) := by
  unfold mem
  simp only [VSVM.log, Event.faulty]
  split_ifs with h <;> simp [h]

theorem pop_spec (s : VirtualMachine) :
    (pop s).2.memory = s.memory ∧ (pop s).2.eax = s.eax ∧ (pop s).2.ebx = s.ebx ∧
    (pop s).2.cmx = s.cmx ∧ (pop s).2.proc_stack = s.proc_stack ∧
    (pop s).2.trace = Event.pop s.stack.length :: s.trace ∧
    ((Event.pop s.stack.length).faulty = true → (pop s).1 = 0) := by
  unfold pop
  cases h : s.stack <;> simp [VSVM.log, Event.faulty, h]

theorem ReadSpec_readFuel (fuel : Nat) : ∀ (s : VirtualMachine) (r : Int × VirtualMachine),
    readFuel fuel s = some r → ReadSpec s r := by
  induction fuel with
  | zero => intro s r h; simp [readFuel] at h
  | succ n ih =>
    intro s r h
    unfold readFuel at h
    obtain ⟨n1, n2, n3, n4, n5, n6, -, -⟩ := nextCode_fields s
    rcases hn : nextCode s with ⟨type, s1⟩
    rw [hn] at h n1 n2 n3 n4 n5 n6
    simp only [] at h n1 n2 n3 n4 n5 n6
    have hnil : ∀ v : Int, ReadSpec s (v, s1) := fun v =>
      ⟨n1, n2, n3, n4, n5, ⟨[], by simp [n6], by simp, by simp⟩⟩
    split_ifs at h
    · cases h; exact hnil _
    · cases h; exact hnil _
    · cases h; exact hnil _
    · cases h
      obtain ⟨m1, m2, m3, m4, m5, m6, -, -⟩ := nextCode_fields s1
      obtain ⟨k1, k2, k3, k4, k5, k6, k7, k8⟩ := mem_spec (nextCode s1).1 (nextCode s1).2
      refine ⟨by rw [k1, m1, n1], by rw [k2, m2, n2], by rw [k3, m3, n3], by rw [k4, m4, n4],
        by rw [k5, m5, n5], ⟨[_], by rw [k6, m6, n6]; rfl, ?_, ?_⟩⟩
      · intro e he hf
        simp only [List.head?_cons, Option.some.injEq] at he
        subst he
        exact k7 hf
      · intro addr size he hf
        simp only [List.head?_cons, Option.some.injEq, Event.mem.injEq] at he
        obtain ⟨rfl, rfl⟩ := he
        rw [k8 hf, m1, n1]
    · cases h
      obtain ⟨k1, k2, k3, k4, k5, k6, k7⟩ := pop_spec s1
      refine ⟨by rw [k1, n1], by rw [k2, n2], by rw [k3, n3], by rw [k4, n4],
        by rw [k5, n5], ⟨[_], by rw [k6, n6]; rfl, ?_, ?_⟩⟩
      · intro e he hf
        simp only [List.head?_cons, Option.some.injEq] at he
        subst he
        exact k7 hf
      · intro addr size he
        simp at he
    · cases hr : readFuel n s1 with
      | none => simp [hr] at h
      | some r1 =>
        rw [hr] at h
        cases h
        obtain ⟨i1, i2, i3, i4, i5, ⟨evs, i6, -, -⟩⟩ := ih s1 r1 hr
        obtain ⟨k1, k2, k3, k4, k5, k6, k7, k8⟩ := mem_spec r1.1 r1.2
        refine ⟨by rw [k1, i1, n1], by rw [k2, i2, n2], by rw [k3, i3, n3],
          by rw [k4, i4, n4], by rw [k5, i5, n5],
          ⟨Event.mem r1.1 r1.2.memory.length :: evs, by rw [k6, i6, n6]; rfl, ?_, ?_⟩⟩
        · intro e he hf
          simp only [List.head?_cons, Option.some.injEq] at he
          subst he
          exact k7 hf
        · intro addr size he hf
          simp only [List.head?_cons, Option.some.injEq, Event.mem.injEq] at he
          obtain ⟨rfl, rfl⟩ := he
          rw [k8 hf, i1, n1]
    · cases h
      obtain ⟨m1, m2, m3, m4, m5, m6, -, -⟩ := nextCode_fields s1
      exact ⟨by rw [m1, n1], by rw [m2, n2], by rw [m3, n3], by rw [m4, n4], by rw [m5, n5],
        ⟨[], by simp [m6, n6], by simp, by simp⟩⟩
    · cases h
      exact ⟨n1, n2, n3, n4, n5, ⟨[], by simp [takeUndef, n6], by simp, by simp⟩⟩

theorem ReadSpec_read (s : VirtualMachine) : ReadSpec s (read s) :=
  ReadSpec_readFuel _ s _ (read_eq s)

/-- C7 (counterexample).  In `nested`, the `PRINT` reads the operand `PTR STA`
with the value stack empty and cell `0` equal to `5`: the pop runs into its
guard and sets the fault flag, its substitute `0` is used as the address, and
the read yields `5`, which the run prints before the failure notice. -/
theorem C7_counterexample :
    (∃ e ∈ newEvents nestedRead (read nestedRead).2, e.faulty = true) ∧
    (read nestedRead).2.logic_error_flag = true ∧
    (read nestedRead).1 = 5 ∧
    (runCycles 3 (fetch nested (VirtualMachine.fresh 1024 [] (fun _ => 0)))).output
      = [Out.value 5, Out.notice] := by
  decide

/-- C7 (amended).  If resolving a read operand makes an accessor call that runs
into its guard (a memory access outside `[0, size)` or a pop of the empty value
stack), the error flag is set.  The read yields `0` when that call is the last
one made, which is always so for a memory-direct or stack-top operand; when
only a nested operand of a pointer-indirect read faults, the read yields the
memory cell at the address the nested operand produced (its substitute `0` if
it is the innermost that faults). -/
theorem C7_read_fault (s : VirtualMachine)
    (h : ∃ e ∈ newEvents s (read s).2, e.faulty = true) :
    (read s).2.logic_error_flag = true ∧
    (∀ e, (newEvents s (read s).2).head? = some e → e.faulty = true → (read s).1 = 0) ∧
    (∀ addr size, (newEvents s (read s).2).head? = some (Event.mem addr size) →
      (Event.mem addr size).faulty = false → (read s).1 = s.memory.getD addr.toNat 0) := by
  obtain ⟨evs, hev, -, -, hcomplete⟩ := (Ext_read s).log
  obtain ⟨evs', hev', hv, hm⟩ := (ReadSpec_read s).value
  have e1 := newEvents_eq hev
  have e2 := newEvents_eq hev'
  rw [e1] at h
  rw [e2]
  exact ⟨hcomplete h, hv, hm⟩

/-- An instance of the amended C7: the read of `PTR STA` in `nested`. -/
theorem C7_read_fault_witness :
    (∃ e ∈ newEvents nestedRead (read nestedRead).2, e.faulty = true) ∧
    ((read nestedRead).2.logic_error_flag = true ∧
    (∀ e, (newEvents nestedRead (read nestedRead).2).head? = some e → e.faulty = true →
      (read nestedRead).1 = 0) ∧
    (∀ addr size,
      (newEvents nestedRead (read nestedRead).2).head? = some (Event.mem addr size) →
      (Event.mem addr size).faulty = false →
      (read nestedRead).1 = nestedRead.memory.getD addr.toNat 0)) :=
  ⟨by decide, C7_read_fault nestedRead (by decide)⟩

theorem set_mem_spec (a v : Int) (s : VirtualMachine) :
    (set_mem a v s).eax = s.eax ∧ (set_mem a v s).ebx = s.ebx ∧ (set_mem a v s).cmx = s.cmx ∧
    (set_mem a v s).trace = Event.set_mem a v s.memory.length :: s.trace ∧
    ((Event.set_mem a v s.memory.length).faulty = true → (set_mem a v s).memory = s.memory) := by
  unfold set_mem
  simp only [VSVM.log, Event.faulty]
  split_ifs with h <;> simp [h]

/-- C8 (counterexample).  In `nestedStore`, the second `MOV` writes `9` to the
operand `PTR STA` with the value stack empty and cell `0` equal to `5`: the pop
runs into its guard and sets the fault flag, its substitute `0` is used as the
address, and cell `0` is overwritten with `9`. -/
theorem C8_counterexample :
    (∃ e ∈ newEvents nestedWrite (write 9 nestedWrite), e.faulty = true) ∧
    (write 9 nestedWrite).logic_error_flag = true ∧
    nestedWrite.memory.getD 0 0 = 5 ∧
    (write 9 nestedWrite).memory.getD 0 0 = 9 ∧
    (cycle (cycle (fetch nestedStore
      (VirtualMachine.fresh 1024 [] (fun _ => 0))))).memory.getD 0 0 = 9 := by
  decide

/-- The accessor calls of a `write(v)`, and what it leaves alone when one of them runs into
its guard. -/
theorem write_spec (v : Int) (s : VirtualMachine) :
    ∃ evs, (write v s).trace = evs ++ s.trace ∧
      ((∃ e ∈ evs, e.faulty = true) →
        (write v s).eax = s.eax ∧ (write v s).ebx = s.ebx ∧ (write v s).cmx = s.cmx ∧
        (∀ e, evs.head? = some e → e.faulty = true → (write v s).memory = s.memory)) := by
  obtain ⟨n1, n2, n3, n4, -, n6, -, -⟩ := nextCode_fields s
  unfold write
  rcases hn : nextCode s with ⟨type, s1⟩
  rw [hn] at n1 n2 n3 n4 n6
  simp only [] at n1 n2 n3 n4 n6 ⊢
  split_ifs
  · exact ⟨[], by simp [n6], by simp⟩
  · exact ⟨[], by simp [n6], by simp⟩
  · exact ⟨[], by simp [n6], by simp⟩
  · obtain ⟨m1, m2, m3, m4, -, m6, -, -⟩ := nextCode_fields s1
    obtain ⟨k2, k3, k4, k6, k7⟩ := set_mem_spec (nextCode s1).1 v (nextCode s1).2
    refine ⟨[_], by rw [k6, m6, n6]; rfl, fun _ =>
      ⟨by rw [k2, m2, n2], by rw [k3, m3, n3], by rw [k4, m4, n4], ?_⟩⟩
    intro e he hf
    simp only [List.head?_cons, Option.some.injEq] at he
    subst he
    rw [k7 hf, m1, n1]
  · exact ⟨[Event.push v], by simp [push, VSVM.log, n6], by simp [Event.faulty]⟩
  · obtain ⟨i1, i2, i3, i4, -, ⟨evs', i6, -, -⟩⟩ := ReadSpec_read s1
    obtain ⟨k2, k3, k4, k6, k7⟩ := set_mem_spec (read s1).1 v (read s1).2
    refine ⟨_ :: evs', by rw [k6, i6, n6]; rfl, fun _ =>
      ⟨by rw [k2, i2, n2], by rw [k3, i3, n3], by rw [k4, i4, n4], ?_⟩⟩
    intro e he hf
    simp only [List.head?_cons, Option.some.injEq] at he
    subst he
    rw [k7 hf, i1, n1]
  · exact ⟨[], by simp [n6], by simp⟩

/-- C8 (amended).  If resolving a write operand makes an accessor call that
runs into its guard, the error flag is set and the registers `eax`, `ebx` and
`cmx` keep their values; no memory cell is mutated when that call is the last
one made, the store itself.  (When only the nested address operand of a
pointer-indirect write faults, the store still happens, at the address the
nested operand produced.) -/
theorem C8_write_fault (v : Int) (s : VirtualMachine)
    (h : ∃ e ∈ newEvents s (write v s), e.faulty = true) :
    (write v s).logic_error_flag = true ∧
    (write v s).eax = s.eax ∧ (write v s).ebx = s.ebx ∧ (write v s).cmx = s.cmx ∧
    (∀ e, (newEvents s (write v s)).head? = some e → e.faulty = true →
      (write v s).memory = s.memory) := by
  obtain ⟨evs, hev, -, -, hcomplete⟩ := (Ext_write v s).log
  obtain ⟨evs', hev', hspec⟩ := write_spec v s
  have e1 := newEvents_eq hev
  have e2 := newEvents_eq hev'
  refine ⟨hcomplete (e1 ▸ h), ?_⟩
  rw [e2] at h ⊢
  exact hspec h

/-- An instance of the amended C8: the write to `PTR STA` in `nestedStore`. -/
theorem C8_write_fault_witness :
    (∃ e ∈ newEvents nestedWrite (write 9 nestedWrite), e.faulty = true) ∧
    ((write 9 nestedWrite).logic_error_flag = true ∧
    (write 9 nestedWrite).eax = nestedWrite.eax ∧
    (write 9 nestedWrite).ebx = nestedWrite.ebx ∧
    (write 9 nestedWrite).cmx = nestedWrite.cmx ∧
    (∀ e, (newEvents nestedWrite (write 9 nestedWrite)).head? = some e → e.faulty = true →
      (write 9 nestedWrite).memory = nestedWrite.memory)) :=
  ⟨by decide, C8_write_fault 9 nestedWrite (by decide)⟩

/-! ## C9: pushes followed by as many stack-top reads -/

theorem getD_pos_lt {code : List Int} {p : Nat} {w : Int} (hw : w ≠ 0)
    (h : code.getD p 0 = w) : p < code.length := by
  by_contra hc
  rw [List.getD_eq_getElem?_getD, List.getElem?_eq_none (by omega)] at h
  exact hw h.symm

theorem write_STA (v : Int) (s : VirtualMachine) (h0 : 0 ≤ s.pc)
    (h : s.code.getD s.pc.toNat 0 = STA) :
    write v s = push v { s with pc := s.pc + 1 } := by
  have hlt := getD_pos_lt (by decide) h
  unfold write
  rw [nextCode_in s h0 (by omega), h]
  simp

theorem read_STA (s : VirtualMachine) (h0 : 0 ≤ s.pc)
    (h : s.code.getD s.pc.toNat 0 = STA) :
    read s = pop { s with pc := s.pc + 1 } := by
  have hlt := getD_pos_lt (by decide) h
  have hr := read_eq s
  unfold readDepth at hr
  unfold readFuel at hr
  rw [nextCode_in s h0 (by omega), h] at hr
  simp at hr
  exact hr.symm

theorem pop_cons (s : VirtualMachine) (v : Int) (r : List Int) (h : s.stack = v :: r) :
    (pop s).1 = v ∧ (pop s).2.stack = r ∧ (pop s).2.pc = s.pc ∧ (pop s).2.code = s.code ∧
    (pop s).2.logic_error_flag = s.logic_error_flag := by
  simp [pop, VSVM.log, h]

theorem writes_STA (vs : List Int) : ∀ s : VirtualMachine, 0 ≤ s.pc →
    (∀ j < vs.length, s.code.getD (s.pc.toNat + j) 0 = STA) →
    (writes vs s).stack = vs.reverse ++ s.stack ∧ (writes vs s).pc = s.pc + vs.length ∧
    (writes vs s).code = s.code ∧ (writes vs s).logic_error_flag = s.logic_error_flag := by
  induction vs with
  | nil => intro s _ _; simp [writes]
  | cons v vs ih =>
    intro s h0 h
    unfold writes
    rw [write_STA v s h0 (by simpa using h 0 (by simp))]
    have := ih (push v { s with pc := s.pc + 1 }) (by simp [push, VSVM.log]; omega) (by
      intro j hj
      have := h (j + 1) (by simp; omega)
      simp only [push, VSVM.log]
      rw [show (s.pc + 1).toNat + j = s.pc.toNat + (j + 1) by omega]
      exact this)
    obtain ⟨a, b, c, d⟩ := this
    refine ⟨by rw [a]; simp [push, VSVM.log], by rw [b]; simp [push, VSVM.log]; omega,
      by rw [c]; rfl, by rw [d]; rfl⟩

theorem reads_STA (n : Nat) : ∀ (s : VirtualMachine) (st rest : List Int), 0 ≤ s.pc →
    s.stack = st ++ rest → st.length = n →
    (∀ j < n, s.code.getD (s.pc.toNat + j) 0 = STA) →
    (reads n s).1 = st ∧ (reads n s).2.stack = rest ∧
    (reads n s).2.logic_error_flag = s.logic_error_flag := by
  induction n with
  | zero =>
    intro s st rest _ hs hl _
    have : st = [] := List.eq_nil_of_length_eq_zero hl
    subst this
    simp [reads, hs]
  | succ n ih =>
    intro s st rest h0 hs hl h
    cases st with
    | nil => simp at hl
    | cons v st =>
      unfold reads
      rw [read_STA s h0 (by simpa using h 0 (by omega))]
      obtain ⟨p1, p2, p3, p4, p5⟩ := pop_cons { s with pc := s.pc + 1 } v (st ++ rest) hs
      simp only [] at p3 p4 p5
      have := ih (pop { s with pc := s.pc + 1 }).2 st rest (by rw [p3]; omega) p2
        (by simpa using hl) (by
          intro j hj
          have := h (j + 1) (by omega)
          rw [p3, p4, show (s.pc + 1).toNat + j = s.pc.toNat + (j + 1) by omega]
          exact this)
      obtain ⟨a, b, c⟩ := this
      exact ⟨by simp only [a, p1], b, by rw [c, p5]⟩

/-- C9.  In a program segment of `2 * N` stack-top tags, `N` writes of the
values `v1 .. vN` followed by `N` reads yield `vN, ..., v1` in this order, leave
the fault flag as it was, and leave the value stack equal to what it was before
the segment. -/
theorem C9_push_pop_balanced (s : VirtualMachine) (vs : List Int) (h0 : 0 ≤ s.pc)
    (h : ∀ j < 2 * vs.length, s.code.getD (s.pc.toNat + j) 0 = STA) :
    (reads vs.length (writes vs s)).1 = vs.reverse ∧
    (reads vs.length (writes vs s)).2.stack = s.stack ∧
    (reads vs.length (writes vs s)).2.logic_error_flag = s.logic_error_flag := by
  obtain ⟨a, b, c, d⟩ := writes_STA vs s h0 (fun j hj => h j (by omega))
  have := reads_STA vs.length (writes vs s) vs.reverse s.stack (by rw [b]; omega) a
    (by simp) (by
      intro j hj
      rw [b, c, show (s.pc + vs.length).toNat + j = s.pc.toNat + (vs.length + j) by omega]
      exact h _ (by omega))
  rw [d] at this
  exact this

/-- An instance of C9: the values `7, 8` on a stack that holds `4`. -/
theorem C9_push_pop_balanced_witness :
    0 ≤ stackSegment.pc ∧
    (∀ j < 2 * [7, 8].length,
      stackSegment.code.getD (stackSegment.pc.toNat + j) 0 = STA) ∧
    ((reads [7, 8].length (writes [7, 8] stackSegment)).1 = [7, 8].reverse ∧
    (reads [7, 8].length (writes [7, 8] stackSegment)).2.stack = stackSegment.stack ∧
    (reads [7, 8].length (writes [7, 8] stackSegment)).2.logic_error_flag
      = stackSegment.logic_error_flag) :=
  ⟨by decide, by decide, C9_push_pop_balanced stackSegment [7, 8] (by decide) (by decide)⟩

/-! ## C10: return -/

/-- C10.  Executing `RET`: on an empty call stack the error flag is set, the
program counter becomes `0` and the call stack stays empty; otherwise the
program counter becomes the top entry, that entry is removed and the error flag
is left as it was. -/
theorem C10_ret (s : VirtualMachine) (h0 : 0 ≤ s.pc)
    (hop : s.code.getD s.pc.toNat 0 = RET) :
    (s.proc_stack = [] →
      (cycle s).logic_error_flag = true ∧ (cycle s).pc = 0 ∧ (cycle s).proc_stack = []) ∧
    (∀ t rest, s.proc_stack = t :: rest →
      (cycle s).pc = t ∧ (cycle s).proc_stack = rest ∧
      (cycle s).logic_error_flag = s.logic_error_flag) := by
  have hlt := getD_pos_lt (by decide) hop
  unfold cycle
  rw [nextCode_in s h0 (by omega), hop]
  constructor
  · intro he
    simp [exec, opRET, proc_restore, VSVM.log, he]
  · intro t rest he
    simp [exec, opRET, proc_restore, VSVM.log, he]

/-- An instance of C10: the `RET` of `condcall`, with one return address on
the call stack. -/
theorem C10_ret_witness :
    0 ≤ atReturn.pc ∧ atReturn.code.getD atReturn.pc.toNat 0 = RET ∧
    ((atReturn.proc_stack = [] →
      (cycle atReturn).logic_error_flag = true ∧ (cycle atReturn).pc = 0 ∧
      (cycle atReturn).proc_stack = []) ∧
    (∀ t rest, atReturn.proc_stack = t :: rest →
      (cycle atReturn).pc = t ∧ (cycle atReturn).proc_stack = rest ∧
      (cycle atReturn).logic_error_flag = atReturn.logic_error_flag)) :=
  ⟨by decide, by decide, C10_ret atReturn (by decide) (by decide)⟩

/-! ## Shared lemmas: label lookups, the label scan, frames, the cases of the switch -/

/-- The value and the fault flag of a label lookup. -/
theorem lbl_spec (a : Int) (s : VirtualMachine) :
    (lbl a s).1 = s.label a ∧
    (lbl a s).2.logic_error_flag = (s.logic_error_flag || decide (s.label a = 0)) := by
  unfold lbl
  simp only [VSVM.log]
  split_ifs with h <;> simp [h]

/-- What `pc = lbl(a)` does to each field. -/
theorem jump_fields (a : Int) (s : VirtualMachine) :
    (jump a s).pc = s.label a ∧
    (jump a s).logic_error_flag = (s.logic_error_flag || decide (s.label a = 0)) ∧
    (jump a s).eax = s.eax ∧ (jump a s).ebx = s.ebx ∧ (jump a s).cmx = s.cmx ∧
    (jump a s).memory = s.memory ∧ (jump a s).stack = s.stack ∧
    (jump a s).proc_stack = s.proc_stack ∧ (jump a s).code = s.code ∧
    (jump a s).label = s.label ∧ (jump a s).stop_flag = s.stop_flag := by
  unfold jump lbl
  simp only [VSVM.log]
  split_ifs with h <;> simp [h]

theorem lastDecl_some (code : List Int) (id : Int) : ∀ (n i : Nat),
    lastDecl code id n = some i →
    i < n ∧ isDecl code i id ∧ ∀ j, j < n → isDecl code j id → j ≤ i := by
  intro n
  induction n with
  | zero => intro i h; simp [lastDecl] at h
  | succ n ih =>
    intro i h
    unfold lastDecl at h
    split_ifs at h with hc
    · cases h
      exact ⟨by omega, ⟨hc.2.1, hc.1, hc.2.2⟩, fun j hj _ => by omega⟩
    · obtain ⟨a, b, c⟩ := ih i h
      refine ⟨by omega, b, fun j hj hd => ?_⟩
      rcases Nat.lt_succ_iff_lt_or_eq.1 hj with h' | h'
      · exact c j h' hd
      · subst h'
        exact absurd ⟨hd.2.1, hd.1, hd.2.2⟩ hc

theorem lastDecl_none (code : List Int) (id : Int) : ∀ (n : Nat),
    lastDecl code id n = none → ∀ j, j < n → ¬ isDecl code j id := by
  intro n
  induction n with
  | zero => intro _ j hj; omega
  | succ n ih =>
    intro h j hj hd
    unfold lastDecl at h
    split_ifs at h with hc
    rcases Nat.lt_succ_iff_lt_or_eq.1 hj with h' | h'
    · exact ih h j h' hd
    · subst h'
      exact hc ⟨hd.2.1, hd.1, hd.2.2⟩

/-- The table entry of an id after `fetch`, by the greatest declaring address. -/
theorem fetch_label_decl (code : List Int) (s : VirtualMachine) (id : Int) :
    (∀ i, isDecl code i id → (∀ j, isDecl code j id → j ≤ i) →
      (fetch code s).label id = (i : Int) + 2) ∧
    ((∀ i, ¬ isDecl code i id) → (fetch code s).label id = s.label id) := by
  rw [fetch_label]
  cases hl : lastDecl code id code.length with
  | none =>
    refine ⟨fun i hd _ => ?_, fun _ => rfl⟩
    exact absurd hd (lastDecl_none code id _ hl i (by have := hd.1; omega))
  | some k =>
    obtain ⟨a, b, c⟩ := lastDecl_some code id _ k hl
    refine ⟨fun i hd hmax => ?_, fun h => absurd b (h k)⟩
    have h1 : i ≤ k := c i (by have := hd.1; omega) hd
    have h2 : k ≤ i := hmax k b
    have : i = k := by omega
    subst this
    rfl

theorem Keep_refl (s : VirtualMachine) : Keep s s := ⟨rfl, rfl, rfl, id, id⟩

theorem Keep_trans {s t u : VirtualMachine} (h1 : Keep s t) (h2 : Keep t u) : Keep s u :=
  ⟨h2.code.trans h1.code, h2.label.trans h1.label, h2.proc_stack.trans h1.proc_stack,
    fun h => h2.pc_lo (h1.pc_lo h),
    fun h => by
      have := h2.pc_hi (by rw [h1.code]; exact h1.pc_hi h)
      rwa [h1.code] at this⟩

/-- A step that leaves the program, the label table, the call stack and the program counter
alone. -/
theorem Keep_of_frame {s t : VirtualMachine} (hc : t.code = s.code) (hl : t.label = s.label)
    (hp : t.proc_stack = s.proc_stack) (hpc : t.pc = s.pc) : Keep s t :=
  ⟨hc, hl, hp, fun h => by rw [hpc]; exact h, fun h => by rw [hpc]; exact h⟩

theorem Keep_nextCode (s : VirtualMachine) : Keep s (nextCode s).2 := by
  unfold nextCode
  split_ifs with h
  · exact Keep_of_frame rfl rfl rfl rfl
  · refine ⟨rfl, rfl, rfl, fun h0 => ?_, fun _ => ?_⟩
    · show 0 ≤ s.pc + 1
      omega
    · show s.pc + 1 ≤ s.code.length
      omega

theorem Keep_push (v : Int) (s : VirtualMachine) : Keep s (push v s) :=
  Keep_of_frame rfl rfl rfl rfl

theorem Keep_pop (s : VirtualMachine) : Keep s (pop s).2 := by
  unfold pop
  cases h : s.stack <;> simp only [VSVM.log, h] <;> exact Keep_of_frame rfl rfl rfl rfl

theorem Keep_mem (a : Int) (s : VirtualMachine) : Keep s (mem a s).2 := by
  unfold mem
  simp only [VSVM.log]
  split_ifs <;> exact Keep_of_frame rfl rfl rfl rfl

theorem Keep_set_mem (a v : Int) (s : VirtualMachine) : Keep s (set_mem a v s) := by
  unfold set_mem
  simp only [VSVM.log]
  split_ifs <;> exact Keep_of_frame rfl rfl rfl rfl

theorem Keep_takeUndef (s : VirtualMachine) : Keep s (takeUndef s).2 :=
  Keep_of_frame rfl rfl rfl rfl

theorem Keep_readFuel (fuel : Nat) : ∀ (s : VirtualMachine) (r : Int × VirtualMachine),
    readFuel fuel s = some r → Keep s r.2 := by
  induction fuel with
  | zero => intro s r h; simp [readFuel] at h
  | succ n ih =>
    intro s r h
    unfold readFuel at h
    have h1 := Keep_nextCode s
    rcases hn : nextCode s with ⟨type, s1⟩
    rw [hn] at h h1
    simp only [] at h h1
    split_ifs at h
    · cases h; exact h1
    · cases h; exact h1
    · cases h; exact h1
    · cases h; exact Keep_trans h1 (Keep_trans (Keep_nextCode _) (Keep_mem _ _))
    · cases h; exact Keep_trans h1 (Keep_pop _)
    · cases hr : readFuel n s1 with
      | none => simp [hr] at h
      | some r1 =>
        rw [hr] at h
        cases h
        exact Keep_trans h1 (Keep_trans (ih s1 r1 hr) (Keep_mem _ _))
    · cases h; exact Keep_trans h1 (Keep_nextCode _)
    · cases h; exact Keep_trans h1 (Keep_takeUndef _)

theorem Keep_read (s : VirtualMachine) : Keep s (read s).2 :=
  Keep_readFuel _ s _ (read_eq s)

theorem Keep_write (v : Int) (s : VirtualMachine) : Keep s (write v s) := by
  unfold write
  have h1 := Keep_nextCode s
  rcases hn : nextCode s with ⟨type, s1⟩
  rw [hn] at h1
  simp only [] at h1 ⊢
  split_ifs
  · exact Keep_trans h1 (Keep_of_frame rfl rfl rfl rfl)
  · exact Keep_trans h1 (Keep_of_frame rfl rfl rfl rfl)
  · exact Keep_trans h1 (Keep_of_frame rfl rfl rfl rfl)
  · exact Keep_trans h1 (Keep_trans (Keep_nextCode _) (Keep_set_mem _ _ _))
  · exact Keep_trans h1 (Keep_push _ _)
  · exact Keep_trans h1 (Keep_trans (Keep_read _) (Keep_set_mem _ _ _))
  · exact h1

theorem Keep_binary (f : Int → Int → VirtualMachine → Int × VirtualMachine)
    (hf : ∀ a b s, Keep s (f a b s).2) (s : VirtualMachine) : Keep s (binary f s) := by
  unfold binary
  exact Keep_trans (Keep_read s)
    (Keep_trans (Keep_read _) (Keep_trans (hf _ _ _) (Keep_write _ _)))

theorem Keep_opDIV (s : VirtualMachine) : Keep s (opDIV s) := by
  unfold opDIV
  dsimp only
  split_ifs
  · exact Keep_trans (Keep_read s) (Keep_trans (Keep_read _) (Keep_of_frame rfl rfl rfl rfl))
  · exact Keep_trans (Keep_read s) (Keep_trans (Keep_read _) (Keep_write _ _))

theorem Keep_opMOV (s : VirtualMachine) : Keep s (opMOV s) :=
  Keep_trans (Keep_read s) (Keep_write _ _)

theorem Keep_opLBL (s : VirtualMachine) : Keep s (opLBL s) :=
  Keep_nextCode s

theorem Keep_opCMP (s : VirtualMachine) : Keep s (opCMP s) :=
  Keep_trans (Keep_read s) (Keep_trans (Keep_read _) (Keep_of_frame rfl rfl rfl rfl))

theorem Keep_opNOT (s : VirtualMachine) : Keep s (opNOT s) :=
  Keep_trans (Keep_read s) (Keep_write _ _)

theorem Keep_opEXI (s : VirtualMachine) : Keep s (opEXI s) :=
  Keep_of_frame rfl rfl rfl rfl

theorem Keep_opPRINT (s : VirtualMachine) : Keep s (opPRINT s) :=
  Keep_trans (Keep_read s) (Keep_of_frame rfl rfl rfl rfl)

theorem Keep_opINPUT (s : VirtualMachine) : Keep s (opINPUT s) := by
  unfold opINPUT
  split
  · refine Keep_trans ?_ (Keep_write _ _)
    exact Keep_of_frame rfl rfl rfl rfl
  · exact Keep_trans (Keep_takeUndef _) (Keep_write _ _)

/-- Splitting rule for one `if` of the `switch`. -/
theorem ite_rule {P : VirtualMachine → Prop} {c : Prop} [Decidable c] {a b : VirtualMachine}
    (ha : c → P a) (hb : ¬c → P b) : P (if c then a else b) := by
  split_ifs with h
  · exact ha h
  · exact hb h

/-- Case analysis on the `switch` of `run`: a property holds after the handler of `opcode`
if it holds after each handler that `opcode` can select. -/
theorem exec_cases (P : VirtualMachine → Prop) (opcode : Int) (s : VirtualMachine)
    (hMOV : opcode = MOV → P (opMOV s)) (hLBL : opcode = LBL → P (opLBL s))
    (hbin : (opcode = ADD ∨ opcode = SUB ∨ opcode = MUL ∨ opcode = BIA ∨
        opcode = BIO ∨ opcode = BIX) →
      ∀ f : Int → Int → VirtualMachine → Int × VirtualMachine,
        (∀ a b t, (f a b t).2 = t) → P (binary f s))
    (hDIV : opcode = DIV → P (opDIV s))
    (hCMP : opcode = CMP → P (opCMP s)) (hNOT : opcode = NOT → P (opNOT s))
    (hJMP : opcode = JMP → P (opJMP s))
    (hcj : JEQ ≤ opcode ∧ opcode ≤ JGE → ∀ test, P (condJump test s))
    (hCAL : opcode = CAL → P (opCAL s))
    (hcc : CEQ ≤ opcode ∧ opcode ≤ CGE → ∀ test, P (condCall test s))
    (hRET : opcode = RET → P (opRET s)) (hEXI : opcode = EXI → P (opEXI s))
    (hPRINT : opcode = PRINT → P (opPRINT s)) (hINPUT : opcode = INPUT → P (opINPUT s))
    (hother : P s) : P (exec opcode s) := by
  unfold exec
  refine ite_rule (P := P) (fun h => hMOV h) (fun _ => ?_)
  refine ite_rule (P := P) (fun h => hLBL h) (fun _ => ?_)
  refine ite_rule (P := P) (fun h => hbin (by simp [h]) _ (fun _ _ _ => rfl)) (fun _ => ?_)
  refine ite_rule (P := P) (fun h => hbin (by simp [h]) _ (fun _ _ _ => rfl)) (fun _ => ?_)
  refine ite_rule (P := P) (fun h => hbin (by simp [h]) _ (fun _ _ _ => rfl)) (fun _ => ?_)
  refine ite_rule (P := P) (fun h => hDIV h) (fun _ => ?_)
  refine ite_rule (P := P) (fun h => hCMP h) (fun _ => ?_)
  refine ite_rule (P := P) (fun h => hbin (by simp [h]) _ (fun _ _ _ => rfl)) (fun _ => ?_)
  refine ite_rule (P := P) (fun h => hbin (by simp [h]) _ (fun _ _ _ => rfl)) (fun _ => ?_)
  refine ite_rule (P := P) (fun h => hbin (by simp [h]) _ (fun _ _ _ => rfl)) (fun _ => ?_)
  refine ite_rule (P := P) (fun h => hNOT h) (fun _ => ?_)
  refine ite_rule (P := P) (fun h => hJMP h) (fun _ => ?_)
  refine ite_rule (P := P) (fun h => hcj (by rw [h]; decide) _) (fun _ => ?_)
  refine ite_rule (P := P) (fun h => hcj (by rw [h]; decide) _) (fun _ => ?_)
  refine ite_rule (P := P) (fun h => hcj (by rw [h]; decide) _) (fun _ => ?_)
  refine ite_rule (P := P) (fun h => hcj (by rw [h]; decide) _) (fun _ => ?_)
  refine ite_rule (P := P) (fun h => hcj (by rw [h]; decide) _) (fun _ => ?_)
  refine ite_rule (P := P) (fun h => hcj (by rw [h]; decide) _) (fun _ => ?_)
  refine ite_rule (P := P) (fun h => hCAL h) (fun _ => ?_)
  refine ite_rule (P := P) (fun h => hcc (by rw [h]; decide) _) (fun _ => ?_)
  refine ite_rule (P := P) (fun h => hcc (by rw [h]; decide) _) (fun _ => ?_)
  refine ite_rule (P := P) (fun h => hcc (by rw [h]; decide) _) (fun _ => ?_)
  refine ite_rule (P := P) (fun h => hcc (by rw [h]; decide) _) (fun _ => ?_)
  refine ite_rule (P := P) (fun h => hcc (by rw [h]; decide) _) (fun _ => ?_)
  refine ite_rule (P := P) (fun h => hcc (by rw [h]; decide) _) (fun _ => ?_)
  refine ite_rule (P := P) (fun h => hother) (fun _ => ?_)
  refine ite_rule (P := P) (fun h => hRET h) (fun _ => ?_)
  refine ite_rule (P := P) (fun h => hEXI h) (fun _ => ?_)
  refine ite_rule (P := P) (fun h => hPRINT h) (fun _ => ?_)
  refine ite_rule (P := P) (fun h => hINPUT h) (fun _ => ?_)
  exact hother

theorem Keep_of_pure {f : Int → Int → VirtualMachine → Int × VirtualMachine}
    (hf : ∀ a b t, (f a b t).2 = t) (a b : Int)
    (t : VirtualMachine) : Keep t (f a b t).2 := by
  rw [hf]
  exact Keep_refl t

theorem Keep_opJMP (s : VirtualMachine) :
    (opJMP s).proc_stack = s.proc_stack ∧ (opJMP s).stack = s.stack := by
  unfold opJMP
  obtain ⟨-, -, -, -, -, -, j7, j8, -, -, -⟩ := jump_fields (nextCode s).1 (nextCode s).2
  obtain ⟨-, -, -, -, n5, -, n7, -⟩ := nextCode_fields s
  exact ⟨j8.trans n5, j7.trans n7⟩

theorem condJump_stacks (test : Int → Bool) (s : VirtualMachine) :
    (condJump test s).proc_stack = s.proc_stack ∧ (condJump test s).stack = s.stack := by
  unfold condJump
  obtain ⟨-, -, -, -, -, -, j7, j8, -, -, -⟩ := jump_fields (nextCode s).1 (nextCode s).2
  obtain ⟨-, -, -, -, n5, -, n7, -⟩ := nextCode_fields s
  dsimp only
  split_ifs
  · exact ⟨j8.trans n5, j7.trans n7⟩
  · exact ⟨n5, n7⟩

theorem opCAL_stack (s : VirtualMachine) : (opCAL s).stack = s.stack := by
  unfold opCAL
  obtain ⟨-, -, -, -, -, -, j7, -, -, -, -⟩ :=
    jump_fields (nextCode (proc_push (s.pc + 1) s)).1 (nextCode (proc_push (s.pc + 1) s)).2
  obtain ⟨-, -, -, -, -, -, n7, -⟩ := nextCode_fields (proc_push (s.pc + 1) s)
  exact j7.trans n7

theorem condCall_stack (test : Int → Bool) (s : VirtualMachine) :
    (condCall test s).stack = s.stack := by
  unfold condCall
  obtain ⟨-, -, -, -, -, -, n7, -⟩ := nextCode_fields s
  dsimp only
  split_ifs
  · unfold call
    obtain ⟨-, -, -, -, -, -, j7, -, -, -, -⟩ :=
      jump_fields (nextCode s).1 (proc_push ((nextCode s).2.pc + 1) (nextCode s).2)
    exact j7.trans n7
  · exact n7

theorem opRET_stack (s : VirtualMachine) : (opRET s).stack = s.stack := by
  unfold opRET proc_restore
  cases h : s.proc_stack <;> simp [VSVM.log, h]

/-! ## C11: the conditional jumps -/

/-- A conditional jump whose operand word is present. -/
theorem condJump_in (test : Int → Bool) (s : VirtualMachine) (h0 : 0 ≤ s.pc)
    (h1 : s.pc < s.code.length) :
    condJump test s =
      if test s.cmx then jump (s.code.getD s.pc.toNat 0) { s with pc := s.pc + 1 }
      else { s with pc := s.pc + 1 } := by
  unfold condJump
  rw [nextCode_in s h0 h1]

theorem exec_condJump (opcode : Int) (h : JEQ ≤ opcode ∧ opcode ≤ JGE) (s : VirtualMachine) :
    exec opcode s = condJump (fun cmx => jumpTest opcode cmx) s := by
  obtain ⟨h1, h2⟩ := h
  simp only [JEQ, JGE] at h1 h2
  have : opcode = 12 ∨ opcode = 13 ∨ opcode = 14 ∨ opcode = 15 ∨ opcode = 16 ∨ opcode = 17 := by
    omega
  rcases this with h | h | h | h | h | h <;> subst h <;> simp [exec, jumpTest]

/-- C11.  A conditional jump `JEQ` .. `JGE` at address `p` whose operand word `L` is present:
when its test of `cmx` against zero succeeds, the program counter becomes the table entry of
`L` (the address `0`, with the fault flag set, when `L` has no entry); when the test fails,
the program counter becomes `p + 2` and the fault flag keeps its value, whether `L` has an
entry or not.  In both cases `eax`, `ebx`, `cmx`, the memory, the value stack and the call
stack are unchanged. -/
theorem C11_conditional_jump (s : VirtualMachine) (opcode L : Int) (h0 : 0 ≤ s.pc)
    (h1 : s.pc + 1 < s.code.length) (hop : s.code.getD s.pc.toNat 0 = opcode)
    (hL : s.code.getD (s.pc + 1).toNat 0 = L) (hj : JEQ ≤ opcode ∧ opcode ≤ JGE) :
    (jumpTest opcode s.cmx = true →
      (cycle s).pc = s.label L ∧
      (cycle s).logic_error_flag = (s.logic_error_flag || decide (s.label L = 0))) ∧
    (jumpTest opcode s.cmx = false →
      (cycle s).pc = s.pc + 2 ∧ (cycle s).logic_error_flag = s.logic_error_flag) ∧
    (cycle s).eax = s.eax ∧ (cycle s).ebx = s.ebx ∧ (cycle s).cmx = s.cmx ∧
    (cycle s).memory = s.memory ∧ (cycle s).stack = s.stack ∧
    (cycle s).proc_stack = s.proc_stack := by
  have hc : cycle s =
      if jumpTest opcode s.cmx then jump L { s with pc := s.pc + 1 + 1 }
      else { s with pc := s.pc + 1 + 1 } := by
    unfold cycle
    rw [nextCode_in s h0 (by omega), hop]
    show exec opcode _ = _
    rw [exec_condJump opcode hj, condJump_in _ _ (by simp; omega) (by simp; omega)]
    simp only [hL]
  rw [hc]
  obtain ⟨j1, j2, j3, j4, j5, j6, j7, j8, -, -, -⟩ := jump_fields L { s with pc := s.pc + 1 + 1 }
  cases ht : jumpTest opcode s.cmx
  · simp [add_assoc]
  · simp only [if_true]
    exact ⟨fun _ => ⟨j1, j2⟩, fun h => Bool.noConfusion h, j3, j4, j5, j6, j7, j8⟩

/-- An instance of C11: the taken `JEQ 3` at address `2` of `LBL 3; JEQ 3; EXI`. -/
theorem C11_conditional_jump_witness :
    0 ≤ jeqState.pc ∧ jeqState.pc + 1 < jeqState.code.length ∧
    jeqState.code.getD jeqState.pc.toNat 0 = JEQ ∧
    jeqState.code.getD (jeqState.pc + 1).toNat 0 = 3 ∧
    (JEQ ≤ JEQ ∧ JEQ ≤ JGE) ∧
    jumpTest JEQ jeqState.cmx = true ∧ jeqState.label 3 = 2 ∧
    ((jumpTest JEQ jeqState.cmx = true →
      (cycle jeqState).pc = jeqState.label 3 ∧
      (cycle jeqState).logic_error_flag =
        (jeqState.logic_error_flag || decide (jeqState.label 3 = 0))) ∧
    (jumpTest JEQ jeqState.cmx = false →
      (cycle jeqState).pc = jeqState.pc + 2 ∧
      (cycle jeqState).logic_error_flag = jeqState.logic_error_flag) ∧
    (cycle jeqState).eax = jeqState.eax ∧ (cycle jeqState).ebx = jeqState.ebx ∧
    (cycle jeqState).cmx = jeqState.cmx ∧ (cycle jeqState).memory = jeqState.memory ∧
    (cycle jeqState).stack = jeqState.stack ∧
    (cycle jeqState).proc_stack = jeqState.proc_stack) :=
  ⟨by decide, by decide, by decide, by decide, by decide, by decide, by decide,
    C11_conditional_jump jeqState JEQ 3 (by decide) (by decide) (by decide) (by decide)
      (by decide)⟩

/-! ## C12: the three-operand instructions -/

theorem tdiv_eq_truncQuot (a b : Int) : Int.tdiv a b = truncQuot a b := by
  unfold truncQuot
  rcases Int.natAbs_eq a with ha | ha <;> rcases Int.natAbs_eq b with hb | hb <;>
    rcases Nat.eq_zero_or_pos a.natAbs with za | pa <;>
    rcases Nat.eq_zero_or_pos b.natAbs with zb | pb
  all_goals
    first
    | (have : a = 0 := Int.natAbs_eq_zero.1 za
       subst this
       simp)
    | (have : b = 0 := Int.natAbs_eq_zero.1 zb
       subst this
       simp)
    | skip
  all_goals
    generalize hm : a.natAbs = m at ha pa
    generalize hn : b.natAbs = n at hb pb
    subst ha hb
    have hm' : (0 : Int) < m := by exact_mod_cast pa
    have hn' : (0 : Int) < n := by exact_mod_cast pb
    simp [Int.sign_eq_one_of_pos, Int.sign_eq_neg_one_of_neg, hm', hn', Int.neg_tdiv,
      Int.tdiv_neg, Int.natAbs_neg, Int.natAbs_ofNat]
    rfl

/-- The three-operand instructions in terms of their two reads. -/
theorem binary_eq (f : Int → Int → VirtualMachine → Int × VirtualMachine)
    (s sa sb : VirtualMachine) (a b : Int) (ha : read s = (a, sa)) (hb : read sa = (b, sb)) :
    binary f s = write (f a b sb).1 (f a b sb).2 := by
  unfold binary
  rw [ha]
  simp only []
  rw [hb]

/-- The truncated quotient of two `int`s is an `int`, except for `INT_MIN / -1`. -/
theorem truncQuot_range (a b : Int) (h1 : -2147483648 ≤ a) (h2 : a < 2147483648)
    (hn : ¬ (a = -2147483648 ∧ b = -1)) :
    -2147483648 ≤ truncQuot a b ∧ truncQuot a b < 2147483648 := by
  unfold truncQuot
  have hle : a.natAbs / b.natAbs ≤ a.natAbs := Nat.div_le_self _ _
  have hab : a.natAbs ≤ 2147483648 := by omega
  generalize hq : a.natAbs / b.natAbs = q at hle
  rcases lt_trichotomy a 0 with ha | ha | ha
  · rw [Int.sign_eq_neg_one_of_neg ha]
    rcases lt_trichotomy b 0 with hb | hb | hb
    · rw [Int.sign_eq_neg_one_of_neg hb]
      have : q < 2147483648 := by
        by_contra hc
        have hq2 : q = 2147483648 := by omega
        have ha2 : a.natAbs = 2147483648 := by omega
        have hb1 : b.natAbs ≠ 1 := by
          intro hb1
          exact hn ⟨by omega, by omega⟩
        have hb2 : 2 ≤ b.natAbs := by omega
        have : a.natAbs / b.natAbs ≤ 2147483648 / 2 := by
          rw [ha2]
          exact Nat.div_le_div_left hb2 (by decide)
        omega
      omega
    · subst hb; simp
    · rw [Int.sign_eq_one_of_pos hb]; omega
  · subst ha; simp
  · rw [Int.sign_eq_one_of_pos ha]
    rcases lt_trichotomy b 0 with hb | hb | hb
    · rw [Int.sign_eq_neg_one_of_neg hb]; omega
    · subst hb; simp
    · rw [Int.sign_eq_one_of_pos hb]; omega

/-- The division instruction in terms of its two reads. -/
theorem opDIV_eq (s sa sb : VirtualMachine) (a b : Int) (ha : read s = (a, sa))
    (hb : read sa = (b, sb)) :
    opDIV s =
      if b = 0 ∨ (a = -2147483648 ∧ b = -1) then { sb with trapped := true }
      else write (wrap32 (truncQuot a b)) sb := by
  unfold opDIV
  rw [ha]
  simp only []
  rw [hb]
  simp only [tdiv_eq_truncQuot]

/-- C12 (counterexample).  At `DIV CON INT_MIN CON -1 EAX` the two source operands yield
`a = -2147483648` and the non-zero divisor `b = -1`.  The quotient truncated toward zero
is `2147483648`; the claim has the destination `eax` receive it.  No `int` holds that
value: the division traps and the process is killed before the destination is resolved,
so `eax` keeps its `5`, the destination word is not consumed and `run` never returns. -/
theorem C12_counterexample :
    minDiv.code.getD minDiv.pc.toNat 0 = DIV ∧
    (read { minDiv with pc := minDiv.pc + 1 }).1 = -2147483648 ∧
    (read (read { minDiv with pc := minDiv.pc + 1 }).2).1 = -1 ∧
    truncQuot (-2147483648) (-1) = 2147483648 ∧
    (write (truncQuot (-2147483648) (-1))
      (read (read { minDiv with pc := minDiv.pc + 1 }).2).2).eax = 2147483648 ∧
    (cycle minDiv).trapped = true ∧ (cycle minDiv).eax = 5 ∧ (cycle minDiv).pc = 5 ∧
    (run 5 minDiv).isSome = false := by
  decide

/-- C12 (amended).  A three-operand instruction at the program counter, whose first source
operand reads `a` (from the state after the opcode fetch) and whose second source operand
then reads `b` (from the state the first read leaves, so after the side effects of the
first): the destination operand, resolved in the state the second read leaves, is written
with `a + b` for `ADD`, `a - b` for `SUB`, `a * b` for `MUL`, and the bitwise and, or,
exclusive or of `a` and `b` for `BIA`, `BIO`, `BIX`.  For `DIV` with `b ≠ 0` and not
`a = INT_MIN, b = -1` it is written with the quotient truncated toward zero, which is an
`int` when `a` is one; for `DIV` with `b = 0` or with `a = INT_MIN, b = -1` the division
traps after both reads: the process is killed and the destination is not resolved.  The
arithmetic results are taken in 32 bits, which changes no value within the range of
`int`. -/
theorem C12_binary (s sa sb : VirtualMachine) (opcode a b : Int) (h0 : 0 ≤ s.pc)
    (hop : s.code.getD s.pc.toNat 0 = opcode)
    (ha : read { s with pc := s.pc + 1 } = (a, sa)) (hb : read sa = (b, sb)) :
    (opcode = ADD → cycle s = write (wrap32 (a + b)) sb) ∧
    (opcode = SUB → cycle s = write (wrap32 (a - b)) sb) ∧
    (opcode = MUL → cycle s = write (wrap32 (a * b)) sb) ∧
    (opcode = DIV → b ≠ 0 → ¬ (a = -2147483648 ∧ b = -1) →
      cycle s = write (wrap32 (truncQuot a b)) sb ∧
      (-2147483648 ≤ a → a < 2147483648 → wrap32 (truncQuot a b) = truncQuot a b)) ∧
    (opcode = DIV → b = 0 ∨ (a = -2147483648 ∧ b = -1) →
      cycle s = { sb with trapped := true }) ∧
    (opcode = BIA → ∃ c, cycle s = write c sb ∧
      ∀ k, c.testBit k = (a.testBit k && b.testBit k)) ∧
    (opcode = BIO → ∃ c, cycle s = write c sb ∧
      ∀ k, c.testBit k = (a.testBit k || b.testBit k)) ∧
    (opcode = BIX → ∃ c, cycle s = write c sb ∧
      ∀ k, c.testBit k = xor (a.testBit k) (b.testBit k)) ∧
    (∀ x : Int, -2147483648 ≤ x → x < 2147483648 → wrap32 x = x) := by
  have hc : ∀ w : Int, w ≠ 0 → opcode = w →
      cycle s = exec w { s with pc := s.pc + 1 } := by
    intro w hw he
    have hlt := getD_pos_lt (he ▸ hw) hop
    unfold cycle
    rw [nextCode_in s h0 (by omega)]
    show exec (s.code.getD s.pc.toNat 0) _ = _
    rw [hop, he]
  have e1 : ∀ t, exec ADD t = binary (fun a b s => (wrap32 (a + b), s)) t :=
    fun t => by simp [exec]
  have e2 : ∀ t, exec SUB t = binary (fun a b s => (wrap32 (a - b), s)) t :=
    fun t => by simp [exec]
  have e3 : ∀ t, exec MUL t = binary (fun a b s => (wrap32 (a * b), s)) t :=
    fun t => by simp [exec]
  have e4 : ∀ t, exec DIV t = opDIV t := fun t => by simp [exec]
  have e5 : ∀ t, exec BIA t = binary (fun a b s => (Int.land a b, s)) t :=
    fun t => by simp [exec]
  have e6 : ∀ t, exec BIO t = binary (fun a b s => (Int.lor a b, s)) t :=
    fun t => by simp [exec]
  have e7 : ∀ t, exec BIX t = binary (fun a b s => (Int.xor a b, s)) t :=
    fun t => by simp [exec]
  refine ⟨fun h => ?_, fun h => ?_, fun h => ?_, fun h hb0 hmin => ⟨?_, fun r1 r2 => ?_⟩,
    fun h ht => ?_, fun h => ?_, fun h => ?_, fun h => ?_, wrap32_eq⟩
  · rw [hc ADD (by decide) h, e1, binary_eq _ _ sa sb a b ha hb]
  · rw [hc SUB (by decide) h, e2, binary_eq _ _ sa sb a b ha hb]
  · rw [hc MUL (by decide) h, e3, binary_eq _ _ sa sb a b ha hb]
  · rw [hc DIV (by decide) h, e4, opDIV_eq _ sa sb a b ha hb, if_neg]
    rintro (h1 | h1)
    · exact hb0 h1
    · exact hmin h1
  · obtain ⟨q1, q2⟩ := truncQuot_range a b r1 r2 hmin
    exact wrap32_eq _ q1 q2
  · rw [hc DIV (by decide) h, e4, opDIV_eq _ sa sb a b ha hb, if_pos ht]
  · refine ⟨Int.land a b, ?_, fun k => Int.testBit_land a b k⟩
    rw [hc BIA (by decide) h, e5, binary_eq _ _ sa sb a b ha hb]
  · refine ⟨Int.lor a b, ?_, fun k => Int.testBit_lor a b k⟩
    rw [hc BIO (by decide) h, e6, binary_eq _ _ sa sb a b ha hb]
  · refine ⟨Int.xor a b, ?_, fun k => Int.testBit_lxor a b k⟩
    rw [hc BIX (by decide) h, e7, binary_eq _ _ sa sb a b ha hb]

/-- An instance of C12: `SUB STA STA EAX` on the value stack `10, 3` (top first). -/
theorem C12_binary_witness :
    0 ≤ subTop.pc ∧ subTop.code.getD subTop.pc.toNat 0 = SUB ∧
    read { subTop with pc := subTop.pc + 1 }
      = (10, (read { subTop with pc := subTop.pc + 1 }).2) ∧
    read (read { subTop with pc := subTop.pc + 1 }).2
      = (3, (read (read { subTop with pc := subTop.pc + 1 }).2).2) ∧
    (cycle subTop).eax = 7 ∧
    ((SUB = ADD → cycle subTop = write (wrap32 (10 + 3))
        (read (read { subTop with pc := subTop.pc + 1 }).2).2) ∧
    (SUB = SUB → cycle subTop = write (wrap32 (10 - 3))
        (read (read { subTop with pc := subTop.pc + 1 }).2).2) ∧
    (SUB = MUL → cycle subTop = write (wrap32 (10 * 3))
        (read (read { subTop with pc := subTop.pc + 1 }).2).2) ∧
    (SUB = DIV → (3 : Int) ≠ 0 → ¬ ((10 : Int) = -2147483648 ∧ (3 : Int) = -1) →
      cycle subTop = write (wrap32 (truncQuot 10 3))
        (read (read { subTop with pc := subTop.pc + 1 }).2).2 ∧
      ((-2147483648 : Int) ≤ 10 → (10 : Int) < 2147483648 →
        wrap32 (truncQuot 10 3) = truncQuot 10 3)) ∧
    (SUB = DIV → (3 : Int) = 0 ∨ ((10 : Int) = -2147483648 ∧ (3 : Int) = -1) →
      cycle subTop =
        { (read (read { subTop with pc := subTop.pc + 1 }).2).2 with trapped := true }) ∧
    (SUB = BIA → ∃ c, cycle subTop = write c
        (read (read { subTop with pc := subTop.pc + 1 }).2).2 ∧
      ∀ k, c.testBit k = ((10 : Int).testBit k && (3 : Int).testBit k)) ∧
    (SUB = BIO → ∃ c, cycle subTop = write c
        (read (read { subTop with pc := subTop.pc + 1 }).2).2 ∧
      ∀ k, c.testBit k = ((10 : Int).testBit k || (3 : Int).testBit k)) ∧
    (SUB = BIX → ∃ c, cycle subTop = write c
        (read (read { subTop with pc := subTop.pc + 1 }).2).2 ∧
      ∀ k, c.testBit k = xor ((10 : Int).testBit k) ((3 : Int).testBit k)) ∧
    (∀ x : Int, -2147483648 ≤ x → x < 2147483648 → wrap32 x = x)) :=
  ⟨by decide, by decide, rfl, rfl, by decide,
    C12_binary subTop _ _ SUB 10 3 (by decide) (by decide) rfl rfl⟩

/-! ## C13: loading a second program -/

/-- C13 (counterexample).  After `fetch(stale1)` and then `fetch(stale2)` on one machine the
code is the one of `stale2`, but label `7`, which only `stale1` declares, still resolves
to `2`; after `fetch(stale2)` alone on a fresh machine it is unresolved.  The run of the
reloaded machine jumps to address `2` and stops silently, the run of the fresh machine
faults and prints the failure notice. -/
theorem C13_counterexample :
    (fetch stale2 (fetch stale1 (VirtualMachine.fresh 1024 [] (fun _ => 0)))).code
      = (fetch stale2 (VirtualMachine.fresh 1024 [] (fun _ => 0))).code ∧
    (fetch stale2 (fetch stale1 (VirtualMachine.fresh 1024 [] (fun _ => 0)))).label 7 = 2 ∧
    (fetch stale2 (VirtualMachine.fresh 1024 [] (fun _ => 0))).label 7 = 0 ∧
    (run 3 (fetch stale2 (fetch stale1 (VirtualMachine.fresh 1024 [] (fun _ => 0))))).map
      (fun s => (s.output, s.logic_error_flag)) = some ([], false) ∧
    (run 3 (fetch stale2 (VirtualMachine.fresh 1024 [] (fun _ => 0)))).map
      (fun s => (s.output, s.logic_error_flag)) = some ([Out.notice], true) := by
  decide

/-- C13 (amended).  After `fetch(p1)` followed by `fetch(p2)` on a fresh machine the loaded
code is `p2`, as after `fetch(p2)` alone; every id that `p2` declares (the words `LBL, id`
somewhere in `p2`) has the same table entry as after `fetch(p2)` alone; every id that `p2`
does not declare keeps the entry it had after `fetch(p1)`, whereas after `fetch(p2)` alone
it is unresolved. -/
theorem C13_reload (p1 p2 : List Int) (size : Nat) (input : List Int) (undef : Nat → Int)
    (id : Int) :
    (fetch p2 (fetch p1 (VirtualMachine.fresh size input undef))).code = p2 ∧
    (fetch p2 (VirtualMachine.fresh size input undef)).code = p2 ∧
    ((∃ i, isDecl p2 i id) →
      (fetch p2 (fetch p1 (VirtualMachine.fresh size input undef))).label id
        = (fetch p2 (VirtualMachine.fresh size input undef)).label id) ∧
    ((∀ i, ¬ isDecl p2 i id) →
      (fetch p2 (fetch p1 (VirtualMachine.fresh size input undef))).label id
        = (fetch p1 (VirtualMachine.fresh size input undef)).label id ∧
      (fetch p2 (VirtualMachine.fresh size input undef)).label id = 0) := by
  refine ⟨fetch_code _ _, fetch_code _ _, ?_, ?_⟩
  · rintro ⟨i, hi⟩
    rw [fetch_label p2 (fetch p1 _), fetch_label p2 (VirtualMachine.fresh size input undef)]
    cases hl : lastDecl p2 id p2.length with
    | none => exact absurd hi (lastDecl_none p2 id _ hl i (by have := hi.1; omega))
    | some k => rfl
  · intro hno
    obtain ⟨-, h2⟩ := fetch_label_decl p2 (fetch p1 (VirtualMachine.fresh size input undef)) id
    obtain ⟨-, h3⟩ := fetch_label_decl p2 (VirtualMachine.fresh size input undef) id
    exact ⟨h2 hno, by rw [h3 hno]; rfl⟩

/-! ## C14: the fetch of one word -/

/-- C14.  In every state: `nextCode` with the program counter at or past the program length
returns `EXI`, sets the stop flag and leaves the program counter unchanged; with
`0 ≤ pc < length` it returns `code[pc]`, advances the program counter by exactly `1` and
leaves the stop flag unchanged.  In every case the error flag is unchanged. -/
theorem C14_nextCode (s : VirtualMachine) :
    ((s.code.length : Int) ≤ s.pc →
      (nextCode s).1 = EXI ∧ (nextCode s).2.stop_flag = true ∧ (nextCode s).2.pc = s.pc) ∧
    (0 ≤ s.pc → s.pc < s.code.length →
      s.code[s.pc.toNat]? = some (nextCode s).1 ∧ (nextCode s).2.pc = s.pc + 1 ∧
      (nextCode s).2.stop_flag = s.stop_flag) ∧
    (nextCode s).2.logic_error_flag = s.logic_error_flag := by
  refine ⟨fun h => ?_, fun h0 h1 => ?_, ?_⟩
  · rw [nextCode_out s (Or.inr h)]
    exact ⟨rfl, rfl, rfl⟩
  · rw [nextCode_in s h0 h1]
    refine ⟨?_, rfl, rfl⟩
    have : s.pc.toNat < s.code.length := by omega
    simp [List.getD_eq_getElem?_getD, List.getElem?_eq_getElem this]
  · exact (nextCode_fields s).2.2.2.2.2.2.2

/-! ## C15: the native call -/

/-- The native call consumes no operand word. -/
theorem nav_step (s : VirtualMachine) (h0 : 0 ≤ s.pc) (hop : s.code.getD s.pc.toNat 0 = NAV) :
    cycle s = { s with pc := s.pc + 1 } := by
  have hlt := getD_pos_lt (by decide) hop
  unfold cycle
  rw [nextCode_in s h0 (by omega), hop]
  simp [exec]

/-- C15 (the code departs from the claim).  In `NAV 27; PRINT CON 7; EXI` the word after
`NAV` is the id of the native function.  After the `NAV` at address `0` the program
counter is `1`, not `2`: the next cycle dispatches the id word `27` as the opcode `EXI`,
and the run stops at program counter `2` having printed nothing. -/
theorem C15_nav_consumes_no_operand :
    (cycle (fetch navSkip (VirtualMachine.fresh 1024 [] (fun _ => 0)))).pc = 1 ∧
    (cycle (cycle (fetch navSkip (VirtualMachine.fresh 1024 [] (fun _ => 0))))).stop_flag
      = true ∧
    (run 3 (fetch navSkip (VirtualMachine.fresh 1024 [] (fun _ => 0)))).map
      (fun s => (s.output, s.pc)) = some ([], 2) := by
  decide

/-! ## C16: a constant as the target of a write -/

/-- C16 (counterexample).  A `write` that finds the tag `CON` leaves the fault flag
clear. -/
theorem C16_counterexample :
    constTarget.code.getD constTarget.pc.toNat 0 = CON ∧
    (write 9 constTarget).logic_error_flag = false := by
  decide

/-- C16 (amended).  In every state and for every value `v`, a `write` whose tag word is
`CON` consumes that one word and does nothing else: it returns the state with the program
counter advanced by `1`, so the fault flag, the registers, the memory and both stacks are
unchanged (the word after the tag is not consumed). -/
theorem C16_write_const (v : Int) (s : VirtualMachine) (h0 : 0 ≤ s.pc)
    (hop : s.code.getD s.pc.toNat 0 = CON) :
    write v s = { s with pc := s.pc + 1 } := by
  have hlt := getD_pos_lt (by decide) hop
  unfold write
  rw [nextCode_in s h0 (by omega), hop]
  simp

/-- An instance of C16: writing `9` at the program `CON 5`. -/
theorem C16_write_const_witness :
    0 ≤ constTarget.pc ∧ constTarget.code.getD constTarget.pc.toNat 0 = CON ∧
    write 9 constTarget = { constTarget with pc := constTarget.pc + 1 } :=
  ⟨by decide, by decide, C16_write_const 9 constTarget (by decide) (by decide)⟩

/-! ## C17: which instructions use which stack -/

/-- C17.  In every state, with `opcode` the word that the dispatch cycle fetches: if
`opcode` is none of `CAL`, `CEQ`, `CNE`, `CLT`, `CGT`, `CLE`, `CGE`, `RET`, the cycle leaves
the call stack unchanged; if `opcode` is one of these eight or one of the jumps `JMP`,
`JEQ`, `JNE`, `JLT`, `JGT`, `JLE`, `JGE`, the cycle leaves the value stack unchanged. -/
theorem C17_stack_frames (s : VirtualMachine) :
    ((nextCode s).1 ∉ [CAL, CEQ, CNE, CLT, CGT, CLE, CGE, RET] →
      (cycle s).proc_stack = s.proc_stack) ∧
    ((nextCode s).1 ∈ [JMP, JEQ, JNE, JLT, JGT, JLE, JGE, CAL, CEQ, CNE, CLT, CGT, CLE, CGE,
        RET] →
      (cycle s).stack = s.stack) := by
  obtain ⟨-, -, -, -, n5, -, n7, -⟩ := nextCode_fields s
  have hc : cycle s = exec (nextCode s).1 (nextCode s).2 := rfl
  rw [hc]
  generalize (nextCode s).1 = opcode
  generalize (nextCode s).2 = s1 at n5 n7
  constructor
  · intro hn
    rw [← n5]
    refine exec_cases (fun t => t.proc_stack = s1.proc_stack) opcode s1
      (fun _ => (Keep_opMOV s1).proc_stack) (fun _ => (Keep_opLBL s1).proc_stack)
      (fun _ f hf => (Keep_binary f (Keep_of_pure hf) s1).proc_stack)
      (fun _ => (Keep_opDIV s1).proc_stack)
      (fun _ => (Keep_opCMP s1).proc_stack) (fun _ => (Keep_opNOT s1).proc_stack)
      (fun _ => (Keep_opJMP s1).1) (fun _ test => (condJump_stacks test s1).1)
      (fun h => ?_) (fun h => ?_) (fun h => ?_)
      (fun _ => (Keep_opEXI s1).proc_stack) (fun _ => (Keep_opPRINT s1).proc_stack)
      (fun _ => (Keep_opINPUT s1).proc_stack) rfl
    · exact absurd (by rw [h]; decide) hn
    · exfalso
      apply hn
      obtain ⟨h1, h2⟩ := h
      simp only [CEQ, CGE] at h1 h2
      have : opcode = 19 ∨ opcode = 20 ∨ opcode = 21 ∨ opcode = 22 ∨ opcode = 23 ∨
          opcode = 24 := by omega
      rcases this with h | h | h | h | h | h <;> rw [h] <;> decide
    · exact absurd (by rw [h]; decide) hn
  · intro hm
    rw [← n7]
    refine exec_cases (fun t => t.stack = s1.stack) opcode s1
      (fun h => ?_) (fun h => ?_) (fun h => ?_) (fun h => ?_) (fun h => ?_) (fun h => ?_)
      (fun _ => (Keep_opJMP s1).2) (fun _ test => (condJump_stacks test s1).2)
      (fun _ => opCAL_stack s1) (fun _ test => condCall_stack test s1)
      (fun _ => opRET_stack s1) (fun h => ?_) (fun h => ?_) (fun h => ?_) rfl
    · rw [h] at hm; exact absurd hm (by decide)
    · rw [h] at hm; exact absurd hm (by decide)
    · rcases h with h | h | h | h | h | h <;> rw [h] at hm <;> exact absurd hm (by decide)
    · rw [h] at hm; exact absurd hm (by decide)
    · rw [h] at hm; exact absurd hm (by decide)
    · rw [h] at hm; exact absurd hm (by decide)
    · rw [h] at hm; exact absurd hm (by decide)
    · rw [h] at hm; exact absurd hm (by decide)
    · rw [h] at hm; exact absurd hm (by decide)

/-! ## C18: the label table after loading -/

/-- C18.  After `fetch(code)` on a fresh machine, for every id: if the words `LBL, id`
stand at the positions `i, i + 1` of the word stream and `i` is the greatest such
position, the table entry of `id` is `i + 2`, which lies in `[2, code.size()]`, and a lookup
of `id` yields `i + 2` and leaves the fault flag as it is; if there is no such position, the
entry is `0` and a lookup of `id` yields `0` and sets the fault flag. -/
theorem C18_label_table (code : List Int) (size : Nat) (input : List Int) (undef : Nat → Int)
    (id : Int) :
    (∀ i, isDecl code i id → (∀ j, isDecl code j id → j ≤ i) →
      (fetch code (VirtualMachine.fresh size input undef)).label id = (i : Int) + 2 ∧
      (2 : Int) ≤ (i : Int) + 2 ∧ (i : Int) + 2 ≤ code.length ∧
      (lbl id (fetch code (VirtualMachine.fresh size input undef))).1 = (i : Int) + 2 ∧
      (lbl id (fetch code (VirtualMachine.fresh size input undef))).2.logic_error_flag
        = (fetch code (VirtualMachine.fresh size input undef)).logic_error_flag) ∧
    ((∀ i, ¬ isDecl code i id) →
      (fetch code (VirtualMachine.fresh size input undef)).label id = 0 ∧
      (lbl id (fetch code (VirtualMachine.fresh size input undef))).1 = 0 ∧
      (lbl id (fetch code (VirtualMachine.fresh size input undef))).2.logic_error_flag
        = true) := by
  obtain ⟨h1, h2⟩ := fetch_label_decl code (VirtualMachine.fresh size input undef) id
  constructor
  · intro i hd hmax
    have hl := h1 i hd hmax
    have hlen := hd.1
    have hne : ¬ ((i : Int) + 2 = 0) := by omega
    obtain ⟨l1, l2⟩ := lbl_spec id (fetch code (VirtualMachine.fresh size input undef))
    refine ⟨hl, by omega, by omega, by rw [l1, hl], ?_⟩
    rw [l2, hl]
    simp [hne]
  · intro hno
    have hl : (fetch code (VirtualMachine.fresh size input undef)).label id = 0 := by
      rw [h2 hno]; rfl
    obtain ⟨l1, l2⟩ := lbl_spec id (fetch code (VirtualMachine.fresh size input undef))
    refine ⟨hl, by rw [l1, hl], ?_⟩
    rw [l2, hl]
    simp

/-! ## C19: bounds on the program counter and the call stack -/

theorem Bounded_of_Keep {code : List Int} {s t : VirtualMachine} (hb : Bounded code s)
    (hp : s.pc ≤ code.length) (hk : Keep s t) : Bounded code t ∧ t.pc ≤ code.length := by
  have hc := hb.prog
  have h1 := hk.pc_hi (by rw [hc]; exact hp)
  rw [hc] at h1
  refine ⟨⟨hk.code.trans hc, ?_, hk.pc_lo hb.pc_lo, by omega, ?_⟩, h1⟩
  · rw [hk.label]; exact hb.label
  · rw [hk.proc_stack]; exact hb.calls

theorem Bounded_jump {code : List Int} {s : VirtualMachine} (hb : Bounded code s) (a : Int) :
    Bounded code (jump a s) := by
  obtain ⟨j1, -, -, -, -, -, -, j8, j9, j10, -⟩ := jump_fields a s
  have hl := hb.label a
  refine ⟨j9.trans hb.prog, ?_, by rw [j1]; exact hl.1, by rw [j1]; omega, ?_⟩
  · rw [j10]; exact hb.label
  · rw [j8]; exact hb.calls

theorem Bounded_proc_push {code : List Int} {s : VirtualMachine} (hb : Bounded code s)
    (v : Int) (h1 : 1 ≤ v) (h2 : v ≤ (code.length : Int) + 1) :
    Bounded code (proc_push v s) ∧ (proc_push v s).pc = s.pc := by
  refine ⟨⟨hb.prog, hb.label, hb.pc_lo, hb.pc_hi, ?_⟩, rfl⟩
  intro e he
  simp only [proc_push, VSVM.log, List.mem_cons] at he
  rcases he with he | he
  · rw [he]; exact ⟨h1, h2⟩
  · exact hb.calls e he

theorem Bounded_opRET {code : List Int} {s : VirtualMachine} (hb : Bounded code s) :
    Bounded code (opRET s) := by
  unfold opRET proc_restore
  cases h : s.proc_stack with
  | nil =>
    simp only [VSVM.log, h]
    exact ⟨hb.prog, hb.label, le_rfl, by show (0 : Int) ≤ _; omega,
      fun e he => by simp at he⟩
  | cons t rest =>
    simp only [VSVM.log, h]
    have ht := hb.calls t (by rw [h]; exact List.mem_cons_self _ _)
    exact ⟨hb.prog, hb.label, by show 0 ≤ t; omega, ht.2,
      fun e he => hb.calls e (by rw [h]; exact List.mem_cons_of_mem _ he)⟩

/-- One iteration of the loop of `run` keeps the bounds. -/
theorem Bounded_cycle {code : List Int} {s : VirtualMachine} (hb : Bounded code s) :
    Bounded code (cycle s) := by
  have hc : cycle s = exec (nextCode s).1 (nextCode s).2 := rfl
  rw [hc]
  by_cases hin : s.pc < s.code.length
  · have hlen : s.pc < code.length := by rw [← hb.prog]; exact hin
    rw [nextCode_in s hb.pc_lo hin]
    dsimp only
    generalize s.code.getD s.pc.toNat 0 = opcode
    have hb1 : Bounded code { s with pc := s.pc + 1 } :=
      ⟨hb.prog, hb.label, by show 0 ≤ s.pc + 1; have := hb.pc_lo; omega,
        by show s.pc + 1 ≤ _; omega, hb.calls⟩
    have hp1 : ({ s with pc := s.pc + 1 } : VirtualMachine).pc ≤ code.length := by
      show s.pc + 1 ≤ _; omega
    generalize ({ s with pc := s.pc + 1 } : VirtualMachine) = s1 at hb1 hp1
    have hn := Bounded_of_Keep hb1 hp1 (Keep_nextCode s1)
    refine exec_cases (Bounded code) opcode s1
      (fun _ => (Bounded_of_Keep hb1 hp1 (Keep_opMOV s1)).1)
      (fun _ => (Bounded_of_Keep hb1 hp1 (Keep_opLBL s1)).1)
      (fun _ f hf => (Bounded_of_Keep hb1 hp1 (Keep_binary f (Keep_of_pure hf) s1)).1)
      (fun _ => (Bounded_of_Keep hb1 hp1 (Keep_opDIV s1)).1)
      (fun _ => (Bounded_of_Keep hb1 hp1 (Keep_opCMP s1)).1)
      (fun _ => (Bounded_of_Keep hb1 hp1 (Keep_opNOT s1)).1)
      (fun _ => Bounded_jump hn.1 _)
      (fun _ test => ?_) (fun _ => ?_) (fun _ test => ?_)
      (fun _ => Bounded_opRET hb1)
      (fun _ => (Bounded_of_Keep hb1 hp1 (Keep_opEXI s1)).1)
      (fun _ => (Bounded_of_Keep hb1 hp1 (Keep_opPRINT s1)).1)
      (fun _ => (Bounded_of_Keep hb1 hp1 (Keep_opINPUT s1)).1) hb1
    · unfold condJump
      dsimp only
      split_ifs
      · exact Bounded_jump hn.1 _
      · exact hn.1
    · unfold opCAL
      have hq := Bounded_proc_push hb1 (s1.pc + 1) (by have := hb1.pc_lo; omega) (by omega)
      exact Bounded_jump (Bounded_of_Keep hq.1 (by rw [hq.2]; exact hp1) (Keep_nextCode _)).1 _
    · unfold condCall
      dsimp only
      split_ifs
      · unfold call
        exact Bounded_jump (Bounded_proc_push hn.1 _ (by have := hn.1.pc_lo; omega)
          (by have := hn.2; omega)).1 _
      · exact hn.1
  · rw [nextCode_out s (Or.inr (by omega))]
    show Bounded code (exec EXI _)
    have : exec EXI { s with stop_flag := true } = { s with stop_flag := true } := by
      simp [exec, opEXI]
    rw [this]
    exact ⟨hb.prog, hb.label, hb.pc_lo, hb.pc_hi, hb.calls⟩

theorem Bounded_runCycles {code : List Int} (n : Nat) : ∀ {s : VirtualMachine},
    Bounded code s → Bounded code (runCycles n s) := by
  induction n with
  | zero => intro s hb; exact hb
  | succ n ih =>
    intro s hb
    unfold runCycles
    split_ifs
    · exact hb
    · exact hb
    · exact ⟨hb.prog, hb.label, hb.pc_lo, hb.pc_hi, hb.calls⟩
    · exact ih (Bounded_cycle hb)

/-- A program loaded into a fresh machine is within the bounds. -/
theorem Bounded_fetch (code : List Int) (size : Nat) (input : List Int) (undef : Nat → Int) :
    Bounded code (fetch code (VirtualMachine.fresh size input undef)) := by
  obtain ⟨h1, h2, -, -, h5, -⟩ :=
    fetch_scan code (VirtualMachine.fresh size input undef) code.length
  refine ⟨h1, fun id => ?_, ?_, ?_, ?_⟩
  · rw [fetch_label]
    cases hl : lastDecl code id code.length with
    | none => exact ⟨le_rfl, by show (0 : Int) ≤ _; omega⟩
    | some i =>
      obtain ⟨-, hd, -⟩ := lastDecl_some code id _ i hl
      have := hd.1
      constructor
      · show (0 : Int) ≤ (i : Int) + 2; omega
      · show (i : Int) + 2 ≤ _; omega
  · show 0 ≤ (fetch code _).pc
    rw [show (fetch code (VirtualMachine.fresh size input undef)).pc = _ from h2]
    exact le_rfl
  · show (fetch code _).pc ≤ _
    rw [show (fetch code (VirtualMachine.fresh size input undef)).pc = _ from h2]
    show (0 : Int) ≤ _
    omega
  · intro e he
    rw [show (fetch code (VirtualMachine.fresh size input undef)).proc_stack = _ from h5] at he
    simp [VirtualMachine.fresh] at he

/-- C19.  On every program loaded once into a fresh machine and every input, after any
number `n` of iterations of the loop of `run`: the program is still the loaded one, the
program counter lies in `[0, code.size() + 1]`, every call-stack entry lies in
`[1, code.size() + 1]`, and the next `nextCode` either finds the counter at or past the end
of the program, indexes nothing and returns `EXI` with the stop flag set, or indexes the
program at a position below its size. -/
theorem C19_pc_bounds (code : List Int) (size : Nat) (input : List Int) (undef : Nat → Int)
    (n : Nat) :
    (reached code size input undef n).code = code ∧
    0 ≤ (reached code size input undef n).pc ∧
    (reached code size input undef n).pc ≤ (code.length : Int) + 1 ∧
    (∀ e ∈ (reached code size input undef n).proc_stack,
      1 ≤ e ∧ e ≤ (code.length : Int) + 1) ∧
    (((code.length : Int) ≤ (reached code size input undef n).pc ∧
        nextCode (reached code size input undef n) =
          (EXI, { reached code size input undef n with stop_flag := true })) ∨
      ((reached code size input undef n).pc.toNat < code.length ∧
        ((reached code size input undef n).pc.toNat : Int) =
          (reached code size input undef n).pc ∧
        code[(reached code size input undef n).pc.toNat]? =
          some (nextCode (reached code size input undef n)).1 ∧
        (nextCode (reached code size input undef n)).2 =
          { reached code size input undef n with
            pc := (reached code size input undef n).pc + 1 })) := by
  have hb : Bounded code (reached code size input undef n) :=
    Bounded_runCycles n (Bounded_fetch code size input undef)
  generalize reached code size input undef n = t at hb
  refine ⟨hb.prog, hb.pc_lo, hb.pc_hi, hb.calls, ?_⟩
  have hlo := hb.pc_lo
  by_cases hin : t.pc < code.length
  · right
    have hin2 : t.pc < t.code.length := by rw [hb.prog]; exact hin
    have ht : t.pc.toNat < code.length := by omega
    refine ⟨ht, Int.toNat_of_nonneg hlo, ?_, ?_⟩
    · rw [nextCode_in t hlo hin2, hb.prog]
      simp [List.getD_eq_getElem?_getD, List.getElem?_eq_getElem ht]
    · rw [nextCode_in t hlo hin2]
  · left
    refine ⟨by omega, nextCode_out t (Or.inr ?_)⟩
    rw [hb.prog]; omega

/-! ## C20: termination of operand resolution -/

theorem readFuel_ptr (fuel : Nat) (s : VirtualMachine) (h : (nextCode s).1 = PTR) :
    readFuel (fuel + 1) s =
      match readFuel fuel (nextCode s).2 with
      | none => none
      | some (addr, t) => some (mem addr t) := by
  rw [readFuel]
  simp [h]

theorem readFuel_not_ptr (fuel : Nat) (s : VirtualMachine) (h : (nextCode s).1 ≠ PTR) :
    (readFuel (fuel + 1) s).isSome = true := by
  rw [readFuel]
  simp only [PTR] at h
  dsimp only
  split_ifs <;> first | rfl | (exfalso; apply h; assumption)

theorem nestedReads_le (fuel : Nat) : ∀ s : VirtualMachine,
    nestedReads fuel s ≤ s.code.length - s.pc.toNat := by
  induction fuel with
  | zero => intro s; exact Nat.zero_le _
  | succ n ih =>
    intro s
    unfold nestedReads
    split_ifs with h
    · by_cases hin : 0 ≤ s.pc ∧ s.pc < s.code.length
      · have := ih (nextCode s).2
        rw [nextCode_in s hin.1 hin.2] at this ⊢
        simp only at this ⊢
        omega
      · rw [nextCode_out s (by omega)] at h
        simp at h
    · exact Nat.zero_le _

theorem readFuel_isSome_iff (fuel : Nat) : ∀ s : VirtualMachine,
    (readFuel fuel s).isSome = true ↔ nestedReads fuel s < fuel := by
  induction fuel with
  | zero => intro s; simp [readFuel]
  | succ n ih =>
    intro s
    by_cases h : (nextCode s).1 = PTR
    · rw [readFuel_ptr n s h]
      have := ih (nextCode s).2
      unfold nestedReads
      rw [if_pos h]
      cases hr : readFuel n (nextCode s).2 with
      | none => rw [hr] at this; simp at this ⊢; omega
      | some r => rw [hr] at this; simp at this ⊢; omega
    · rw [readFuel_not_ptr n s h]
      unfold nestedReads
      rw [if_neg h]
      simp

theorem nestedReads_stable (fuel : Nat) : ∀ (s : VirtualMachine) (m : Nat),
    nestedReads fuel s < fuel → nestedReads fuel s < m →
    nestedReads m s = nestedReads fuel s := by
  induction fuel with
  | zero => intro s m h; omega
  | succ n ih =>
    intro s m h1 h2
    cases m with
    | zero => omega
    | succ m =>
      by_cases h : (nextCode s).1 = PTR
      · simp only [nestedReads, if_pos h] at h1 h2 ⊢
        rw [ih (nextCode s).2 m (by omega) (by omega)]
      · simp only [nestedReads, if_neg h]

theorem nestedReads_idem (fuel : Nat) : ∀ s : VirtualMachine,
    nestedReads (nestedReads fuel s) s = nestedReads fuel s := by
  induction fuel with
  | zero => intro s; rfl
  | succ n ih =>
    intro s
    by_cases h : (nextCode s).1 = PTR
    · rw [show nestedReads (n + 1) s = nestedReads n (nextCode s).2 + 1 by
        rw [nestedReads, if_pos h]]
      rw [nestedReads, if_pos h, ih]
    · rw [show nestedReads (n + 1) s = 0 by rw [nestedReads, if_neg h]]
      rfl

/-- C20.  Operand resolution terminates on every machine state: the recursion bound
`readDepth` that `read` runs with is never hit.  A `read` makes exactly
`nestedReads (readDepth s) s` nested recursive calls (with one level more than that the
result is the one of `read`, with that many levels the recursion is cut short), and however
far the calls are counted their number is at most `code.size() - pc` (truncated at `0`; for
`0 ≤ pc ≤ code.size()` this is the integer difference).  A `write` that fetches the tag
`PTR` calls `read` once in the state after that fetch, and this call together with its nested
calls is again at most `code.size() - pc` calls.  A fetch outside the program returns `EXI`,
which is not `PTR`, so the chain of nested calls ends there at the latest. -/
theorem C20_read_terminates (s : VirtualMachine) (v : Int) (fuel : Nat) :
    readFuel (readDepth s) s = some (read s) ∧
    readFuel (nestedReads (readDepth s) s + 1) s = some (read s) ∧
    readFuel (nestedReads (readDepth s) s) s = none ∧
    nestedReads fuel s ≤ s.code.length - s.pc.toNat ∧
    (0 ≤ s.pc → s.pc ≤ s.code.length →
      (nestedReads fuel s : Int) ≤ (s.code.length : Int) - s.pc) ∧
    ((nextCode s).1 = PTR →
      write v s = set_mem (read (nextCode s).2).1 v (read (nextCode s).2).2 ∧
      nestedReads fuel (nextCode s).2 + 1 ≤ s.code.length - s.pc.toNat) ∧
    (s.pc < 0 ∨ (s.code.length : Int) ≤ s.pc →
      (nextCode s).1 = EXI ∧ EXI ≠ PTR ∧ nestedReads fuel s = 0) := by
  have hle := nestedReads_le (readDepth s) s
  have hlt : nestedReads (readDepth s) s < readDepth s := by unfold readDepth at hle ⊢; omega
  have hsome : (readFuel (nestedReads (readDepth s) s + 1) s).isSome = true := by
    rw [readFuel_isSome_iff,
      nestedReads_stable (readDepth s) s _ hlt (Nat.lt_succ_self _)]
    exact Nat.lt_succ_self _
  refine ⟨read_eq s, ?_, ?_, nestedReads_le fuel s, ?_, ?_, ?_⟩
  · obtain ⟨r, hr⟩ := Option.isSome_iff_exists.1 hsome
    have h2 := readFuel_mono _ s r hr (readDepth s - (nestedReads (readDepth s) s + 1))
    rw [show nestedReads (readDepth s) s + 1 +
      (readDepth s - (nestedReads (readDepth s) s + 1)) = readDepth s by omega, read_eq] at h2
    rw [hr, h2]
  · have h := readFuel_isSome_iff (nestedReads (readDepth s) s) s
    rw [nestedReads_idem] at h
    cases hr : readFuel (nestedReads (readDepth s) s) s with
    | none => rfl
    | some r => rw [hr] at h; exact absurd (h.1 rfl) (lt_irrefl _)
  · intro h0 h1
    have := nestedReads_le fuel s
    omega
  · intro h
    constructor
    · unfold write
      simp [h]
    · have h1 : nestedReads (fuel + 1) s = nestedReads fuel (nextCode s).2 + 1 := by
        rw [nestedReads, if_pos h]
      rw [← h1]
      exact nestedReads_le _ s
  · intro h
    have hn := nextCode_out s h
    refine ⟨by rw [hn], by decide, ?_⟩
    cases fuel with
    | zero => rfl
    | succ n =>
      rw [nestedReads, if_neg]
      rw [hn]; simp

end VSVM
